import Mathlib

/-!
# HTTPS_WebServer: event scheduler, session store, history log, upload parser

Shallow embedding of the application logic of the ESP32 web server sketches
(`main.cpp`, `main2.cpp`, the history handlers and `WebApi.h`) and the
properties proved about it.

Conventions of the embedding:
* C strings and `std::string` values are lists of characters (`Str`);
* `unsigned long`, `size_t` and `uint32_t` are 32 bits wide on the ESP32: they
  are natural numbers, reduced modulo `2^32` where the C code converts or
  subtracts;
* global state (the event table, the files on the flash file system) is passed
  in and returned explicitly;
* the HTTP transport and the JSON library are outside the sketches: a handler
  receives the already decoded request and returns a `Response` value.
-/

namespace WebServer

/-! ## Definitions -/

/-- Byte strings (`char*`, `std::string`, Arduino `String`). -/
abbrev Str := List Char

/-- Number of values of a 32-bit unsigned integer (`unsigned long`, `size_t`, `uint32_t`). -/
def ULONG_RANGE : Nat := 4294967296

/-- Conversion of an integer to `unsigned long` / `size_t`: the value modulo `2^32`. -/
def toUnsignedLong (v : Int) : Nat := (v % (ULONG_RANGE : Int)).toNat

/-- Subtraction of two `unsigned long` values, as the machine computes it. -/
def subUnsignedLong (a b : Nat) : Nat := toUnsignedLong ((a : Int) - (b : Int))

/-! ### Responses -/

/-- One object of the JSON arrays and objects the event handlers print. -/
structure EventJson where
  gpio : Int
  state : Int
  time : Nat
  id : Int
deriving DecidableEq

/-- One record of the history log (`struct HistoryRecord`); the JSON array of
`GET /api/history` lists the same three values as `user`, `state`, `epochtime`. -/
structure HistoryRecord where
  userCode : Nat
  state : Nat
  epochtime : Nat
deriving DecidableEq

/-- What a handler writes to the response body: nothing, text, or a JSON value printed by
the JSON library. -/
inductive Payload where
  | empty
  | text (s : Str)
  | eventObject (e : EventJson)
  | eventArray (entries : List EventJson)
  | historyArray (records : List HistoryRecord)
deriving DecidableEq

/-- The part of `HTTPResponse` the handlers set. A fresh response is `200 OK`. -/
structure Response where
  statusCode : Nat
  statusText : Str
  headers : List (Str × Str)
  payload : Payload
deriving DecidableEq

/-- The response object as the transport hands it to a handler. -/
def freshResponse : Response :=
  { statusCode := 200, statusText := "OK".toList, headers := [], payload := Payload.empty }

/-- Effect of `setStatusCode`, `setStatusText` and `println` on a fresh response. -/
def errorResponse (code : Nat) (statusText line : String) : Response :=
  { statusCode := code, statusText := statusText.toList, headers := [],
    payload := Payload.text (line.toList ++ "\r\n".toList) }

/-! ### Event scheduler (`main.cpp`) -/

/-- Capacity of the event table (`#define MAX_EVENTS 20`). -/
def MAX_EVENTS : Nat := 20

/-- Modelled from the spec: the Arduino core pin level `HIGH` (the core header is not part
of the sketches); the target state of an event is one of `HIGH`, `LOW`. -/
def HIGH : Int := 1

/-- Modelled from the spec: the Arduino core pin level `LOW`. -/
def LOW : Int := 0

/-- One slot of the global `events` array. -/
structure Event where
  active : Bool
  time : Nat
  gpio : Int
  state : Int
deriving DecidableEq

/-- A slot as `setup()` initialises it. -/
def setupEvent : Event := { active := false, time := 0, gpio := 0, state := LOW }

/-- The event table after the initialisation loop of `setup()`. -/
def setupEvents : List Event := List.replicate MAX_EVENTS setupEvent

/-- Read of `events[i]`. -/
def slot (events : List Event) (i : Nat) : Event := events.getD i setupEvent

/-- The event loop of `loop()`, from index `i` for `n` more iterations; `pins` collects the
`digitalWrite(gpio, state)` calls in the order they are made. -/
def tickLoop (now : Nat) :
    Nat → Nat → List Event → List (Int × Int) → List Event × List (Int × Int)
  | 0, _, events, pins => (events, pins)
  | n + 1, i, events, pins =>
    if (slot events i).active then
      if (slot events i).time < now then
        tickLoop now n (i + 1)
          (events.set i { slot events i with active := false })
          (pins ++ [((slot events i).gpio, (slot events i).state)])
      else tickLoop now n (i + 1) events pins
    else tickLoop now n (i + 1) events pins

/-- The scheduler pass of `loop()` for a given value of `now`. -/
def tick (now : Nat) (events : List Event) : List Event × List (Int × Int) :=
  tickLoop now MAX_EVENTS 0 events []

/-- The scheduler part of `loop()`: `now = millis() / 1000`. -/
def loop (millis : Nat) (events : List Event) : List Event × List (Int × Int) :=
  tick (millis / 1000) events

/-- The decoded body of `POST /api/events`. `requestComplete` is the transport's flag after
the read loop; a field is `some v` when the JSON member exists and the library's `is<long>`
resp. `is<int>` test accepts it, `v` being its integer value. -/
structure EventRequest where
  requestComplete : Bool
  time : Option Int
  gpio : Option Int
  state : Option Int
deriving DecidableEq

/-- The slot search of `handlePostEvent`, from index `i` for at most `n` more iterations. -/
def postLoop (eGpio eState : Int) (eTime : Nat) :
    Nat → Nat → List Event → Int → List Event × Int
  | 0, _, events, eventID => (events, eventID)
  | n + 1, i, events, eventID =>
    if eventID = -1 then
      if !(slot events i).active then
        postLoop eGpio eState eTime n (i + 1)
          (events.set i { active := true, time := eTime, gpio := eGpio, state := eState })
          (i : Int)
      else postLoop eGpio eState eTime n (i + 1) events eventID
    else (events, eventID)

/-- Handler of `POST /api/events`; `millis` is the value `millis()` returns. -/
def handlePostEvent (req : EventRequest) (millis : Nat) (events : List Event) :
    Response × List Event :=
  if !req.requestComplete then
    (errorResponse 413 "Request entity too large" "413 Request entity too large", events)
  else
    let typesOk := req.time.isSome && req.gpio.isSome && req.state.isSome
    let eTime : Nat := if typesOk then toUnsignedLong (req.time.getD 0) else 0
    let eGpio : Int := if typesOk then req.gpio.getD 0 else 0
    let eState : Int := if typesOk then req.state.getD 0 else LOW
    let dataValid := typesOk && !(decide (eTime < millis / 1000))
      && (eGpio == 25 || eGpio == 26 || eGpio == 27 || eGpio == 32 || eGpio == 33)
      && !(eState != HIGH && eState != LOW)
    if !dataValid then
      (errorResponse 400 "Bad Request" "400 Bad Request", events)
    else
      let found := postLoop eGpio eState eTime MAX_EVENTS 0 events (-1)
      if found.2 > -1 then
        ({ freshResponse with
            headers := [("Content-Type".toList, "application/json".toList)],
            payload := Payload.eventObject
              { gpio := (slot found.1 found.2.toNat).gpio,
                state := (slot found.1 found.2.toNat).state,
                time := (slot found.1 found.2.toNat).time,
                id := found.2 } },
          found.1)
      else
        (errorResponse 507 "Insufficient storage" "507 Insufficient storage", found.1)

/-- The array-building loop of `handleGetEvents`, from index `i` for `n` more iterations;
`arr` holds the objects created so far. -/
def getEventsLoop : Nat → Nat → List Event → List EventJson → List EventJson
  | 0, _, _, arr => arr
  | n + 1, i, events, arr =>
    if (slot events i).active then
      getEventsLoop n (i + 1) events
        (arr ++ [{ gpio := (slot events i).gpio, state := (slot events i).state,
                   time := (slot events i).time, id := (i : Int) }])
    else getEventsLoop n (i + 1) events arr

/-- Handler of `GET /api/events`: the JSON array of the active events. The first loop of the
handler only counts the active slots to size the JSON buffer. The table is returned as the
handler leaves it. -/
def handleGetEvents (events : List Event) : Response × List Event :=
  ({ freshResponse with
      headers := [("Content-Type".toList, "application/json".toList)],
      payload := Payload.eventArray (getEventsLoop MAX_EVENTS 0 events []) },
    events)

/-- The C library test `isspace`. -/
def isSpaceC (c : Char) : Bool := c.toNat == 32 || (decide (9 ≤ c.toNat) && decide (c.toNat ≤ 13))

/-- Value of the longest run of decimal digits at the start of `s`. -/
def decimalValue (s : Str) : Nat :=
  (s.takeWhile Char.isDigit).foldl (fun acc c => acc * 10 + (c.toNat - 48)) 0

/-- The C library function `atoi` (results that do not fit an `int` are undefined in C and
are left unreduced here). -/
def atoi (s : Str) : Int :=
  match s.dropWhile isSpaceC with
  | [] => 0
  | c :: rest =>
    if c = '-' then -((decimalValue rest : Nat) : Int)
    else if c = '+' then ((decimalValue rest : Nat) : Int)
    else ((decimalValue (c :: rest) : Nat) : Int)

/-- Handler of `DELETE /api/events/*`; `param` is path parameter 0. -/
def handleDeleteEvent (param : Str) (events : List Event) : Response × List Event :=
  let eid : Nat := toUnsignedLong (atoi param)
  if eid < MAX_EVENTS then
    ({ freshResponse with statusCode := 204, statusText := "No Content".toList },
      events.set eid { slot events eid with active := false })
  else
    (errorResponse 400 "Bad Request" "400 Bad Request", events)

/-! ### Event scheduler: specification vocabulary -/

/-- Whether the scheduler pass at `now` fires a slot. -/
def fires (now : Nat) (e : Event) : Bool := e.active && decide (e.time < now)

/-- A slot after the scheduler pass at `now`. -/
def afterTick (now : Nat) (e : Event) : Event :=
  if fires now e then { e with active := false } else e

/-- The gpio allow-list test of `handlePostEvent`. -/
def allowedGpio (g : Int) : Bool := g == 25 || g == 26 || g == 27 || g == 32 || g == 33

/-- The state test of `handlePostEvent`. -/
def allowedState (s : Int) : Bool := s == HIGH || s == LOW

/-- Response of `handlePostEvent` after storing an event in slot `id`. -/
def storedResponse (g s : Int) (tm : Nat) (id : Nat) : Response :=
  { freshResponse with
      headers := [("Content-Type".toList, "application/json".toList)],
      payload := Payload.eventObject { gpio := g, state := s, time := tm, id := (id : Int) } }

/-- A request that passes every check of `handlePostEvent` when `millis()` returns `millis`. -/
def isValidRequest (req : EventRequest) (millis : Nat) : Bool :=
  req.requestComplete &&
    match req.time, req.gpio, req.state with
    | some tm, some g, some s =>
      decide (((millis / 1000 : Nat) : Int) ≤ tm) && decide (tm < (ULONG_RANGE : Int))
        && allowedGpio g && allowedState s
    | _, _, _ => false

/-- Consecutive `POST /api/events` requests, each with the clock value it is served at. -/
def runPosts : List (EventRequest × Nat) → List Event → List Response × List Event
  | [], events => ([], events)
  | (req, millis) :: rest, events =>
    ((handlePostEvent req millis events).1 ::
        (runPosts rest (handlePostEvent req millis events).2).1,
      (runPosts rest (handlePostEvent req millis events).2).2)

/-- The `id` member of a JSON event object in a response, if the response carries one. -/
def responseId (r : Response) : Option Int :=
  match r.payload with
  | Payload.eventObject e => some e.id
  | _ => none

/-- A valid request used to exercise the handlers. -/
def sampleRequest : EventRequest :=
  { requestComplete := true, time := some 100, gpio := some 25, state := some 1 }

/-- A request whose `time` member is the integer `-1`. -/
def negativeTimeRequest : EventRequest :=
  { requestComplete := true, time := some (-1), gpio := some 25, state := some 1 }

/-- A request whose `time` member is `2^32 + 200`, above the range of `unsigned long`. -/
def largeTimeRequest : EventRequest :=
  { requestComplete := true, time := some 4294967496, gpio := some 25, state := some 1 }

/-- A request whose `time` member is `2^32 + 5`. -/
def wrappedTimeRequest : EventRequest :=
  { requestComplete := true, time := some 4294967301, gpio := some 25, state := some 1 }

/-- A table whose slots 0 and 1 are taken and whose slot 2 is the lowest free one. -/
def sampleEvents : List Event :=
  (setupEvents.set 0 { active := true, time := 7, gpio := 26, state := 0 }).set 1
    { active := true, time := 9, gpio := 27, state := 1 }

/-- Twenty valid requests. -/
def sampleRequests : List (EventRequest × Nat) := List.replicate 20 (sampleRequest, 5000)

/-- A table with one event due before time 5 (slot 3) and one scheduled for time 5 (slot 4). -/
def dueEvents : List Event :=
  (setupEvents.set 3 { active := true, time := 4, gpio := 25, state := 1 }).set 4
    { active := true, time := 5, gpio := 26, state := 0 }

/-- One step of the device: a `POST /api/events` request served at clock value `millis`, a
`DELETE /api/events/*` request, or a scheduler pass of `loop()` at clock value `millis`. -/
inductive Step where
  | post (req : EventRequest) (millis : Nat)
  | delete (param : Str)
  | tick (millis : Nat)

/-- The event table after one step. -/
def applyStep (events : List Event) : Step → List Event
  | Step.post req millis => (handlePostEvent req millis events).2
  | Step.delete param => (handleDeleteEvent param events).2
  | Step.tick millis => (loop millis events).1

/-- The event table after a sequence of steps. -/
def runSteps : List Step → List Event → List Event
  | [], events => events
  | step :: rest, events => runSteps rest (applyStep events step)

/-- The pin writes made during a sequence of steps, in the order they are made. -/
def pinWrites : List Step → List Event → List (Int × Int)
  | [], _ => []
  | Step.tick millis :: rest, events =>
    (loop millis events).2 ++ pinWrites rest (loop millis events).1
  | Step.post req millis :: rest, events =>
    pinWrites rest (handlePostEvent req millis events).2
  | Step.delete param :: rest, events => pinWrites rest (handleDeleteEvent param events).2

/-- The slots a scheduler pass at `now` fires: those active with `time < now`. -/
def firedSlots (now : Nat) (events : List Event) : List Nat :=
  (List.range MAX_EVENTS).filter (fun i => fires now (slot events i))

/-- The slots fired during a sequence of steps, pass after pass. -/
def firedLog : List Step → List Event → List Nat
  | [], _ => []
  | Step.tick millis :: rest, events =>
    firedSlots (millis / 1000) events ++ firedLog rest (loop millis events).1
  | Step.post req millis :: rest, events =>
    firedLog rest (handlePostEvent req millis events).2
  | Step.delete param :: rest, events => firedLog rest (handleDeleteEvent param events).2

/-- Whether a step is a scheduler pass or a delete request. -/
def noInsert : Step → Bool
  | Step.post _ _ => false
  | _ => true

/-- The invariant of the event table: it has `MAX_EVENTS` slots and every active slot holds
an allowed pin and an allowed state. -/
def tableInvariant (events : List Event) : Prop :=
  events.length = MAX_EVENTS ∧
    ∀ e ∈ events, e.active = true → allowedGpio e.gpio = true ∧ allowedState e.state = true

/-- Number of active slots. -/
def activeCount (events : List Event) : Nat := (events.filter (fun e => e.active)).length

/-- A run with inserts, a delete and scheduler passes. -/
def sampleSteps : List Step :=
  [Step.post sampleRequest 5000, Step.post sampleRequest 6000, Step.tick 200000,
   Step.delete "1".toList, Step.tick 300000]

/-! ### Session store (`main2.cpp`) -/

/-- The administrator name (`adminUser`). -/
def adminUser : Str := "admin".toList

/-- The administrator password (`adminPass`). -/
def adminPass : Str := "123456".toList

/-- Session lifetime in milliseconds (`SESSION_TIMEOUT = 5 * 60 * 1000`). -/
def SESSION_TIMEOUT : Nat := 5 * 60 * 1000

/-- A C string held in a buffer: the characters before the first NUL. -/
def cstr (buf : Str) : Str := buf.takeWhile (fun c => c != Char.ofNat 0)

/-- The alphabet `generateToken` and `%X` draw from. -/
def hexAlphabet : Str := "0123456789ABCDEF".toList

/-- Token generator: `random i` is the value the `i`-th call of `random(16)` delivers. -/
def generateToken (random : Nat → Nat) : Str :=
  cstr ((List.range 32).map (fun i => hexAlphabet.getD (random i) (Char.ofNat 0)))

/-- Output of `%0<width>X` for a value below `16^width`. -/
def hexFixed (width n : Nat) : Str :=
  (List.range width).reverse.map (fun i => hexAlphabet.getD ((n / 16 ^ i) % 16) '0')

/-- Device identifier: `sprintf(id, "%04X%08X", (uint16_t)(chipid >> 32), (uint32_t)chipid)`. -/
def getDeviceID (chipid : Nat) : Str :=
  hexFixed 4 ((chipid / 4294967296) % 65536) ++ hexFixed 8 (chipid % 4294967296)

/-- One entry of the session document: `{"token": ..., "last": ...}`. -/
structure Session where
  token : Str
  last : Nat
deriving DecidableEq

/-- The JSON document of `/sessions.json`: members keyed by device id, in document order. -/
abbrev SessionTable := List (Str × Session)

/-- The file `/sessions.json` on the flash file system: `none` when it does not exist. -/
abbrev SessionFile := Option SessionTable

/-- Loading the document: a missing file gives the empty document. -/
def readSessions (file : SessionFile) : SessionTable := file.getD []

/-- Storing the document: the file is overwritten with it. -/
def writeSessions (doc : SessionTable) : SessionFile := some doc

/-- Member access `doc[deviceID]` (`none` when `containsKey` is false). -/
def getMember : SessionTable → Str → Option Session
  | [], _ => none
  | (key, value) :: rest, deviceID => if key = deviceID then some value else getMember rest deviceID

/-- Assignment to the member `deviceID`: replaced in place, or added at the end. -/
def setMember : SessionTable → Str → Session → SessionTable
  | [], deviceID, value => [(deviceID, value)]
  | (key, old) :: rest, deviceID, value =>
    if key = deviceID then (key, value) :: rest else (key, old) :: setMember rest deviceID value

/-- Session check; `millis` is the value `millis()` returns. -/
def checkSession (deviceID token : Str) (millis : Nat) (file : SessionFile) :
    Bool × SessionFile :=
  match getMember (readSessions file) deviceID with
  | none => (false, file)
  | some session =>
    if session.token ≠ token then (false, file)
    else if subUnsignedLong millis session.last > SESSION_TIMEOUT then (false, file)
    else
      (true, writeSessions (setMember (readSessions file) deviceID { session with last := millis }))

/-- Storing a new session for a device. -/
def saveSession (deviceID token : Str) (millis : Nat) (file : SessionFile) : SessionFile :=
  writeSessions (setMember (readSessions file) deviceID { token := token, last := millis })

/-- One field as the body parser delivers it (`getFieldName`, `getFieldFilename`, and the
field content). -/
structure FormField where
  name : Str
  filename : Str
  value : Str
deriving DecidableEq

/-- The pages the session handlers print. -/
inductive Page where
  | login
  | main (deviceID : Str)
deriving DecidableEq

/-- Response of the session handlers. -/
structure PageResponse where
  statusCode : Nat
  headers : List (Str × Str)
  page : Option Page
deriving DecidableEq

/-- `contentType.substr(0, contentType.find(";"))`, the whole string when there is no `;`. -/
def cutAtSemicolon (contentType : Str) : Str := contentType.takeWhile (fun c => c != ';')

/-- The `nextField` loop of `handleLogin`: `(username, password)` after the fields. -/
def readCredentials : List FormField → Str × Str → Str × Str
  | [], found => found
  | field :: rest, found =>
    if field.name = "username".toList then readCredentials rest (field.filename, found.2)
    else if field.name = "password".toList then readCredentials rest (found.1, field.filename)
    else readCredentials rest found

/-- The value of the `Set-Cookie` header for a token. -/
def sessionCookie (token : Str) : Str := "token=".toList ++ token ++ "; Path=/; HttpOnly".toList

/-- Handler of `POST /login`. `fields` are the fields the body parser yields, `chipid` the
efuse MAC, `random` the random source, `millis` the clock. -/
def handleLogin (contentType : Str) (fields : List FormField) (chipid : Nat)
    (random : Nat → Nat) (millis : Nat) (file : SessionFile) : PageResponse × SessionFile :=
  if cutAtSemicolon contentType = "application/json".toList then
    if (readCredentials fields ([], [])).1 = adminUser
        ∧ (readCredentials fields ([], [])).2 = adminPass then
      ({ statusCode := 302,
         headers := [("Set-Cookie".toList, sessionCookie (generateToken random)),
                     ("Location".toList, "/".toList)],
         page := none },
        saveSession (getDeviceID chipid) (generateToken random) millis file)
    else
      ({ statusCode := 200, headers := [("Content-Type".toList, "text/html".toList)],
         page := some Page.login }, file)
  else
    ({ statusCode := 200, headers := [], page := none }, file)

/-! ### Session store: sample data -/

/-- A session file holding one session of device `AB12` with token `T1`, last seen at 1000. -/
def sampleSessions : SessionFile :=
  some [("AB12".toList, { token := "T1".toList, last := 1000 })]

/-- The body fields of a login with the administrator name and password. -/
def adminFields : List FormField :=
  [{ name := "username".toList, filename := "admin".toList, value := [] },
   { name := "password".toList, filename := "123456".toList, value := [] }]

/-- The body fields of a login that submits the administrator name and password as the
content of the fields `username` and `password`; the fields carry no filename attribute. -/
def valueFields : List FormField :=
  [{ name := "username".toList, filename := [], value := "admin".toList },
   { name := "password".toList, filename := [], value := "123456".toList }]

/-- The body fields of a login that submits `guest` and `wrong` as the content of the fields,
which carry the filename attributes `admin` and `123456`. -/
def filenameFields : List FormField :=
  [{ name := "username".toList, filename := "admin".toList, value := "guest".toList },
   { name := "password".toList, filename := "123456".toList, value := "wrong".toList }]

/-- A random source that always delivers 10. -/
def sampleRandom : Nat → Nat := fun _ => 10

/-! ### Strings (`std::string`) -/

/-- Whether `hay` begins with `needle`. -/
def matchesAt : Str → Str → Bool
  | [], _ => true
  | _ :: _, [] => false
  | a :: needle, b :: hay => a == b && matchesAt needle hay

/-- Search of `needle` in `hay`, whose first character has index `i`. -/
def findIn (needle : Str) : Str → Nat → Option Nat
  | [], i => if needle.isEmpty then some i else none
  | c :: hay, i => if matchesAt needle (c :: hay) then some i else findIn needle hay (i + 1)

/-- The search `hay.find(needle, pos)`; `none` stands for `npos`. -/
def find (hay needle : Str) (pos : Nat) : Option Nat :=
  if pos > hay.length then none else findIn needle (hay.drop pos) pos

/-- The substring `s.substr(pos, len)`. -/
def substr (s : Str) (pos len : Nat) : Str := (s.drop pos).take len

/-- The C library function `strtoul(s, nullptr, 10)` for a 32-bit `unsigned long`. -/
def strtoul (s : Str) : Nat :=
  match s.dropWhile isSpaceC with
  | [] => 0
  | c :: rest =>
    if decimalValue (if c = '-' ∨ c = '+' then rest else c :: rest) ≥ ULONG_RANGE then
      ULONG_RANGE - 1
    else if c = '-' then toUnsignedLong (-((decimalValue rest : Nat) : Int))
    else decimalValue (if c = '+' then rest else c :: rest)

/-! ### History log -/

/-- Size of `struct HistoryRecord` (`uint32_t`, `uint8_t`, `uint32_t`) as the compiler lays
it out without a packing attribute: the second `uint32_t` is aligned to offset 8. -/
def sizeofHistoryRecord : Nat := 12

/-- The four bytes of a `uint32_t`, least significant first. -/
def le32 (v : Nat) : List Nat :=
  [v % 256, v / 256 % 256, v / 65536 % 256, v / 16777216 % 256]

/-- The bytes of a record in memory; `pad` are the three alignment bytes after `state`,
which `saveHistory` leaves uninitialised. -/
def recordBytes (pad : Nat × Nat × Nat) (r : HistoryRecord) : List Nat :=
  le32 r.userCode ++ [r.state % 256, pad.1 % 256, pad.2.1 % 256, pad.2.2 % 256]
    ++ le32 r.epochtime

/-- The record a block of `sizeofHistoryRecord` bytes denotes. -/
def decodeRecord (b : List Nat) : HistoryRecord :=
  { userCode := b.getD 0 0 + 256 * b.getD 1 0 + 65536 * b.getD 2 0 + 16777216 * b.getD 3 0,
    state := b.getD 4 0,
    epochtime := b.getD 8 0 + 256 * b.getD 9 0 + 65536 * b.getD 10 0 + 16777216 * b.getD 11 0 }

/-- The file `/history.bin`: `none` when it does not exist, else its bytes. -/
abbrev HistoryFile := Option (List Nat)

/-- Appending a record; `openOk` tells whether opening the file for appending succeeds. -/
def saveHistory (openOk : Bool) (pad : Nat × Nat × Nat) (userCode state epochtime : Nat)
    (file : HistoryFile) : HistoryFile :=
  if !openOk then file
  else
    some (file.getD [] ++
      recordBytes pad { userCode := userCode, state := state, epochtime := epochtime })

/-- The query part of the request string: what follows the first `?`. -/
def queryOf (reqStr : Str) : Str :=
  match find reqStr "?".toList 0 with
  | some qpos => reqStr.drop (qpos + 1)
  | none => []

/-- The parameter value starting at `st`: up to the next `&` or the end of the query. -/
def paramAt (query : Str) (st : Nat) : Str :=
  match find query "&".toList st with
  | none => query.drop st
  | some en => substr query st (en - st)

/-- The bounds `(start, end)` that `handleGetHistory` takes from the request string. -/
def historyBounds (reqStr : Str) : Nat × Nat :=
  ((match find (queryOf reqStr) "start=".toList 0 with
    | some spos => strtoul (paramAt (queryOf reqStr) (spos + 6))
    | none => 0),
   (match find (queryOf reqStr) "end=".toList 0 with
    | some epos => strtoul (paramAt (queryOf reqStr) (epos + 4))
    | none => 4294967295))

/-- The read loop of `handleGetHistory`: records are read while a whole record is left. -/
def scanHistory (start endT : Nat) : Nat → List Nat → List HistoryRecord
  | 0, _ => []
  | fuel + 1, bytes =>
    if (bytes.take sizeofHistoryRecord).length = sizeofHistoryRecord then
      if (decodeRecord (bytes.take sizeofHistoryRecord)).epochtime ≥ start
          ∧ (decodeRecord (bytes.take sizeofHistoryRecord)).epochtime ≤ endT then
        decodeRecord (bytes.take sizeofHistoryRecord) ::
          scanHistory start endT fuel (bytes.drop sizeofHistoryRecord)
      else scanHistory start endT fuel (bytes.drop sizeofHistoryRecord)
    else []

/-- Handler of `GET /api/history`. The body is the JSON array of the selected records (the
literal `[]` when the file cannot be opened). -/
def handleGetHistory (reqStr : Str) (file : HistoryFile) : Response :=
  match file with
  | none =>
    { freshResponse with
        headers := [("Content-Type".toList, "application/json".toList)],
        payload := Payload.historyArray [] }
  | some bytes =>
    { freshResponse with
        headers := [("Content-Type".toList, "application/json".toList)],
        payload := Payload.historyArray
          (scanHistory (historyBounds reqStr).1 (historyBounds reqStr).2 bytes.length bytes) }

/-! ### History log: specification vocabulary -/

/-- The values a `HistoryRecord` can hold: two `uint32_t` and one `uint8_t`. -/
def wellTyped (r : HistoryRecord) : Prop :=
  r.userCode < 4294967296 ∧ r.state < 256 ∧ r.epochtime < 4294967296

instance (r : HistoryRecord) : Decidable (wellTyped r) := by
  unfold wellTyped
  infer_instance

/-- A log made of whole records: the concatenation of the bytes of its records, each
written with its own alignment bytes. -/
def logBytes : List (HistoryRecord × (Nat × Nat × Nat)) → List Nat
  | [] => []
  | entry :: rest => recordBytes entry.2 entry.1 ++ logBytes rest

/-- Whether a record lies within the bounds, both inclusive. -/
def inRange (start endT : Nat) (r : HistoryRecord) : Bool :=
  decide (start ≤ r.epochtime) && decide (r.epochtime ≤ endT)

/-- The records of the JSON array in a response. -/
def historyOf (res : Response) : List HistoryRecord :=
  match res.payload with
  | Payload.historyArray records => records
  | _ => []

/-- A log with the epoch times 10 and 20. -/
def sampleLog : List (HistoryRecord × (Nat × Nat × Nat)) :=
  [({ userCode := 5, state := 1, epochtime := 10 }, (1, 2, 3)),
   ({ userCode := 6, state := 2, epochtime := 20 }, (0, 0, 0))]

/-! ### Multipart upload (`main.cpp`) -/

/-- The directory for public files (`#define DIR_PUBLIC "/public"`). -/
def DIR_PUBLIC : Str := "/public".toList

/-- The read loop of `readLineFromRequest` with `n` buffer places left: the bytes stored in
the buffer and the rest of the stream. -/
def readLineLoop : Nat → Str → Str × Str
  | 0, stream => ([], stream)
  | _ + 1, [] => ([], [])
  | n + 1, c :: stream =>
    if c = '\n' then ([c], stream)
    else ((c :: (readLineLoop n stream).1), (readLineLoop n stream).2)

/-- One call `readLineFromRequest(req, buffer, maxLen)` on the unread request body: the
bytes placed in the buffer (their number is the return value) and the body left unread. -/
def readLineFromRequest (stream : Str) (maxLen : Nat) : Str × Str :=
  readLineLoop (maxLen - 1) stream

/-- The filename a line holding `filename=` yields (empty when it cannot be cut out). -/
def filenameOf (line : Str) : Str :=
  match find line "filename=\"".toList 0 with
  | some start =>
    (match find line "\"".toList (start + 10) with
     | some stop => substr line (start + 10) (stop - (start + 10))
     | none => [])
  | none => []

/-- First loop of `handleUploadFile`: lines are read until one contains `filename=`; the
result is the filename and the body left unread. -/
def seekFilename : Nat → Str → Str × Str
  | 0, stream => ([], stream)
  | fuel + 1, stream =>
    if (readLineFromRequest stream 256).1.length = 0 then
      ([], (readLineFromRequest stream 256).2)
    else if (find (cstr (readLineFromRequest stream 256).1) "filename=".toList 0).isSome then
      (filenameOf (cstr (readLineFromRequest stream 256).1), (readLineFromRequest stream 256).2)
    else seekFilename fuel (readLineFromRequest stream 256).2

/-- Second loop of `handleUploadFile`: header lines are skipped up to an empty line. -/
def skipHeaders : Nat → Str → Str
  | 0, stream => stream
  | fuel + 1, stream =>
    if (readLineFromRequest stream 256).1.length = 0 then (readLineFromRequest stream 256).2
    else if cstr (readLineFromRequest stream 256).1 = "\r".toList
        ∨ cstr (readLineFromRequest stream 256).1 = "\n".toList
        ∨ cstr (readLineFromRequest stream 256).1 = "\r\n".toList then
      (readLineFromRequest stream 256).2
    else skipHeaders fuel (readLineFromRequest stream 256).2

/-- Third loop of `handleUploadFile`: `lastLine` is the line held back, `written` the bytes
written to the file so far; the result is the file content when the loop ends. -/
def streamBody (boundary : Str) : Nat → Str → Str → Str → Str
  | 0, _, _, written => written
  | fuel + 1, stream, lastLine, written =>
    if (readLineFromRequest stream 256).1.length = 0 then written
    else if (find (cstr (readLineFromRequest stream 256).1) boundary 0).isSome then
      written ++
        (if !lastLine.isEmpty && lastLine.getLast? == some '\r' then lastLine.dropLast
         else lastLine)
    else
      streamBody boundary fuel (readLineFromRequest stream 256).2
        (cstr (readLineFromRequest stream 256).1)
        (if !lastLine.isEmpty then written ++ lastLine else written)

/-- Result of the upload handler: the response and the file written, if one was opened
(its path and its content after `close`). -/
structure UploadResult where
  response : Response
  file : Option (Str × Str)
deriving DecidableEq

/-- Handler of `POST /api/upload`. `canOpen` tells whether the file system can open the
target for writing. The loops get `body.length + 1` rounds: every round but the last of a
loop consumes at least one byte of the body. -/
def handleUploadFile (method contentType body : Str) (canOpen : Bool) : UploadResult :=
  if method ≠ "POST".toList then
    { response := errorResponse 405 "Method Not Allowed" "405 Method Not Allowed",
      file := none }
  else
    match find contentType "boundary=".toList 0 with
    | none =>
      { response := errorResponse 400 "Bad Request"
          "400 Bad Request: No boundary in Content-Type",
        file := none }
    | some boundaryPos =>
      if (seekFilename (body.length + 1) body).1.isEmpty then
        { response := errorResponse 400 "Bad Request" "400 Bad Request: No filename",
          file := none }
      else if !canOpen then
        { response := errorResponse 500 "Internal Server Error"
            "500 Internal Server Error: Cannot open file",
          file := none }
      else
        { response :=
            { freshResponse with
                headers := [("Content-Type".toList, "application/json".toList)],
                payload := Payload.text
                  ("\x7b\"success\":true,\"filename\":\"".toList
                    ++ (seekFilename (body.length + 1) body).1 ++ "\"\x7d".toList) },
          file := some
            (DIR_PUBLIC ++ "/".toList ++ (seekFilename (body.length + 1) body).1,
              streamBody ("--".toList ++ contentType.drop (boundaryPos + 9))
                (body.length + 1)
                (skipHeaders (body.length + 1) (seekFilename (body.length + 1) body).2)
                [] []) }

/-! ### Static files (`main.cpp`) -/

/-- The content-type table `contentTypes`: extension and type, closed by an empty entry. -/
def contentTypes : List (Str × Str) :=
  [(".html".toList, "text/html".toList),
   (".css".toList, "text/css".toList),
   (".js".toList, "application/javascript".toList),
   (".json".toList, "application/json".toList),
   (".png".toList, "image/png".toList),
   (".jpg".toList, "image/jpg".toList),
   ([], [])]

/-- Table access `contentTypes[idx]`. -/
def contentTypeAt (idx : Nat) : Str × Str := contentTypes.getD idx ([], [])

/-- Backward search of `needle` in `hay`, whose first character has index `i`: the index of
the last occurrence. -/
def rfindIn (needle : Str) : Str → Nat → Option Nat
  | [], i => if needle.isEmpty then some i else none
  | c :: hay, i =>
    match rfindIn needle hay (i + 1) with
    | some p => some p
    | none => if matchesAt needle (c :: hay) then some i else none

/-- The search `hay.rfind(needle)`; `none` stands for `npos`. -/
def rfind (hay needle : Str) : Option Nat := rfindIn needle hay 0

/-- The lookup loop of `handleLittleFS` (a `do ... while`), at table index `idx` with `n`
rounds left: the content type set, if any. -/
def contentTypeLoop (reqFile : Str) : Nat → Nat → Option Str
  | 0, _ => none
  | n + 1, idx =>
    if (rfind reqFile (contentTypeAt idx).1).isSome then some (contentTypeAt idx).2
    else if (contentTypeAt (idx + 1)).1.length > 0 then contentTypeLoop reqFile n (idx + 1)
    else none

/-- The decimal text of a number (`httpsserver::intToString`). -/
def intToString (n : Nat) : Str := (Nat.repr n).toList

/-- Handler of the default node: static files below `/public`. `files` is the content of
the file system: the bytes stored under a path, `none` when the path does not exist. -/
def handleLittleFS (method reqString : Str) (files : Str → Option Str) : Response :=
  if method = "GET".toList then
    match files (DIR_PUBLIC ++ (if reqString = "/".toList then "/index.html".toList else reqString)) with
    | none => errorResponse 404 "Not found" "404 Not Found"
    | some content =>
      { freshResponse with
          headers := ("Content-Length".toList, intToString content.length) ::
            (match contentTypeLoop
                (if reqString = "/".toList then "/index.html".toList else reqString)
                contentTypes.length 0 with
             | some type => [("Content-Type".toList, type)]
             | none => []),
          payload := Payload.text content }
  else errorResponse 405 "Method not allowed" "405 Method not allowed"

/-! ### Session page (`main2.cpp`) -/

/-- Arduino `String::substring(left, right)`. -/
def arduinoSubstring (s : Str) (left right : Nat) : Str :=
  if min left right ≥ s.length then []
  else (s.drop (min left right)).take (min (max left right) s.length - min left right)

/-- The token `handleRoot` takes from the `Cookie` header (the empty header stands for a
missing one). -/
def cookieToken (header : Str) : Str :=
  if header.length > 0 then
    match find (cstr header) "token=".toList 0 with
    | some idx => arduinoSubstring (cstr header) (idx + 6) (idx + 38)
    | none => []
  else []

/-- Handler of `GET /`: the administration page for a valid session, else the login
page. -/
def handleRoot (cookieHeader : Str) (chipid millis : Nat) (file : SessionFile) :
    PageResponse × SessionFile :=
  if (checkSession (getDeviceID chipid) (cookieToken cookieHeader) millis file).1 then
    ({ statusCode := 200, headers := [("Content-Type".toList, "text/html".toList)],
       page := some (Page.main (getDeviceID chipid)) },
      (checkSession (getDeviceID chipid) (cookieToken cookieHeader) millis file).2)
  else
    ({ statusCode := 200, headers := [("Content-Type".toList, "text/html".toList)],
       page := some Page.login },
      (checkSession (getDeviceID chipid) (cookieToken cookieHeader) millis file).2)

/-! ### Multipart upload: sample data -/

/-- The upload body of the round-trip example: boundary `XYZ`, field `file`, filename
`a.txt`, content `hello`. -/
def helloBody : Str :=
  "--XYZ\r\nContent-Disposition: form-data; name=\"file\"; filename=\"a.txt\"\r\n\r\nhello\r\n--XYZ--".toList

/-! ### Text search, query parameters, upload lines and paths: specification vocabulary -/

/-- The text `needle` occurs in `s`. -/
def occursIn (needle s : Str) : Prop := ∃ a b, s = a ++ needle ++ b

/-- The text `needle` occurs in `s` and `a` is what precedes its first occurrence. -/
def firstAt (needle s a : Str) : Prop :=
  (∃ b, s = a ++ needle ++ b) ∧ ∀ a2 b2, s = a2 ++ needle ++ b2 → a.length ≤ a2.length

/-- The text `strtoul` and `atoi` read digits from: `s` without leading white space and
without one leading sign. -/
def numberPart (s : Str) : Str :=
  match s.dropWhile isSpaceC with
  | [] => []
  | c :: rest => if c = '-' ∨ c = '+' then rest else c :: rest

/-- A parameter value that is not a decimal number: no digit where the number should
start. -/
def unparsable (s : Str) : Bool :=
  match numberPart s with
  | [] => true
  | c :: _ => !c.isDigit

/-- A log with one record of epoch time 10. -/
def oneRecordLog : List (HistoryRecord × (Nat × Nat × Nat)) :=
  [({ userCode := 5, state := 1, epochtime := 10 }, (0, 0, 0))]

/-- The lines of a request body as consecutive calls of `readLineFromRequest` with a
256-byte buffer return them, up to the first call that returns 0. -/
def requestLines : Nat → Str → List Str
  | 0, _ => []
  | fuel + 1, stream =>
    if (readLineFromRequest stream 256).1.length = 0 then []
    else (readLineFromRequest stream 256).1 :: requestLines fuel (readLineFromRequest stream 256).2

/-- A line that one call of `readLineFromRequest` returns whole and unchanged as a C
string: it ends in LF, has no other LF, no NUL, and fits the 256-byte buffer. -/
def wholeLine (l : Str) : Prop :=
  (∃ t, l = t ++ ['\n'] ∧ '\n' ∉ t) ∧ l.length ≤ 255 ∧ Char.ofNat 0 ∉ l

/-- The components of a path between its `/` separators; `cur` holds the characters of the
component being read, last first. -/
def pathComponents : Str → Str → List Str
  | [], cur => [cur.reverse]
  | c :: rest, cur =>
    if c = '/' then cur.reverse :: pathComponents rest [] else pathComponents rest (c :: cur)

/-- Resolution of path components against the directories entered so far (innermost
first): empty components and `.` are skipped, `..` leaves the innermost directory. -/
def resolveComponents : List Str → List Str → List Str
  | [], entered => entered.reverse
  | x :: rest, entered =>
    if x = [] ∨ x = ".".toList then resolveComponents rest entered
    else if x = "..".toList then resolveComponents rest entered.tail
    else resolveComponents rest (x :: entered)

/-- The location an absolute path denotes in the file system, as its directory names from
the root. -/
def resolvePath (path : Str) : List Str := resolveComponents (pathComponents path []) []

/-- An upload whose first header line holds `filename=` without a quote. -/
def unquotedFirstBody : Str :=
  "--XYZ\r\nX-Note: filename=none\r\nContent-Disposition: form-data; name=\"file\"; filename=\"a.txt\"\r\n\r\nhello\r\n--XYZ--".toList

/-- An upload whose filename climbs out of the public directory. -/
def traversalBody : Str :=
  "--XYZ\r\nContent-Disposition: form-data; name=\"file\"; filename=\"../key.der\"\r\n\r\nhello\r\n--XYZ--".toList

/-- An upload without any filename. -/
def noFilenameBody : Str :=
  "--XYZ\r\nContent-Disposition: form-data; name=\"file\"\r\n\r\nhello\r\n--XYZ--".toList

/-- The response `400 Bad Request: No filename`. -/
def noFilenameResult : UploadResult :=
  { response := errorResponse 400 "Bad Request" "400 Bad Request: No filename", file := none }

/-! ### History log: sample data for the record layout and the query -/

/-- Consecutive successful appends of the given records, each written with its own
alignment bytes. -/
def appendAll : List (HistoryRecord × (Nat × Nat × Nat)) → HistoryFile → HistoryFile
  | [], file => file
  | entry :: rest, file =>
    appendAll rest
      (saveHistory true entry.2 entry.1.userCode entry.1.state entry.1.epochtime file)

/-- A log of 51 records with the epoch times 1 to 51. -/
def fiftyOneRecords : List (HistoryRecord × (Nat × Nat × Nat)) :=
  (List.range 51).map (fun i => ({ userCode := 7, state := 1, epochtime := i + 1 }, (0, 0, 0)))

/-! ### Line reading, open-ended uploads and static files: specification vocabulary and sample data -/

/-- The lines consecutive calls of `readLineFromRequest` with buffer size `maxLen` return,
up to the first call that returns 0. -/
def linesWith (maxLen : Nat) : Nat → Str → List Str
  | 0, _ => []
  | fuel + 1, stream =>
    if (readLineFromRequest stream maxLen).1.length = 0 then []
    else
      (readLineFromRequest stream maxLen).1 ::
        linesWith maxLen fuel (readLineFromRequest stream maxLen).2

/-- The part of an upload body that `handleUploadFile` reads as file payload: what is left
after the filename search and the header skipping. -/
def payloadOf (body : Str) : Str :=
  skipHeaders (body.length + 1) (seekFilename (body.length + 1) body).2

/-- An upload whose body ends after three payload lines, without a closing boundary. -/
def openEndedBody : Str :=
  "--XYZ\r\nContent-Disposition: form-data; name=\"file\"; filename=\"a.txt\"\r\n\r\nline1\r\nline2\r\nline3".toList

/-- A file system holding only `/public/data.json`. -/
def jsonOnlyFiles : Str → Option Str :=
  fun path => if path = "/public/data.json".toList then some "[1]".toList else none

/-! ## Theorems -/

/-! ### Event scheduler -/

theorem slot_append_here (pre suf : List Event) (e : Event) :
    slot (pre ++ e :: suf) pre.length = e := by
  unfold slot
  rw [List.getD_eq_getElem?_getD, List.getElem?_append_right (Nat.le_refl _)]
  simp

theorem set_append_here (pre suf : List Event) (e x : Event) :
    (pre ++ e :: suf).set pre.length x = pre ++ x :: suf := by
  simp

theorem tickLoop_split (now : Nat) :
    ∀ (n : Nat) (pre suf : List Event) (pins : List (Int × Int)), n ≤ suf.length →
      tickLoop now n pre.length (pre ++ suf) pins =
        (pre ++ (suf.take n).map (afterTick now) ++ suf.drop n,
         pins ++ ((suf.take n).filter (fires now)).map (fun e => (e.gpio, e.state))) := by
  intro n
  induction n with
  | zero => intro pre suf pins _; simp [tickLoop]
  | succ n ih =>
    intro pre suf pins h
    cases suf with
    | nil => simp at h
    | cons e suf =>
      have hlen : n ≤ suf.length := by simpa using h
      have h1 := ih (pre ++ [e]) suf pins hlen
      have h2 := ih (pre ++ [{ e with active := false }]) suf (pins ++ [(e.gpio, e.state)]) hlen
      simp only [List.length_append, List.length_singleton, List.append_assoc,
        List.singleton_append] at h1 h2
      unfold tickLoop
      rw [slot_append_here, set_append_here]
      by_cases ha : e.active = true
      · by_cases ht : e.time < now
        · simp [ha, ht, h2, fires, afterTick]
        · simp [ha, ht, h1, fires, afterTick]
      · simp [ha, h1, fires, afterTick]

theorem tick_eq (now : Nat) (events : List Event) (hlen : events.length = MAX_EVENTS) :
    tick now events =
      (events.map (afterTick now),
       (events.filter (fires now)).map (fun e => (e.gpio, e.state))) := by
  have h := tickLoop_split now MAX_EVENTS [] events [] (by omega)
  simp only [List.length_nil, List.nil_append] at h
  unfold tick
  rw [h, ← hlen]
  simp

theorem slot_append_left (l : List Event) (a : Event) (i : Nat) (h : i < l.length) :
    slot (l ++ [a]) i = slot l i := by
  unfold slot
  rw [List.getD_eq_getElem?_getD, List.getD_eq_getElem?_getD, List.getElem?_append_left h]

theorem slot_map (g : Event → Event) (l : List Event) (i : Nat) (h : i < l.length) :
    slot (l.map g) i = g (slot l i) := by
  unfold slot
  rw [List.getD_eq_getElem?_getD, List.getD_eq_getElem?_getD, List.getElem?_map,
    List.getElem?_eq_getElem h]
  rfl

theorem filter_map_by_index {β : Type} (p : Event → Bool) (f : Event → β) (l : List Event) :
    (l.filter p).map f =
      ((List.range l.length).filter (fun i => p (slot l i))).map (fun i => f (slot l i)) := by
  induction l using List.reverseRecOn with
  | nil => simp
  | append_singleton l a ih =>
    have hlast : slot (l ++ [a]) l.length = a := slot_append_here l [] a
    have hfilter : (List.range l.length).filter (fun i => p (slot (l ++ [a]) i)) =
        (List.range l.length).filter (fun i => p (slot l i)) := by
      apply List.filter_congr
      intro i hi
      rw [slot_append_left l a i (List.mem_range.mp hi)]
    have hmap : ((List.range l.length).filter (fun i => p (slot l i))).map
          (fun i => f (slot (l ++ [a]) i)) =
        ((List.range l.length).filter (fun i => p (slot l i))).map (fun i => f (slot l i)) := by
      apply List.map_congr_left
      intro i hi
      rw [slot_append_left l a i (List.mem_range.mp (List.mem_filter.mp hi).1)]
    rw [List.filter_append, List.map_append, ih, List.length_append, List.length_singleton,
      List.range_succ, List.filter_append, List.map_append, hfilter, hmap]
    by_cases hp : p a = true
    · simp [List.filter_cons, hp, hlast]
    · simp [List.filter_cons, hp, hlast]

/-- Claim C2: for every event table and every clock value `now`, the scheduler pass of
`loop()` makes exactly one `digitalWrite(gpio, state)` for each slot that is active with
`time < now`, in slot order, and none for any other slot (a slot with `time = now` is not
fired); afterwards exactly the fired slots have `active = false`, every other slot is
unchanged, and no `gpio`, `time` or `state` field has changed. `loop()` runs this pass with
`now = millis() / 1000`. -/
theorem tick_fires_exactly_due_slots (now : Nat) (events : List Event)
    (hlen : events.length = MAX_EVENTS) :
    (tick now events).2 =
        ((List.range MAX_EVENTS).filter
            (fun i => (slot events i).active && decide ((slot events i).time < now))).map
          (fun i => ((slot events i).gpio, (slot events i).state))
      ∧ (tick now events).1.length = MAX_EVENTS
      ∧ (∀ i, i < MAX_EVENTS →
          ((slot events i).active = true ∧ (slot events i).time < now →
              slot (tick now events).1 i = { slot events i with active := false })
          ∧ (¬ ((slot events i).active = true ∧ (slot events i).time < now) →
              slot (tick now events).1 i = slot events i)
          ∧ (slot (tick now events).1 i).gpio = (slot events i).gpio
          ∧ (slot (tick now events).1 i).time = (slot events i).time
          ∧ (slot (tick now events).1 i).state = (slot events i).state)
      ∧ loop (1000 * now) events = tick now events := by
  have hloop : loop (1000 * now) events = tick now events := by
    unfold loop
    rw [Nat.mul_div_cancel_left now (by decide : 0 < 1000)]
  rw [tick_eq now events hlen]
  refine ⟨?_, by simpa using hlen, ?_, by rw [← tick_eq now events hlen]; exact hloop⟩
  · have h := filter_map_by_index (fires now) (fun e => (e.gpio, e.state)) events
    rw [hlen] at h
    exact h
  · intro i hi
    rw [slot_map (afterTick now) events i (by omega)]
    unfold afterTick fires
    by_cases ha : (slot events i).active = true
    · by_cases ht : (slot events i).time < now
      · simp [ha, ht]
      · simp [ha, ht]
    · simp [ha]

/-- Witness of claim C2: at `now = 5` only slot 3 (time 4) fires, slot 4 (time 5) does not. -/
theorem tick_fires_exactly_due_slots_witness :
    (tick 5 dueEvents).2 = [(25, 1)]
      ∧ slot (tick 5 dueEvents).1 3 = { active := false, time := 4, gpio := 25, state := 1 }
      ∧ slot (tick 5 dueEvents).1 4 = { active := true, time := 5, gpio := 26, state := 0 } :=
  have h := tick_fires_exactly_due_slots 5 dueEvents (by decide)
  ⟨h.1.trans (by decide), (h.2.2.1 3 (by decide)).1 (by decide),
    ((h.2.2.1 4 (by decide)).2.1 (by decide)).trans (by decide)⟩

theorem postLoop_done (g s : Int) (tm : Nat) (n i : Nat) (events : List Event) (id : Int)
    (h : id ≠ -1) : postLoop g s tm n i events id = (events, id) := by
  cases n with
  | zero => rfl
  | succ n => simp [postLoop, h]

theorem postLoop_claims_first_free (g s : Int) (tm : Nat) :
    ∀ (act pre : List Event) (e : Event) (suf : List Event) (n : Nat),
      (∀ x ∈ act, x.active = true) → e.active = false → act.length < n →
      postLoop g s tm n pre.length (pre ++ act ++ e :: suf) (-1) =
        (pre ++ act ++ { active := true, time := tm, gpio := g, state := s } :: suf,
          ((pre.length + act.length : Nat) : Int)) := by
  intro act
  induction act with
  | nil =>
    intro pre e suf n _ he hn
    cases n with
    | zero => simp at hn
    | succ n =>
      unfold postLoop
      simp only [List.append_nil]
      rw [slot_append_here, set_append_here, postLoop_done]
      · simp [he]
      · omega
  | cons a act ih =>
    intro pre e suf n hact he hn
    cases n with
    | zero => simp at hn
    | succ n =>
      have ha : a.active = true := hact a (List.mem_cons_self _ _)
      have h := ih (pre ++ [a]) e suf n
        (fun x hx => hact x (List.mem_cons_of_mem _ hx)) he (by simpa using hn)
      simp only [List.length_append, List.length_singleton, List.append_assoc,
        List.singleton_append] at h
      unfold postLoop
      simp only [List.append_assoc, List.cons_append]
      rw [slot_append_here]
      simp only [ha, Bool.not_true, Bool.false_eq_true, if_false]
      simp only [List.cons_append] at h
      rw [h]
      have e1 : pre.length + 1 + act.length = pre.length + (a :: act).length := by
        simp only [List.length_cons]; omega
      rw [e1, if_pos trivial]

theorem postLoop_full (g s : Int) (tm : Nat) :
    ∀ (suf pre : List Event) (n : Nat), (∀ x ∈ suf, x.active = true) → n ≤ suf.length →
      postLoop g s tm n pre.length (pre ++ suf) (-1) = (pre ++ suf, -1) := by
  intro suf
  induction suf with
  | nil =>
    intro pre n _ hn
    have : n = 0 := by simpa using hn
    subst this
    rfl
  | cons a suf ih =>
    intro pre n hact hn
    cases n with
    | zero => rfl
    | succ n =>
      have ha : a.active = true := hact a (List.mem_cons_self _ _)
      have h := ih (pre ++ [a]) n (fun x hx => hact x (List.mem_cons_of_mem _ hx))
        (by simpa using hn)
      simp only [List.length_append, List.length_singleton, List.append_assoc,
        List.singleton_append] at h
      unfold postLoop
      rw [slot_append_here]
      simp [ha, h]

theorem toUnsignedLong_of_fits (v : Int) (h0 : 0 ≤ v) (h1 : v < (ULONG_RANGE : Int)) :
    toUnsignedLong v = v.toNat := by
  unfold toUnsignedLong
  rw [Int.emod_eq_of_lt h0 h1]

theorem handlePostEvent_checked (req : EventRequest) (millis : Nat) (events : List Event)
    (tm g s : Int) (hc : req.requestComplete = true) (ht : req.time = some tm)
    (hg : req.gpio = some g) (hs : req.state = some s) :
    handlePostEvent req millis events =
      if toUnsignedLong tm < millis / 1000 ∨ allowedGpio g = false ∨ allowedState s = false then
        (errorResponse 400 "Bad Request" "400 Bad Request", events)
      else
        if (postLoop g s (toUnsignedLong tm) MAX_EVENTS 0 events (-1)).2 > -1 then
          (storedResponse
              (slot (postLoop g s (toUnsignedLong tm) MAX_EVENTS 0 events (-1)).1
                (postLoop g s (toUnsignedLong tm) MAX_EVENTS 0 events (-1)).2.toNat).gpio
              (slot (postLoop g s (toUnsignedLong tm) MAX_EVENTS 0 events (-1)).1
                (postLoop g s (toUnsignedLong tm) MAX_EVENTS 0 events (-1)).2.toNat).state
              (slot (postLoop g s (toUnsignedLong tm) MAX_EVENTS 0 events (-1)).1
                (postLoop g s (toUnsignedLong tm) MAX_EVENTS 0 events (-1)).2.toNat).time
              (postLoop g s (toUnsignedLong tm) MAX_EVENTS 0 events (-1)).2.toNat,
            (postLoop g s (toUnsignedLong tm) MAX_EVENTS 0 events (-1)).1)
        else
          (errorResponse 507 "Insufficient storage" "507 Insufficient storage",
            (postLoop g s (toUnsignedLong tm) MAX_EVENTS 0 events (-1)).1) := by
  have hstate : (!(s != HIGH && s != LOW)) = allowedState s := by
    unfold allowedState
    simp only [bne]
    cases (s == HIGH) <;> cases (s == LOW) <;> rfl
  have hgpio : (g == 25 || g == 26 || g == 27 || g == 32 || g == 33) = allowedGpio g := rfl
  unfold handlePostEvent
  simp only [hc, ht, hg, hs, Bool.not_true, Option.isSome_some, Bool.and_self, if_true,
    Option.getD_some, Bool.false_eq_true, if_false, Bool.true_and]
  rw [hstate, hgpio]
  by_cases h1 : toUnsignedLong tm < millis / 1000
  · simp [h1]
  · cases h2 : allowedGpio g
    · simp [h1]
    · cases h3 : allowedState s
      · simp [h1]
      · by_cases h4 : (postLoop g s (toUnsignedLong tm) MAX_EVENTS 0 events (-1)).2 > -1
        · simp [h1, h4, storedResponse]
          omega
        · simp [h1, h4]

theorem split_at_slot (events : List Event) (k : Nat) (hk : k < events.length) :
    events = events.take k ++ slot events k :: events.drop (k + 1) := by
  have h1 : slot events k = events[k] := by
    unfold slot
    exact List.getD_eq_getElem _ _ hk
  rw [h1, ← List.drop_eq_getElem_cons hk, List.take_append_drop]

theorem active_before (events : List Event) (k : Nat) (hk : k ≤ events.length)
    (hlow : ∀ j, j < k → (slot events j).active = true) :
    ∀ x ∈ events.take k, x.active = true := by
  intro x hx
  obtain ⟨i, hi, rfl⟩ := List.mem_take_iff_getElem.mp hx
  have hik : i < k := by omega
  have hil : i < events.length := by omega
  have h := hlow i hik
  unfold slot at h
  rw [List.getD_eq_getElem _ _ hil] at h
  exact h

theorem handlePostEvent_stores (req : EventRequest) (millis : Nat) (tm g s : Int)
    (act : List Event) (e : Event) (suf : List Event)
    (hc : req.requestComplete = true) (ht : req.time = some tm)
    (hg : req.gpio = some g) (hs : req.state = some s)
    (hgpio : allowedGpio g = true) (hstate : allowedState s = true)
    (hnow : ¬ toUnsignedLong tm < millis / 1000)
    (hact : ∀ x ∈ act, x.active = true) (he : e.active = false)
    (hlen : act.length < MAX_EVENTS) :
    handlePostEvent req millis (act ++ e :: suf) =
      (storedResponse g s (toUnsignedLong tm) act.length,
        act ++ { active := true, time := toUnsignedLong tm, gpio := g, state := s } :: suf) := by
  have hloop := postLoop_claims_first_free g s (toUnsignedLong tm) act [] e suf MAX_EVENTS
    hact he hlen
  simp only [List.length_nil, List.nil_append, Nat.zero_add] at hloop
  rw [handlePostEvent_checked req millis _ tm g s hc ht hg hs, hloop]
  have hid : ((act.length : Nat) : Int) > -1 := by omega
  simp only [hnow, hgpio, hstate, Bool.true_eq_false, or_self, if_false, hid, if_true,
    Int.toNat_ofNat, slot_append_here]

theorem handlePostEvent_full (req : EventRequest) (millis : Nat) (tm g s : Int)
    (events : List Event)
    (hc : req.requestComplete = true) (ht : req.time = some tm)
    (hg : req.gpio = some g) (hs : req.state = some s)
    (hgpio : allowedGpio g = true) (hstate : allowedState s = true)
    (hnow : ¬ toUnsignedLong tm < millis / 1000)
    (hact : ∀ x ∈ events, x.active = true) (hlen : events.length = MAX_EVENTS) :
    handlePostEvent req millis events =
      (errorResponse 507 "Insufficient storage" "507 Insufficient storage", events) := by
  have hloop := postLoop_full g s (toUnsignedLong tm) events [] MAX_EVENTS hact (by omega)
  simp only [List.length_nil, List.nil_append] at hloop
  rw [handlePostEvent_checked req millis _ tm g s hc ht hg hs, hloop]
  simp [hnow, hgpio, hstate]

theorem slot_set_self (events : List Event) (k : Nat) (x : Event) (hk : k < events.length) :
    slot (events.set k x) k = x := by
  unfold slot
  rw [List.getD_eq_getElem?_getD, List.getElem?_set_self hk]
  rfl

theorem slot_set_ne (events : List Event) (k j : Nat) (x : Event) (h : k ≠ j) :
    slot (events.set k x) j = slot events j := by
  unfold slot
  rw [List.getD_eq_getElem?_getD, List.getD_eq_getElem?_getD, List.getElem?_set_ne h]

theorem set_at_split (events : List Event) (k : Nat) (x : Event) (hk : k < events.length) :
    events.take k ++ x :: events.drop (k + 1) = events.set k x := by
  rw [List.set_eq_take_append_cons_drop, if_pos hk]

theorem handlePostEvent_lowest (req : EventRequest) (millis : Nat) (tm g s : Int)
    (events : List Event) (k : Nat)
    (hc : req.requestComplete = true) (ht : req.time = some tm)
    (hg : req.gpio = some g) (hs : req.state = some s)
    (hgpio : allowedGpio g = true) (hstate : allowedState s = true)
    (hnow : ¬ toUnsignedLong tm < millis / 1000)
    (hlen : events.length = MAX_EVENTS) (hk : k < MAX_EVENTS)
    (hfree : (slot events k).active = false)
    (hlow : ∀ j, j < k → (slot events j).active = true) :
    handlePostEvent req millis events =
      (storedResponse g s (toUnsignedLong tm) k,
        events.set k { active := true, time := toUnsignedLong tm, gpio := g, state := s }) := by
  have hkl : k < events.length := by omega
  have hsplit := split_at_slot events k hkl
  have htake : (events.take k).length = k := List.length_take_of_le (by omega)
  have h := handlePostEvent_stores req millis tm g s (events.take k) (slot events k)
    (events.drop (k + 1)) hc ht hg hs hgpio hstate hnow
    (active_before events k (by omega) hlow) hfree (by omega)
  rw [← hsplit, htake, set_at_split events k _ hkl] at h
  exact h

theorem valid_unpack (req : EventRequest) (millis : Nat) (h : isValidRequest req millis = true) :
    req.requestComplete = true ∧ ∃ tm g s, req.time = some tm ∧ req.gpio = some g ∧
      req.state = some s ∧ allowedGpio g = true ∧ allowedState s = true ∧
      ¬ toUnsignedLong tm < millis / 1000 := by
  unfold isValidRequest at h
  rcases req with ⟨c, t, g, s⟩
  cases t with
  | none => simp at h
  | some tm =>
    cases g with
    | none => simp at h
    | some g =>
      cases s with
      | none => simp at h
      | some s =>
        simp only [Bool.and_eq_true, decide_eq_true_eq] at h
        obtain ⟨hc, ⟨⟨⟨h1, h2⟩, h3⟩, h4⟩⟩ := h
        refine ⟨hc, tm, g, s, rfl, rfl, rfl, h3, h4, ?_⟩
        rw [toUnsignedLong_of_fits tm (by omega) h2]
        omega

theorem allowedGpio_iff (g : Int) :
    allowedGpio g = true ↔ (g = 25 ∨ g = 26 ∨ g = 27 ∨ g = 32 ∨ g = 33) := by
  simp [allowedGpio, or_assoc]

theorem allowedState_iff (s : Int) : allowedState s = true ↔ (s = HIGH ∨ s = LOW) := by
  simp [allowedState]

theorem runPosts_fills (reqs : List (EventRequest × Nat)) :
    ∀ (pre : List Event) (m : Nat), (∀ x ∈ pre, x.active = true) →
      pre.length + reqs.length + m = MAX_EVENTS →
      (∀ p ∈ reqs, isValidRequest p.1 p.2 = true) →
      ∃ stored : List Event, stored.length = reqs.length ∧ (∀ x ∈ stored, x.active = true) ∧
        (runPosts reqs (pre ++ List.replicate (reqs.length + m) setupEvent)).2 =
          pre ++ stored ++ List.replicate m setupEvent ∧
        (runPosts reqs (pre ++ List.replicate (reqs.length + m) setupEvent)).1.map
            (fun r => (r.statusCode, responseId r)) =
          (List.range reqs.length).map (fun i => (200, some ((pre.length + i : Nat) : Int))) := by
  induction reqs with
  | nil =>
    intro pre m _ _ _
    exact ⟨[], rfl, by simp, by simp [runPosts], by simp [runPosts]⟩
  | cons p reqs ih =>
    intro pre m hpre hlen hvalid
    obtain ⟨req, millis⟩ := p
    obtain ⟨hc, tm, g, s, ht, hg, hs, hgpio, hstate, hnow⟩ :=
      valid_unpack req millis (hvalid (req, millis) (List.mem_cons_self _ _))
    have hlen2 : pre.length + (reqs.length + 1) + m = MAX_EVENTS := by simpa using hlen
    have hsplit : List.replicate ((reqs.length + 1) + m) setupEvent =
        setupEvent :: List.replicate (reqs.length + m) setupEvent := by
      rw [show reqs.length + 1 + m = (reqs.length + m) + 1 by omega, List.replicate_succ]
    have hstep := handlePostEvent_stores req millis tm g s pre setupEvent
      (List.replicate (reqs.length + m) setupEvent) hc ht hg hs hgpio hstate hnow hpre rfl
      (by omega)
    obtain ⟨stored, hsl, hsa, htab, hresp⟩ :=
      ih (pre ++ [{ active := true, time := toUnsignedLong tm, gpio := g, state := s }]) m
        (by
          intro x hx
          rcases List.mem_append.mp hx with h | h
          · exact hpre x h
          · rw [List.mem_singleton.mp h])
        (by simp only [List.length_append, List.length_singleton]; omega)
        (fun q hq => hvalid q (List.mem_cons_of_mem _ hq))
    simp only [List.append_assoc, List.singleton_append, List.length_append,
      List.length_singleton] at htab hresp
    refine ⟨{ active := true, time := toUnsignedLong tm, gpio := g, state := s } :: stored,
      by simp [hsl], ?_, ?_, ?_⟩
    · intro x hx
      rcases List.mem_cons.mp hx with h | h
      · rw [h]
      · exact hsa x h
    · simp only [List.length_cons, runPosts, hsplit, hstep, htab, List.append_assoc,
        List.cons_append]
    · simp only [List.length_cons, runPosts, hsplit, hstep, hresp, List.map_cons,
        List.range_succ_eq_map, List.map_map]
      refine congrArg₂ List.cons ?_ ?_
      · simp [storedResponse, responseId, freshResponse]
      · apply List.map_congr_left
        intro i _
        simp only [Function.comp, Prod.mk.injEq, true_and, Option.some.injEq]
        push_cast
        omega

theorem errorResponse_status (code : Nat) (a b : String) :
    (errorResponse code a b).statusCode = code := rfl

/-- The validity check of `handlePostEvent`: for a completely read request whose `time`,
`gpio` and `state` members are integers, the handler answers 400 if and only if the time
converted to `unsigned long` (the value modulo `2^32`) is below `now = millis() / 1000`, or
`gpio` is not one of 25, 26, 27, 32, 33, or `state` is neither `HIGH` nor `LOW`; whenever it
answers 400 the event table is unchanged; for `0 ≤ time < 2^32` the converted time is below
`now` exactly when `time < now`; and a request with `time = now` and otherwise valid fields
is not rejected. -/
theorem post_rejects_iff_invalid (req : EventRequest) (millis : Nat) (events : List Event)
    (tm g s : Int) (hc : req.requestComplete = true) (ht : req.time = some tm)
    (hg : req.gpio = some g) (hs : req.state = some s) :
    ((handlePostEvent req millis events).1.statusCode = 400 ↔
        (toUnsignedLong tm < millis / 1000
          ∨ ¬ (g = 25 ∨ g = 26 ∨ g = 27 ∨ g = 32 ∨ g = 33)
          ∨ ¬ (s = HIGH ∨ s = LOW)))
      ∧ ((handlePostEvent req millis events).1.statusCode = 400 →
          (handlePostEvent req millis events).2 = events)
      ∧ (0 ≤ tm → tm < (ULONG_RANGE : Int) →
          (toUnsignedLong tm < millis / 1000 ↔ tm < ((millis / 1000 : Nat) : Int)))
      ∧ (tm = ((millis / 1000 : Nat) : Int) → millis < ULONG_RANGE →
          (g = 25 ∨ g = 26 ∨ g = 27 ∨ g = 32 ∨ g = 33) → (s = HIGH ∨ s = LOW) →
          (handlePostEvent req millis events).1.statusCode ≠ 400) := by
  have hfit : ∀ v : Int, 0 ≤ v → v < (ULONG_RANGE : Int) →
      (toUnsignedLong v < millis / 1000 ↔ v < ((millis / 1000 : Nat) : Int)) := by
    intro v h0 h1
    rw [toUnsignedLong_of_fits v h0 h1]
    omega
  have hiff : (handlePostEvent req millis events).1.statusCode = 400 ↔
      (toUnsignedLong tm < millis / 1000
        ∨ ¬ (g = 25 ∨ g = 26 ∨ g = 27 ∨ g = 32 ∨ g = 33) ∨ ¬ (s = HIGH ∨ s = LOW)) := by
    rw [handlePostEvent_checked req millis events tm g s hc ht hg hs, ← allowedGpio_iff,
      ← allowedState_iff]
    by_cases hbad : toUnsignedLong tm < millis / 1000 ∨ allowedGpio g = false
        ∨ allowedState s = false
    · rw [if_pos hbad]
      simp only [errorResponse_status, true_iff]
      simpa using hbad
    · rw [if_neg hbad]
      have hbad2 : ¬ (toUnsignedLong tm < millis / 1000 ∨ ¬ allowedGpio g = true
          ∨ ¬ allowedState s = true) := by simpa using hbad
      simp only [hbad2, iff_false]
      split
      · simp [storedResponse, freshResponse]
      · simp [errorResponse_status]
  refine ⟨hiff, ?_, hfit tm, ?_⟩
  · intro h400
    have hbad := hiff.mp h400
    rw [← allowedGpio_iff, ← allowedState_iff] at hbad
    rw [handlePostEvent_checked req millis events tm g s hc ht hg hs, if_pos (by simpa using hbad)]
  · intro htm hms hgpio hstate h400
    have hbad := hiff.mp h400
    have hlt : ((millis / 1000 : Nat) : Int) < (ULONG_RANGE : Int) := by
      have : millis / 1000 < ULONG_RANGE := by
        unfold ULONG_RANGE at hms ⊢
        omega
      exact_mod_cast this
    rcases hbad with h | h | h
    · rw [hfit tm (by omega) (by omega)] at h
      omega
    · exact h hgpio
    · exact h hstate

/-- Claim C3, evaluated at the request `time = -1, gpio = 25, state = 1` served at
`millis() = 500` (so `now = 0`): the time is below `now`, yet `handlePostEvent` does not
answer 400. It answers 200 and stores the event in slot 0 with the time 4294967295, the
value `-1` takes in the `unsigned long` that the handler compares with `now`. -/
theorem post_accepts_negative_time :
    (handlePostEvent negativeTimeRequest 500 setupEvents).1.statusCode = 200
      ∧ (handlePostEvent negativeTimeRequest 500 setupEvents).1.payload =
          Payload.eventObject { gpio := 25, state := 1, time := 4294967295, id := 0 }
      ∧ (handlePostEvent negativeTimeRequest 500 setupEvents).2 =
          setupEvents.set 0 { active := true, time := 4294967295, gpio := 25, state := 1 }
      ∧ negativeTimeRequest.time = some (-1)
      ∧ (-1 : Int) < ((500 / 1000 : Nat) : Int)
      ∧ ¬ ((handlePostEvent negativeTimeRequest 500 setupEvents).1.statusCode = 400 ↔
            ((-1 : Int) < ((500 / 1000 : Nat) : Int)
              ∨ ¬ ((25 : Int) = 25 ∨ (25 : Int) = 26 ∨ (25 : Int) = 27 ∨ (25 : Int) = 32
                  ∨ (25 : Int) = 33)
              ∨ ¬ ((1 : Int) = HIGH ∨ (1 : Int) = LOW))) := by
  decide

/-- The validity check at a valid request and a table with two taken slots. -/
theorem post_rejects_iff_invalid_witness :
    ((handlePostEvent sampleRequest 100000 sampleEvents).1.statusCode = 400 ↔
        (toUnsignedLong 100 < 100000 / 1000
          ∨ ¬ ((25 : Int) = 25 ∨ (25 : Int) = 26 ∨ (25 : Int) = 27 ∨ (25 : Int) = 32
              ∨ (25 : Int) = 33)
          ∨ ¬ ((1 : Int) = HIGH ∨ (1 : Int) = LOW))) :=
  (post_rejects_iff_invalid sampleRequest 100000 sampleEvents 100 25 1 rfl rfl rfl rfl).1

/-- Claim C4, as amended: for every valid request (`gpio` in the allow-list, `state` `HIGH`
or `LOW`, `now ≤ time < 2^32`, so that the time fits the `unsigned long` it is stored in)
and every event table whose lowest inactive slot is `k`, `handlePostEvent` writes
`(gpio, time, state, active = true)` into slot `k`, answers 200 with the JSON object holding
the stored `gpio`, `state`, `time` and `id = k`, and leaves every other slot unchanged. -/
theorem post_claims_lowest_inactive_slot (req : EventRequest) (millis : Nat)
    (events : List Event) (tm g s : Int) (k : Nat)
    (hc : req.requestComplete = true) (ht : req.time = some tm)
    (hg : req.gpio = some g) (hs : req.state = some s)
    (hgpio : g = 25 ∨ g = 26 ∨ g = 27 ∨ g = 32 ∨ g = 33) (hstate : s = HIGH ∨ s = LOW)
    (hnow : ((millis / 1000 : Nat) : Int) ≤ tm) (hfit : tm < (ULONG_RANGE : Int))
    (hlen : events.length = MAX_EVENTS) (hk : k < MAX_EVENTS)
    (hfree : (slot events k).active = false)
    (hlow : ∀ j, j < k → (slot events j).active = true) :
    (handlePostEvent req millis events).2 =
        events.set k { active := true, time := tm.toNat, gpio := g, state := s }
      ∧ ((tm.toNat : Nat) : Int) = tm
      ∧ (handlePostEvent req millis events).1.statusCode = 200
      ∧ (handlePostEvent req millis events).1.payload =
          Payload.eventObject { gpio := g, state := s, time := tm.toNat, id := (k : Int) }
      ∧ slot (handlePostEvent req millis events).2 k =
          { active := true, time := tm.toNat, gpio := g, state := s }
      ∧ (∀ j, j ≠ k → slot (handlePostEvent req millis events).2 j = slot events j)
      ∧ (handlePostEvent req millis events).2.length = MAX_EVENTS := by
  have h0 : 0 ≤ tm := by omega
  have htu := toUnsignedLong_of_fits tm h0 hfit
  have h := handlePostEvent_lowest req millis tm g s events k hc ht hg hs
    ((allowedGpio_iff g).mpr hgpio) ((allowedState_iff s).mpr hstate)
    (by rw [htu]; omega) hlen hk hfree hlow
  rw [htu] at h
  rw [h]
  refine ⟨rfl, Int.toNat_of_nonneg h0, rfl, rfl, ?_, ?_, ?_⟩
  · exact slot_set_self events k _ (by omega)
  · intro j hj
    exact slot_set_ne events k j _ (Ne.symm hj)
  · simp [hlen]

/-- Witness of claim C4 (amended): slots 0 and 1 are taken, the event is stored in slot 2. -/
theorem post_claims_lowest_inactive_slot_witness :
    (handlePostEvent sampleRequest 100000 sampleEvents).2 =
        sampleEvents.set 2 { active := true, time := 100, gpio := 25, state := 1 }
      ∧ (handlePostEvent sampleRequest 100000 sampleEvents).1.payload =
          Payload.eventObject { gpio := 25, state := 1, time := 100, id := 2 } :=
  have h := post_claims_lowest_inactive_slot sampleRequest 100000 sampleEvents 100 25 1 2
    rfl rfl rfl rfl (by decide) (by decide) (by decide) (by decide) (by decide) (by decide)
    (by decide) (by decide)
  ⟨h.1, h.2.2.2.1⟩

/-- Counterexample to claim C4 as stated: served at `millis() = 100000` (so `now = 100`),
the request `time = 4294967496, gpio = 25, state = 1` has `time ≥ now`, but the time written
to slot 0 and returned is 200, not the request time; and the request with
`time = 4294967301`, also not below `now`, is answered 400 and nothing is stored. -/
theorem post_stores_time_modulo_word :
    (handlePostEvent largeTimeRequest 100000 setupEvents).2 =
        setupEvents.set 0 { active := true, time := 200, gpio := 25, state := 1 }
      ∧ (handlePostEvent largeTimeRequest 100000 setupEvents).1.payload =
          Payload.eventObject { gpio := 25, state := 1, time := 200, id := 0 }
      ∧ largeTimeRequest.time = some 4294967496
      ∧ ((100000 / 1000 : Nat) : Int) ≤ 4294967496
      ∧ ((slot (handlePostEvent largeTimeRequest 100000 setupEvents).2 0).time : Int) ≠
          4294967496
      ∧ (handlePostEvent wrappedTimeRequest 100000 setupEvents).1.statusCode = 400
      ∧ (handlePostEvent wrappedTimeRequest 100000 setupEvents).2 = setupEvents
      ∧ wrappedTimeRequest.time = some 4294967301
      ∧ ((100000 / 1000 : Nat) : Int) ≤ 4294967301 := by
  decide

theorem handleDeleteEvent_in_range (param : Str) (events : List Event) (k : Nat)
    (hk : k < MAX_EVENTS) (hparam : atoi param = (k : Int)) :
    handleDeleteEvent param events =
      ({ freshResponse with statusCode := 204, statusText := "No Content".toList },
        events.set k { slot events k with active := false }) := by
  have hid : toUnsignedLong (atoi param) = k := by
    rw [hparam, toUnsignedLong_of_fits (k : Int) (by omega)
      (by unfold MAX_EVENTS at hk; unfold ULONG_RANGE; omega)]
    simp
  unfold handleDeleteEvent
  simp only [hid, hk, if_true]

/-- Claim C5: starting from the table `setup()` leaves, `MAX_EVENTS = 20` consecutive valid
inserts all answer 200 and return the ids 0, 1, ..., 19 in that order; on the full table
every further valid insert answers 507 and leaves the table unchanged; and after deleting
any id `k < 20` from the full table, the next valid insert answers 200 and returns `k`. -/
theorem capacity_and_slot_reuse (reqs : List (EventRequest × Nat))
    (hlen : reqs.length = MAX_EVENTS)
    (hvalid : ∀ p ∈ reqs, isValidRequest p.1 p.2 = true) :
    (runPosts reqs setupEvents).1.map (fun r => (r.statusCode, responseId r)) =
        (List.range MAX_EVENTS).map (fun (i : Nat) => (200, some (i : Int)))
      ∧ (∀ req millis, isValidRequest req millis = true →
          (handlePostEvent req millis (runPosts reqs setupEvents).2).1.statusCode = 507
          ∧ (handlePostEvent req millis (runPosts reqs setupEvents).2).2 =
              (runPosts reqs setupEvents).2)
      ∧ (∀ (k : Nat) (param : Str) req millis, k < MAX_EVENTS → atoi param = (k : Int) →
          isValidRequest req millis = true →
          (handleDeleteEvent param (runPosts reqs setupEvents).2).1.statusCode = 204
          ∧ (handlePostEvent req millis
                (handleDeleteEvent param (runPosts reqs setupEvents).2).2).1.statusCode = 200
          ∧ responseId (handlePostEvent req millis
                (handleDeleteEvent param (runPosts reqs setupEvents).2).2).1 =
              some (k : Int)) := by
  obtain ⟨stored, hsl, hsa, htab, hresp⟩ :=
    runPosts_fills reqs [] 0 (by simp) (by simpa using hlen) hvalid
  simp only [Nat.add_zero, List.nil_append, List.replicate_zero, List.append_nil,
    List.length_nil, Nat.zero_add] at htab hresp
  have hinit : List.replicate reqs.length setupEvent = setupEvents := by
    rw [hlen]
    rfl
  rw [hinit] at htab hresp
  rw [htab]
  have hfull : stored.length = MAX_EVENTS := by omega
  refine ⟨by rw [hresp, hlen], ?_, ?_⟩
  · intro req millis hv
    obtain ⟨hc, tm, g, s, ht, hg, hs, hgpio, hstate, hnow⟩ := valid_unpack req millis hv
    rw [handlePostEvent_full req millis tm g s stored hc ht hg hs hgpio hstate hnow hsa hfull]
    exact ⟨rfl, rfl⟩
  · intro k param req millis hk hparam hv
    obtain ⟨hc, tm, g, s, ht, hg, hs, hgpio, hstate, hnow⟩ := valid_unpack req millis hv
    rw [handleDeleteEvent_in_range param stored k hk hparam]
    have hpost := handlePostEvent_lowest req millis tm g s
      (stored.set k { slot stored k with active := false }) k hc ht hg hs hgpio hstate hnow
      (by simp [hfull]) hk (by rw [slot_set_self stored k _ (by omega)])
      (by
        intro j hj
        rw [slot_set_ne stored k j _ (by omega)]
        unfold slot
        rw [List.getD_eq_getElem _ _ (by omega)]
        exact hsa _ (List.getElem_mem _))
    rw [hpost]
    exact ⟨rfl, rfl, rfl⟩

/-- Witness of claim C5 with twenty copies of one valid request. -/
theorem capacity_and_slot_reuse_witness :
    (runPosts sampleRequests setupEvents).1.map (fun r => (r.statusCode, responseId r)) =
      (List.range MAX_EVENTS).map (fun (i : Nat) => (200, some (i : Int))) :=
  (capacity_and_slot_reuse sampleRequests (by decide) (by decide)).1

/-! ### Event scheduler: delete, listing, repeated passes, invariant -/

theorem handleDeleteEvent_out_of_range (param : Str) (events : List Event)
    (h : ¬ toUnsignedLong (atoi param) < MAX_EVENTS) :
    handleDeleteEvent param events =
      (errorResponse 400 "Bad Request" "400 Bad Request", events) := by
  unfold handleDeleteEvent
  simp only [h, if_false]

/-- Claim C12: for every path parameter whose parsed `int` value is at least `MAX_EVENTS`,
or is negative and so converts to a `size_t` of at least `2^31`, `handleDeleteEvent` answers
400 and returns the event table as it was. -/
theorem delete_rejects_out_of_range (param : Str) (events : List Event)
    (hint : -2147483648 ≤ atoi param ∧ atoi param < 2147483648)
    (hbad : (MAX_EVENTS : Int) ≤ atoi param ∨ atoi param < 0) :
    (handleDeleteEvent param events).1.statusCode = 400
      ∧ (handleDeleteEvent param events).2 = events
      ∧ (atoi param < 0 → 2147483648 ≤ toUnsignedLong (atoi param)) := by
  have hconv : atoi param < 0 → 2147483648 ≤ toUnsignedLong (atoi param) := by
    intro hneg
    unfold toUnsignedLong ULONG_RANGE
    omega
  have hrange : ¬ toUnsignedLong (atoi param) < MAX_EVENTS := by
    rcases hbad with h | h
    · rw [toUnsignedLong_of_fits _ (by unfold MAX_EVENTS at h; omega)
        (by unfold ULONG_RANGE; omega)]
      unfold MAX_EVENTS at *
      omega
    · have := hconv h
      unfold MAX_EVENTS
      omega
  rw [handleDeleteEvent_out_of_range param events hrange]
  exact ⟨rfl, rfl, hconv⟩

/-- Witness of claim C12 for the path parameter `-1`. -/
theorem delete_rejects_out_of_range_witness :
    (handleDeleteEvent "-1".toList sampleEvents).1.statusCode = 400
      ∧ (handleDeleteEvent "-1".toList sampleEvents).2 = sampleEvents :=
  have h := delete_rejects_out_of_range "-1".toList sampleEvents (by decide) (by decide)
  ⟨h.1, h.2.1⟩

/-- Claim C13: for every id below `MAX_EVENTS` and every event table, `handleDeleteEvent`
answers 204 and sets `active = false` on slot `id`, whether or not the slot was active,
leaving the other fields of the slot and every other slot unchanged; deleting the same id a
second time gives the same table and the same 204 answer. -/
theorem delete_clears_slot_idempotent (param : Str) (events : List Event) (k : Nat)
    (hk : k < MAX_EVENTS) (hparam : atoi param = (k : Int))
    (hlen : events.length = MAX_EVENTS) :
    (handleDeleteEvent param events).1.statusCode = 204
      ∧ (handleDeleteEvent param events).1.payload = Payload.empty
      ∧ slot (handleDeleteEvent param events).2 k = { slot events k with active := false }
      ∧ (∀ j, j ≠ k → slot (handleDeleteEvent param events).2 j = slot events j)
      ∧ (handleDeleteEvent param events).2.length = MAX_EVENTS
      ∧ handleDeleteEvent param (handleDeleteEvent param events).2 =
          handleDeleteEvent param events := by
  have h1 := handleDeleteEvent_in_range param events k hk hparam
  have hkl : k < events.length := by omega
  have h2 := handleDeleteEvent_in_range param
    (events.set k { slot events k with active := false }) k hk hparam
  rw [h1]
  refine ⟨rfl, rfl, slot_set_self events k _ hkl, ?_, by simp [hlen], ?_⟩
  · intro j hj
    exact slot_set_ne events k j _ (Ne.symm hj)
  · simp only
    rw [h2, slot_set_self events k _ hkl]
    simp

/-- Witness of claim C13: deleting id 1 of a table whose slot 1 is active. -/
theorem delete_clears_slot_idempotent_witness :
    (handleDeleteEvent "1".toList sampleEvents).1.statusCode = 204
      ∧ slot (handleDeleteEvent "1".toList sampleEvents).2 1 =
          { slot sampleEvents 1 with active := false } :=
  have h := delete_clears_slot_idempotent "1".toList sampleEvents 1 (by decide) (by decide)
    (by decide)
  ⟨h.1, h.2.2.1⟩

theorem tick_slot (now : Nat) (events : List Event) (hlen : events.length = MAX_EVENTS)
    (i : Nat) (hi : i < MAX_EVENTS) :
    slot (tick now events).1 i = afterTick now (slot events i) := by
  rw [tick_eq now events hlen]
  exact slot_map (afterTick now) events i (by omega)

theorem tick_length (now : Nat) (events : List Event) (hlen : events.length = MAX_EVENTS) :
    (tick now events).1.length = MAX_EVENTS := by
  rw [tick_eq now events hlen]
  simpa using hlen

theorem tick_writes (now : Nat) (events : List Event) (hlen : events.length = MAX_EVENTS) :
    (tick now events).2 =
      (firedSlots now events).map (fun i => ((slot events i).gpio, (slot events i).state)) := by
  rw [tick_eq now events hlen]
  have h := filter_map_by_index (fires now) (fun e => (e.gpio, e.state)) events
  rw [hlen] at h
  exact h

theorem afterTick_fields (now : Nat) (e : Event) :
    (afterTick now e).gpio = e.gpio ∧ (afterTick now e).state = e.state
      ∧ (afterTick now e).time = e.time
      ∧ ((afterTick now e).active = true → e.active = true)
      ∧ (fires now e = true → (afterTick now e).active = false) := by
  unfold afterTick
  by_cases h : fires now e = true
  · simp [h]
  · simp [h]

theorem delete_length (param : Str) (events : List Event) :
    (handleDeleteEvent param events).2.length = events.length := by
  unfold handleDeleteEvent
  simp only
  split <;> simp

theorem delete_slot (param : Str) (events : List Event) (i : Nat) :
    (slot (handleDeleteEvent param events).2 i).gpio = (slot events i).gpio
      ∧ (slot (handleDeleteEvent param events).2 i).state = (slot events i).state
      ∧ (slot (handleDeleteEvent param events).2 i).time = (slot events i).time
      ∧ ((slot (handleDeleteEvent param events).2 i).active = true →
          (slot events i).active = true) := by
  unfold handleDeleteEvent
  simp only
  split
  · by_cases hi : toUnsignedLong (atoi param) = i
    · by_cases hl : i < events.length
      · rw [hi, slot_set_self events i _ hl]
        simp
      · rw [hi, List.set_eq_of_length_le (by omega)]
        simp
    · rw [slot_set_ne events _ i _ hi]
      simp
  · simp

theorem mem_firedSlots (now : Nat) (events : List Event) (i : Nat) :
    i ∈ firedSlots now events ↔ i < MAX_EVENTS ∧ fires now (slot events i) = true := by
  simp [firedSlots, List.mem_filter]

theorem count_firedSlots (now : Nat) (events : List Event) (i : Nat) :
    (firedSlots now events).count i ≤ 1 :=
  List.nodup_iff_count_le_one.mp ((List.nodup_range MAX_EVENTS).filter _) i

theorem firedLog_lt (steps : List Step) :
    ∀ events : List Event, ∀ i ∈ firedLog steps events, i < MAX_EVENTS := by
  induction steps with
  | nil => intro events i hi; simp [firedLog] at hi
  | cons step rest ih =>
    intro events i hi
    cases step with
    | post req millis => exact ih _ i (by simpa [firedLog] using hi)
    | delete param => exact ih _ i (by simpa [firedLog] using hi)
    | tick millis =>
      simp only [firedLog, List.mem_append] at hi
      rcases hi with h | h
      · exact ((mem_firedSlots _ _ _).mp h).1
      · exact ih _ i h

theorem firedLog_count (steps : List Step) :
    ∀ events : List Event, events.length = MAX_EVENTS →
      (∀ s ∈ steps, noInsert s = true) →
      ∀ i, (firedLog steps events).count i ≤ (if (slot events i).active = true then 1 else 0) := by
  induction steps with
  | nil => intro events _ _ i; simp [firedLog]
  | cons step rest ih =>
    intro events hlen hno i
    have hrest : ∀ s ∈ rest, noInsert s = true := fun s hs => hno s (List.mem_cons_of_mem _ hs)
    cases step with
    | post req millis =>
      have := hno (Step.post req millis) (List.mem_cons_self _ _)
      simp [noInsert] at this
    | delete param =>
      have h := ih (handleDeleteEvent param events).2
        (by rw [delete_length]; exact hlen) hrest i
      simp only [firedLog]
      by_cases ha : (slot (handleDeleteEvent param events).2 i).active = true
      · have := (delete_slot param events i).2.2.2 ha
        simp only [ha, this, if_true] at h ⊢
        exact h
      · simp only [ha, if_false] at h
        exact Nat.le_trans h (Nat.zero_le _)
    | tick millis =>
      have hl2 : (loop millis events).1.length = MAX_EVENTS := tick_length _ events hlen
      have h := ih (loop millis events).1 hl2 hrest i
      simp only [firedLog, List.count_append]
      by_cases hi : i < MAX_EVENTS
      · have hslot : slot (loop millis events).1 i = afterTick (millis / 1000) (slot events i) :=
          tick_slot _ events hlen i hi
        rw [hslot] at h
        have hf := afterTick_fields (millis / 1000) (slot events i)
        by_cases hfire : fires (millis / 1000) (slot events i) = true
        · have hact : (slot events i).active = true := by
            unfold fires at hfire
            simp only [Bool.and_eq_true] at hfire
            exact hfire.1
          have hoff := hf.2.2.2.2 hfire
          simp only [hoff, Bool.false_eq_true, if_false, Nat.le_zero] at h
          simp only [hact, if_true, h, Nat.add_zero]
          exact count_firedSlots _ _ _
        · have hnot : i ∉ firedSlots (millis / 1000) events := by
            rw [mem_firedSlots]
            exact fun hc => hfire hc.2
          rw [List.count_eq_zero_of_not_mem hnot, Nat.zero_add]
          by_cases ha : (afterTick (millis / 1000) (slot events i)).active = true
          · have := hf.2.2.2.1 ha
            simp only [ha, this, if_true] at h ⊢
            exact h
          · simp only [ha, if_false] at h
            exact Nat.le_trans h (Nat.zero_le _)
      · have h1 : i ∉ firedSlots (millis / 1000) events := by
          rw [mem_firedSlots]
          exact fun hc => hi hc.1
        have h2 : i ∉ firedLog rest (loop millis events).1 :=
          fun hc => hi (firedLog_lt rest _ i hc)
        rw [List.count_eq_zero_of_not_mem h1, List.count_eq_zero_of_not_mem h2]
        exact Nat.zero_le _

theorem pinWrites_eq (steps : List Step) :
    ∀ events : List Event, events.length = MAX_EVENTS →
      (∀ s ∈ steps, noInsert s = true) →
      pinWrites steps events =
        (firedLog steps events).map (fun i => ((slot events i).gpio, (slot events i).state)) := by
  induction steps with
  | nil => intro events _ _; simp [pinWrites, firedLog]
  | cons step rest ih =>
    intro events hlen hno
    have hrest : ∀ s ∈ rest, noInsert s = true := fun s hs => hno s (List.mem_cons_of_mem _ hs)
    cases step with
    | post req millis =>
      have := hno (Step.post req millis) (List.mem_cons_self _ _)
      simp [noInsert] at this
    | delete param =>
      simp only [pinWrites, firedLog]
      rw [ih _ (by rw [delete_length]; exact hlen) hrest]
      apply List.map_congr_left
      intro i _
      have h := delete_slot param events i
      rw [h.1, h.2.1]
    | tick millis =>
      have hl2 : (loop millis events).1.length = MAX_EVENTS := tick_length _ events hlen
      simp only [pinWrites, firedLog, List.map_append]
      rw [ih _ hl2 hrest]
      have hw : (loop millis events).2 = (firedSlots (millis / 1000) events).map
          (fun i => ((slot events i).gpio, (slot events i).state)) :=
        tick_writes _ events hlen
      rw [hw]
      congr 1
      apply List.map_congr_left
      intro i hi
      have hslot : slot (loop millis events).1 i = afterTick (millis / 1000) (slot events i) :=
        tick_slot _ events hlen i (firedLog_lt rest _ i hi)
      have hf := afterTick_fields (millis / 1000) (slot events i)
      rw [hslot, hf.1, hf.2.1]

/-- Claim C14: for every event table and clock values `now1`, `now2`, a scheduler pass at
`now1` followed by a pass at `now2` with no insert in between fires in the second pass no
slot that the first pass fired. Over any sequence of scheduler passes and delete requests,
the pin writes are those of the fired slots and every slot is fired at most once, and only
if it was active at the start: an accepted insert causes at most one pin write. -/
theorem no_duplicate_firing (events : List Event) (hlen : events.length = MAX_EVENTS) :
    (∀ now1 now2 i, i ∈ firedSlots now1 events → i ∉ firedSlots now2 (tick now1 events).1)
      ∧ (∀ now1 now2,
          (tick now2 (tick now1 events).1).2 =
            (firedSlots now2 (tick now1 events).1).map
              (fun i => ((slot events i).gpio, (slot events i).state)))
      ∧ (∀ steps : List Step, (∀ s ∈ steps, noInsert s = true) →
          pinWrites steps events =
              (firedLog steps events).map
                (fun i => ((slot events i).gpio, (slot events i).state))
          ∧ ∀ i, (firedLog steps events).count i ≤ 1
              ∧ ((slot events i).active = false → (firedLog steps events).count i = 0)) := by
  refine ⟨?_, ?_, ?_⟩
  · intro now1 now2 i hi hi2
    rw [mem_firedSlots] at hi hi2
    rw [tick_slot now1 events hlen i hi.1] at hi2
    have hoff := (afterTick_fields now1 (slot events i)).2.2.2.2 hi.2
    have hact : (afterTick now1 (slot events i)).active = true := by
      have := hi2.2
      unfold fires at this
      simp only [Bool.and_eq_true] at this
      exact this.1
    rw [hoff] at hact
    exact Bool.false_ne_true hact
  · intro now1 now2
    rw [tick_writes now2 _ (tick_length now1 events hlen)]
    apply List.map_congr_left
    intro i hi
    have hlt := ((mem_firedSlots _ _ _).mp hi).1
    have hf := afterTick_fields now1 (slot events i)
    rw [tick_slot now1 events hlen i hlt, hf.1, hf.2.1]
  · intro steps hno
    refine ⟨pinWrites_eq steps events hlen hno, fun i => ?_⟩
    have h := firedLog_count steps events hlen hno i
    constructor
    · by_cases ha : (slot events i).active = true
      · simpa [ha] using h
      · simp only [ha, if_false] at h
        exact Nat.le_trans h (Nat.zero_le _)
    · intro ha
      simp only [ha, Bool.false_eq_true, if_false, Nat.le_zero] at h
      exact h

/-- Witness of claim C14: slot 3 of the sample table, fired at `now = 5`, is not fired
again at `now = 9`, where slot 4 fires. -/
theorem no_duplicate_firing_witness :
    (tick 9 (tick 5 dueEvents).1).2 =
      (firedSlots 9 (tick 5 dueEvents).1).map
        (fun i => ((slot dueEvents i).gpio, (slot dueEvents i).state))
      ∧ (tick 9 (tick 5 dueEvents).1).2 = [(26, 0)] :=
  ⟨(no_duplicate_firing dueEvents (by decide)).2.1 5 9, by decide⟩

theorem postLoop_length (g s : Int) (tm : Nat) :
    ∀ (n i : Nat) (events : List Event) (id : Int),
      (postLoop g s tm n i events id).1.length = events.length := by
  intro n
  induction n with
  | zero => intro i events id; rfl
  | succ n ih =>
    intro i events id
    unfold postLoop
    split
    · split
      · rw [ih]; simp
      · rw [ih]
    · rfl

theorem postLoop_mem (g s : Int) (tm : Nat) :
    ∀ (n i : Nat) (events : List Event) (id : Int),
      ∀ e ∈ (postLoop g s tm n i events id).1,
        e ∈ events ∨ e = { active := true, time := tm, gpio := g, state := s } := by
  intro n
  induction n with
  | zero => intro i events id e he; exact Or.inl he
  | succ n ih =>
    intro i events id e he
    unfold postLoop at he
    split at he
    · split at he
      · rcases ih _ _ _ e he with h | h
        · rcases List.mem_or_eq_of_mem_set h with h2 | h2
          · exact Or.inl h2
          · exact Or.inr h2
        · exact Or.inr h
      · exact ih _ _ _ e he
    · exact Or.inl he

theorem handlePostEvent_table (req : EventRequest) (millis : Nat) (events : List Event) :
    (handlePostEvent req millis events).2 = events
      ∨ ∃ tm g s, allowedGpio g = true ∧ allowedState s = true
          ∧ (handlePostEvent req millis events).2 =
              (postLoop g s tm MAX_EVENTS 0 events (-1)).1 := by
  by_cases hc : req.requestComplete = true
  · cases ht : req.time with
    | none => left; simp [handlePostEvent, hc, ht]
    | some tm =>
      cases hg : req.gpio with
      | none => left; simp [handlePostEvent, hc, ht, hg]
      | some g =>
        cases hs : req.state with
        | none => left; simp [handlePostEvent, hc, ht, hg, hs]
        | some s =>
          rw [handlePostEvent_checked req millis events tm g s hc ht hg hs]
          by_cases hbad : toUnsignedLong tm < millis / 1000 ∨ allowedGpio g = false
              ∨ allowedState s = false
          · left
            rw [if_pos hbad]
          · right
            rw [if_neg hbad]
            refine ⟨toUnsignedLong tm, g, s, ?_, ?_, ?_⟩
            · cases h : allowedGpio g
              · exact absurd (Or.inr (Or.inl h)) hbad
              · rfl
            · cases h : allowedState s
              · exact absurd (Or.inr (Or.inr h)) hbad
              · rfl
            · split <;> rfl
  · left
    simp [handlePostEvent, hc]

theorem invariant_setup : tableInvariant setupEvents := by
  refine ⟨rfl, ?_⟩
  intro e he hact
  have : e = setupEvent := List.eq_of_mem_replicate he
  rw [this] at hact
  exact absurd hact (by decide)

theorem invariant_post (req : EventRequest) (millis : Nat) (events : List Event)
    (h : tableInvariant events) : tableInvariant (handlePostEvent req millis events).2 := by
  rcases handlePostEvent_table req millis events with heq | ⟨tm, g, s, hg, hs, heq⟩
  · rw [heq]; exact h
  · rw [heq]
    refine ⟨by rw [postLoop_length]; exact h.1, ?_⟩
    intro e he hact
    rcases postLoop_mem g s tm _ _ _ _ e he with hmem | hnew
    · exact h.2 e hmem hact
    · rw [hnew]
      exact ⟨hg, hs⟩

theorem invariant_delete (param : Str) (events : List Event) (h : tableInvariant events) :
    tableInvariant (handleDeleteEvent param events).2 := by
  refine ⟨by rw [delete_length]; exact h.1, ?_⟩
  intro e he hact
  unfold handleDeleteEvent at he
  simp only at he
  split at he
  · rcases List.mem_or_eq_of_mem_set he with hmem | hnew
    · exact h.2 e hmem hact
    · rw [hnew] at hact
      exact absurd hact (by simp)
  · exact h.2 e he hact

theorem invariant_tick (now : Nat) (events : List Event) (h : tableInvariant events) :
    tableInvariant (tick now events).1 := by
  refine ⟨tick_length now events h.1, ?_⟩
  intro e he hact
  rw [tick_eq now events h.1] at he
  obtain ⟨e0, he0, rfl⟩ := List.mem_map.mp he
  have hf := afterTick_fields now e0
  rw [hf.1, hf.2.1]
  exact h.2 e0 he0 (hf.2.2.2.1 hact)

theorem invariant_step (events : List Event) (step : Step) (h : tableInvariant events) :
    tableInvariant (applyStep events step) := by
  cases step with
  | post req millis => exact invariant_post req millis events h
  | delete param => exact invariant_delete param events h
  | tick millis => exact invariant_tick _ events h

theorem invariant_run (steps : List Step) :
    ∀ events : List Event, tableInvariant events → tableInvariant (runSteps steps events) := by
  induction steps with
  | nil => intro events h; exact h
  | cons step rest ih =>
    intro events h
    exact ih _ (invariant_step events step h)

/-- Claim C15: in every event table reached from the table `setup()` leaves by any sequence
of `handlePostEvent`, `handleDeleteEvent` and scheduler steps, every active slot has `gpio`
in 25, 26, 27, 32, 33 and `state` `HIGH` or `LOW`, and at most `MAX_EVENTS` slots are
active; so every pin write of a scheduler pass on such a table names an allowed pin and an
allowed state. -/
theorem reachable_tables_hold_allowed_pins (steps : List Step) :
    (runSteps steps setupEvents).length = MAX_EVENTS
      ∧ (∀ i, i < MAX_EVENTS → (slot (runSteps steps setupEvents) i).active = true →
          ((slot (runSteps steps setupEvents) i).gpio = 25
              ∨ (slot (runSteps steps setupEvents) i).gpio = 26
              ∨ (slot (runSteps steps setupEvents) i).gpio = 27
              ∨ (slot (runSteps steps setupEvents) i).gpio = 32
              ∨ (slot (runSteps steps setupEvents) i).gpio = 33)
          ∧ ((slot (runSteps steps setupEvents) i).state = HIGH
              ∨ (slot (runSteps steps setupEvents) i).state = LOW))
      ∧ activeCount (runSteps steps setupEvents) ≤ MAX_EVENTS
      ∧ (∀ millis, ∀ w ∈ (loop millis (runSteps steps setupEvents)).2,
          (w.1 = 25 ∨ w.1 = 26 ∨ w.1 = 27 ∨ w.1 = 32 ∨ w.1 = 33)
            ∧ (w.2 = HIGH ∨ w.2 = LOW)) := by
  have hinv := invariant_run steps setupEvents invariant_setup
  refine ⟨hinv.1, ?_, ?_, ?_⟩
  · intro i hi hact
    have hmem : slot (runSteps steps setupEvents) i ∈ runSteps steps setupEvents := by
      unfold slot
      rw [List.getD_eq_getElem _ _ (by rw [hinv.1]; exact hi)]
      exact List.getElem_mem _
    have h := hinv.2 _ hmem hact
    exact ⟨(allowedGpio_iff _).mp h.1, (allowedState_iff _).mp h.2⟩
  · unfold activeCount
    rw [← hinv.1]
    exact List.length_filter_le _ _
  · intro millis w hw
    have heq : (loop millis (runSteps steps setupEvents)).2 =
        ((runSteps steps setupEvents).filter (fires (millis / 1000))).map
          (fun e => (e.gpio, e.state)) := by
      unfold loop
      rw [tick_eq _ _ hinv.1]
    rw [heq] at hw
    obtain ⟨e, he, rfl⟩ := List.mem_map.mp hw
    have hmem := (List.mem_filter.mp he).1
    have hact : e.active = true := by
      have := (List.mem_filter.mp he).2
      unfold fires at this
      simp only [Bool.and_eq_true] at this
      exact this.1
    have h := hinv.2 e hmem hact
    exact ⟨(allowedGpio_iff _).mp h.1, (allowedState_iff _).mp h.2⟩

theorem getEventsLoop_eq (events : List Event) :
    ∀ (n i : Nat) (arr : List EventJson),
      getEventsLoop n i events arr =
        arr ++ ((List.range' i n).filter (fun j => (slot events j).active)).map
          (fun j => { gpio := (slot events j).gpio, state := (slot events j).state,
                      time := (slot events j).time, id := (j : Int) }) := by
  intro n
  induction n with
  | zero => intro i arr; simp [getEventsLoop]
  | succ n ih =>
    intro i arr
    rw [getEventsLoop, List.range'_succ]
    by_cases ha : (slot events i).active = true
    · simp [ha, ih, List.filter_cons]
    · simp [ha, ih, List.filter_cons]

/-- Claim C16: for every event table, `handleGetEvents` answers 200 with exactly one entry
`{gpio, state, time, id}` for each active slot and none for an inactive slot, `id` being
the slot index and the entries standing in strictly ascending order of `id`; the event
table is left as it was. -/
theorem get_events_lists_active_slots (events : List Event) :
    (handleGetEvents events).1.payload =
        Payload.eventArray
          (((List.range MAX_EVENTS).filter (fun i => (slot events i).active)).map
            (fun i => { gpio := (slot events i).gpio, state := (slot events i).state,
                        time := (slot events i).time, id := (i : Int) }))
      ∧ (handleGetEvents events).1.statusCode = 200
      ∧ (handleGetEvents events).2 = events
      ∧ List.Pairwise (fun a b => a < b)
          ((getEventsLoop MAX_EVENTS 0 events []).map (fun e => e.id))
      ∧ (∀ i : Nat, ((i : Int) ∈ (getEventsLoop MAX_EVENTS 0 events []).map (fun e => e.id) ↔
          (i < MAX_EVENTS ∧ (slot events i).active = true))) := by
  have hloop := getEventsLoop_eq events MAX_EVENTS 0 []
  rw [List.nil_append, ← List.range_eq_range'] at hloop
  refine ⟨?_, rfl, rfl, ?_, ?_⟩
  · unfold handleGetEvents
    simp only [hloop]
  · rw [hloop, List.map_map]
    have hsorted : List.Pairwise (fun a b : Nat => a < b)
        ((List.range MAX_EVENTS).filter (fun i => (slot events i).active)) :=
      List.Pairwise.sublist (List.filter_sublist _) (List.pairwise_lt_range MAX_EVENTS)
    rw [List.pairwise_map]
    exact hsorted.imp (fun h => by simpa using h)
  · intro i
    rw [hloop, List.map_map]
    simp only [List.mem_map, List.mem_filter, List.mem_range, Function.comp]
    constructor
    · rintro ⟨j, ⟨hj, hact⟩, hij⟩
      have : j = i := by exact_mod_cast hij
      subst this
      exact ⟨hj, hact⟩
    · rintro ⟨hi, hact⟩
      exact ⟨i, ⟨hi, hact⟩, rfl⟩

/-! ### Session store -/

theorem getMember_setMember_self (doc : SessionTable) (d : Str) (v : Session) :
    getMember (setMember doc d v) d = some v := by
  induction doc with
  | nil => simp [setMember, getMember]
  | cons p rest ih =>
    obtain ⟨key, old⟩ := p
    by_cases h : key = d
    · simp [setMember, getMember, h]
    · simp [setMember, getMember, h, ih]

theorem getMember_setMember_ne (doc : SessionTable) (d other : Str) (v : Session)
    (h : other ≠ d) : getMember (setMember doc d v) other = getMember doc other := by
  induction doc with
  | nil => simp [setMember, getMember, Ne.symm h]
  | cons p rest ih =>
    obtain ⟨key, old⟩ := p
    by_cases hk : key = d
    · subst hk
      simp [setMember, getMember, Ne.symm h]
    · by_cases ho : key = other
      · subst ho
        simp [setMember, getMember, hk]
      · simp [setMember, getMember, hk, ho, ih]

theorem setMember_keys (doc : SessionTable) (d : Str) (v old : Session)
    (h : getMember doc d = some old) :
    (setMember doc d v).map Prod.fst = doc.map Prod.fst := by
  induction doc with
  | nil => simp [getMember] at h
  | cons p rest ih =>
    obtain ⟨key, w⟩ := p
    by_cases hk : key = d
    · simp [setMember, hk]
    · simp only [getMember, hk, if_false] at h
      simp [setMember, hk, ih h]

theorem subUnsignedLong_of_le (a b : Nat) (h : b ≤ a) (ha : a < ULONG_RANGE) :
    subUnsignedLong a b = a - b := by
  unfold subUnsignedLong toUnsignedLong
  unfold ULONG_RANGE at *
  omega

theorem subUnsignedLong_after (last delta : Nat) (h : delta < ULONG_RANGE) :
    subUnsignedLong ((last + delta) % ULONG_RANGE) last = delta := by
  unfold subUnsignedLong toUnsignedLong
  unfold ULONG_RANGE at *
  omega

theorem checkSession_cases (d tok : Str) (now : Nat) (file : SessionFile) :
    (checkSession d tok now file).1 = true ↔
      ∃ s, getMember (readSessions file) d = some s ∧ s.token = tok
        ∧ subUnsignedLong now s.last ≤ SESSION_TIMEOUT := by
  unfold checkSession
  cases hm : getMember (readSessions file) d with
  | none => simp
  | some s =>
    by_cases ht : s.token = tok
    · by_cases hl : subUnsignedLong now s.last > SESSION_TIMEOUT
      · simp [ht, hl]
      · simp [ht, hl]
        omega
    · simp [ht]

/-- Claim C6, as amended: `checkSession` returns true if and only if the session table has
an entry for the device id, its token equals the presented token, and `now - last`
computed in unsigned 32-bit arithmetic (modulo `2^32`) is at most 300000; when
`last ≤ now < 2^32` this is `now - last ≤ 300000`; with a matching token it returns true at
`now = last + 300000` and false at `now = last + 300001` (clock values modulo `2^32`). -/
theorem checkSession_true_iff_modular (d tok : Str) (now : Nat) (file : SessionFile) :
    ((checkSession d tok now file).1 = true ↔
        ∃ s, getMember (readSessions file) d = some s ∧ s.token = tok
          ∧ ((now : Int) - (s.last : Int)) % 4294967296 ≤ 300000)
      ∧ (∀ s, getMember (readSessions file) d = some s → s.last ≤ now → now < 4294967296 →
          ((checkSession d s.token now file).1 = true ↔ now - s.last ≤ 300000))
      ∧ (∀ s, getMember (readSessions file) d = some s →
          (checkSession d s.token ((s.last + 300000) % 4294967296) file).1 = true
          ∧ (checkSession d s.token ((s.last + 300001) % 4294967296) file).1 = false) := by
  have hmod : ∀ a b : Nat, (subUnsignedLong a b ≤ SESSION_TIMEOUT ↔
      ((a : Int) - (b : Int)) % 4294967296 ≤ 300000) := by
    intro a b
    unfold subUnsignedLong toUnsignedLong SESSION_TIMEOUT ULONG_RANGE
    omega
  refine ⟨?_, ?_, ?_⟩
  · rw [checkSession_cases]
    constructor
    · rintro ⟨s, h1, h2, h3⟩
      exact ⟨s, h1, h2, (hmod now s.last).mp h3⟩
    · rintro ⟨s, h1, h2, h3⟩
      exact ⟨s, h1, h2, (hmod now s.last).mpr h3⟩
  · intro s hs hle hnow
    rw [checkSession_cases]
    have hsub := subUnsignedLong_of_le now s.last hle (by unfold ULONG_RANGE; omega)
    constructor
    · rintro ⟨s2, h1, _, h3⟩
      rw [hs] at h1
      cases h1
      rw [hsub] at h3
      unfold SESSION_TIMEOUT at h3
      omega
    · intro h
      refine ⟨s, hs, rfl, ?_⟩
      rw [hsub]
      unfold SESSION_TIMEOUT
      omega
  · intro s hs
    constructor
    · rw [checkSession_cases]
      refine ⟨s, hs, rfl, ?_⟩
      have h := subUnsignedLong_after s.last 300000 (by unfold ULONG_RANGE; omega)
      unfold ULONG_RANGE at h
      rw [h]
      unfold SESSION_TIMEOUT
      omega
    · rw [Bool.eq_false_iff, Ne, checkSession_cases]
      rintro ⟨s2, h1, _, h3⟩
      rw [hs] at h1
      cases h1
      have h := subUnsignedLong_after s.last 300001 (by unfold ULONG_RANGE; omega)
      unfold ULONG_RANGE at h
      rw [h] at h3
      unfold SESSION_TIMEOUT at h3
      omega

/-- Witness of claim C6 (amended): a session last seen at 1000 is accepted at 301000 and
refused at 301001. -/
theorem checkSession_true_iff_modular_witness :
    (checkSession "AB12".toList "T1".toList 301000 sampleSessions).1 = true
      ∧ (checkSession "AB12".toList "T1".toList 301001 sampleSessions).1 = false :=
  (checkSession_true_iff_modular "AB12".toList "T1".toList 0 sampleSessions).2.2
    { token := "T1".toList, last := 1000 } rfl

/-- Counterexample to claim C6 as stated: the entry exists, the token matches and
`now - last = 0 - 1000 ≤ 300000`, yet `checkSession` returns false (the clock restarted
while the session file persisted). -/
theorem checkSession_rejects_clock_behind_last :
    ¬ ((checkSession "AB12".toList "T1".toList 0 sampleSessions).1 = true ↔
        ∃ s, getMember (readSessions sampleSessions) "AB12".toList = some s
          ∧ s.token = "T1".toList ∧ ((0 : Nat) : Int) - (s.last : Int) ≤ 300000) := by
  intro h
  have hcode : (checkSession "AB12".toList "T1".toList 0 sampleSessions).1 = false := by decide
  have hclaim := h.mpr ⟨{ token := "T1".toList, last := 1000 }, rfl, rfl, by decide⟩
  rw [hcode] at hclaim
  exact Bool.false_ne_true hclaim

/-- Claim C7: `checkSession` leaves the session file as it is when it returns false; when
it returns true the file holds the same members in the same order, the checked device
keeps its token and has `last = now`, and every other device has its entry unchanged.
Hence for a session created at time `t` the check at `t + 100000` succeeds and the
following check at `t + 350000` succeeds too (clock values modulo `2^32`). -/
theorem checkSession_sliding_expiry (d tok : Str) (now : Nat) (file : SessionFile) :
    ((checkSession d tok now file).1 = false → (checkSession d tok now file).2 = file)
      ∧ ((checkSession d tok now file).1 = true →
          ∃ s doc, getMember (readSessions file) d = some s ∧ s.token = tok
            ∧ (checkSession d tok now file).2 = some doc
            ∧ getMember doc d = some { token := s.token, last := now }
            ∧ (∀ other, other ≠ d → getMember doc other = getMember (readSessions file) other)
            ∧ doc.map Prod.fst = (readSessions file).map Prod.fst)
      ∧ (∀ t : Nat,
          (checkSession d tok ((t + 100000) % 4294967296) (saveSession d tok t file)).1 = true
          ∧ (checkSession d tok ((t + 350000) % 4294967296)
              (checkSession d tok ((t + 100000) % 4294967296)
                (saveSession d tok t file)).2).1 = true) := by
  refine ⟨?_, ?_, ?_⟩
  · unfold checkSession
    cases hm : getMember (readSessions file) d with
    | none => simp
    | some s =>
      by_cases ht : s.token = tok
      · by_cases hl : subUnsignedLong now s.last > SESSION_TIMEOUT
        · simp [ht, hl]
        · simp [ht, hl]
      · simp [ht]
  · intro htrue
    obtain ⟨s, hs, htok, hlast⟩ := (checkSession_cases d tok now file).mp htrue
    refine ⟨s, setMember (readSessions file) d { s with last := now }, hs, htok, ?_,
      getMember_setMember_self _ _ _, ?_, setMember_keys _ _ _ s hs⟩
    · unfold checkSession
      simp only [hs, htok, ne_eq, not_true_eq_false, if_false, gt_iff_lt,
        Nat.not_lt.mpr hlast, writeSessions]
    · intro other hne
      exact getMember_setMember_ne _ _ _ _ hne
  · intro t
    have hcreated : getMember (readSessions (saveSession d tok t file)) d =
        some { token := tok, last := t } := by
      unfold saveSession writeSessions
      exact getMember_setMember_self _ _ _
    have hfirst : (checkSession d tok ((t + 100000) % 4294967296)
        (saveSession d tok t file)).1 = true := by
      rw [checkSession_cases]
      refine ⟨_, hcreated, rfl, ?_⟩
      have h := subUnsignedLong_after t 100000 (by unfold ULONG_RANGE; omega)
      unfold ULONG_RANGE at h
      simp only [h]
      unfold SESSION_TIMEOUT
      omega
    refine ⟨hfirst, ?_⟩
    have hsecond : (checkSession d tok ((t + 100000) % 4294967296)
        (saveSession d tok t file)).2 =
        some (setMember (readSessions (saveSession d tok t file)) d
          { token := tok, last := (t + 100000) % 4294967296 }) := by
      have h := subUnsignedLong_after t 100000 (by unfold ULONG_RANGE; omega)
      unfold ULONG_RANGE at h
      unfold checkSession
      simp only [hcreated, ne_eq, not_true_eq_false, if_false, h, writeSessions]
      unfold SESSION_TIMEOUT
      simp
    rw [hsecond, checkSession_cases]
    refine ⟨_, getMember_setMember_self _ _ _, rfl, ?_⟩
    simp only
    unfold subUnsignedLong toUnsignedLong SESSION_TIMEOUT ULONG_RANGE
    omega

/-- Witness of claim C7 for a session created at time 1000. -/
theorem checkSession_sliding_expiry_witness :
    (checkSession "AB12".toList "T1".toList 101000
        (saveSession "AB12".toList "T1".toList 1000 none)).1 = true
      ∧ (checkSession "AB12".toList "T1".toList 351000
          (checkSession "AB12".toList "T1".toList 101000
            (saveSession "AB12".toList "T1".toList 1000 none)).2).1 = true :=
  (checkSession_sliding_expiry "AB12".toList "T1".toList 0 none).2.2 1000

theorem subUnsignedLong_self (a : Nat) : subUnsignedLong a a = 0 := by
  unfold subUnsignedLong toUnsignedLong ULONG_RANGE
  simp

/-- The two stages of `handleLogin`: when the Content-Type, cut at the first `;`, is
`application/json`, then for the username and password the handler reads from the body
fields (the filename attribute of the fields named `username` and `password`) it answers
302 if and only if they are `admin` and `123456`; on success it sets
`Set-Cookie: token=<token>; Path=/; HttpOnly`, the entry of the device id holds the token
and `last = now`, and `checkSession` at the same clock value returns true; on failure the
session file is unchanged and the login page is returned with no cookie. For every other
Content-Type the handler returns at once: no session is stored and nothing is written to
the response. -/
theorem handleLogin_behind_content_type_gate (contentType : Str) (fields : List FormField)
    (chipid : Nat) (random : Nat → Nat) (millis : Nat) (file : SessionFile) :
    (cutAtSemicolon contentType = "application/json".toList →
        ((handleLogin contentType fields chipid random millis file).1.statusCode = 302 ↔
            ((readCredentials fields ([], [])).1 = "admin".toList
              ∧ (readCredentials fields ([], [])).2 = "123456".toList))
        ∧ (((readCredentials fields ([], [])).1 = "admin".toList
              ∧ (readCredentials fields ([], [])).2 = "123456".toList) →
            (handleLogin contentType fields chipid random millis file).1.headers =
                [("Set-Cookie".toList,
                    "token=".toList ++ generateToken random ++ "; Path=/; HttpOnly".toList),
                  ("Location".toList, "/".toList)]
            ∧ getMember (readSessions (handleLogin contentType fields chipid random millis file).2)
                  (getDeviceID chipid) =
                some { token := generateToken random, last := millis }
            ∧ (checkSession (getDeviceID chipid) (generateToken random) millis
                (handleLogin contentType fields chipid random millis file).2).1 = true)
        ∧ (¬ ((readCredentials fields ([], [])).1 = "admin".toList
              ∧ (readCredentials fields ([], [])).2 = "123456".toList) →
            (handleLogin contentType fields chipid random millis file).2 = file
            ∧ (handleLogin contentType fields chipid random millis file).1.page = some Page.login
            ∧ ∀ h ∈ (handleLogin contentType fields chipid random millis file).1.headers,
                h.1 ≠ "Set-Cookie".toList))
      ∧ (cutAtSemicolon contentType ≠ "application/json".toList →
          (handleLogin contentType fields chipid random millis file).1 =
              { statusCode := 200, headers := [], page := none }
          ∧ (handleLogin contentType fields chipid random millis file).2 = file) := by
  have hu : adminUser = "admin".toList := rfl
  have hp : adminPass = "123456".toList := rfl
  constructor
  · intro hct
    by_cases hcred : (readCredentials fields ([], [])).1 = "admin".toList
        ∧ (readCredentials fields ([], [])).2 = "123456".toList
    · have hrun : handleLogin contentType fields chipid random millis file =
          ({ statusCode := 302,
             headers := [("Set-Cookie".toList, sessionCookie (generateToken random)),
                         ("Location".toList, "/".toList)],
             page := none },
            saveSession (getDeviceID chipid) (generateToken random) millis file) := by
        unfold handleLogin
        rw [if_pos hct, hu, hp, if_pos hcred]
      have hstored : getMember (readSessions (saveSession (getDeviceID chipid)
          (generateToken random) millis file)) (getDeviceID chipid) =
          some { token := generateToken random, last := millis } := by
        unfold saveSession writeSessions
        exact getMember_setMember_self _ _ _
      rw [hrun]
      refine ⟨⟨fun _ => hcred, fun _ => rfl⟩, fun _ => ⟨rfl, hstored, ?_⟩,
        fun hn => absurd hcred hn⟩
      rw [checkSession_cases]
      refine ⟨_, hstored, rfl, ?_⟩
      simp only [subUnsignedLong_self]
      exact Nat.zero_le _
    · have hrun : handleLogin contentType fields chipid random millis file =
          ({ statusCode := 200, headers := [("Content-Type".toList, "text/html".toList)],
             page := some Page.login }, file) := by
        unfold handleLogin
        rw [if_pos hct, hu, hp, if_neg hcred]
      rw [hrun]
      refine ⟨⟨fun h => ?_, fun h => absurd h hcred⟩, fun h => absurd h hcred,
        fun _ => ⟨rfl, rfl, ?_⟩⟩
      · exact absurd (show (200 : Nat) = 302 from h) (by decide)
      · intro h hmem
        rw [List.mem_singleton.mp hmem]
        decide
  · intro hct
    unfold handleLogin
    rw [if_neg hct]
    exact ⟨rfl, rfl⟩

/-- The two stages at a login with Content-Type `application/json`. -/
theorem handleLogin_behind_content_type_gate_witness :
    (handleLogin "application/json".toList adminFields 7 sampleRandom 1000 none).1.statusCode
        = 302 ↔
      ((readCredentials adminFields ([], [])).1 = "admin".toList
        ∧ (readCredentials adminFields ([], [])).2 = "123456".toList) :=
  ((handleLogin_behind_content_type_gate "application/json".toList adminFields 7 sampleRandom
    1000 none).1 (by decide)).1

/-- The administrator name and password submitted with Content-Type
`multipart/form-data; boundary=X` store no session and get no 302, and the login page is
not returned either. -/
theorem handleLogin_ignores_other_content_types :
    ¬ (((handleLogin "multipart/form-data; boundary=X".toList adminFields 7 sampleRandom 1000
              none).1.statusCode = 302
          ∧ (handleLogin "multipart/form-data; boundary=X".toList adminFields 7 sampleRandom
              1000 none).2 ≠ none) ↔
        ((readCredentials adminFields ([], [])).1 = "admin".toList
          ∧ (readCredentials adminFields ([], [])).2 = "123456".toList))
      ∧ (handleLogin "multipart/form-data; boundary=X".toList adminFields 7 sampleRandom 1000
            none).1.page = none := by
  constructor
  · intro h
    have hcode : (handleLogin "multipart/form-data; boundary=X".toList adminFields 7
        sampleRandom 1000 none).1.statusCode = 200 := by decide
    have hclaim := (h.mpr (by decide)).1
    rw [hcode] at hclaim
    exact absurd hclaim (by decide)
  · decide

/-- Claim C8, evaluated at a login that submits `admin` and `123456` as the content of the
fields `username` and `password` with Content-Type `application/json`: `handleLogin`
answers 200 with the login page, sets no cookie and stores no session, because it compares
the filename attribute of the fields, not their content. A login whose fields hold `guest`
and `wrong` but carry the filename attributes `admin` and `123456` is answered 302 with a
session, and a body in which the parser finds no field gets the login page. -/
theorem login_compares_filename_attribute :
    handleLogin "application/json".toList valueFields 7 sampleRandom 1000 none =
        ({ statusCode := 200, headers := [("Content-Type".toList, "text/html".toList)],
           page := some Page.login }, none)
      ∧ (handleLogin "application/json".toList filenameFields 7 sampleRandom 1000 none).1 =
          { statusCode := 302,
            headers := [("Set-Cookie".toList,
                          "token=AAAAAAAAAAAAAAAAAAAAAAAAAAAAAAAA; Path=/; HttpOnly".toList),
                        ("Location".toList, "/".toList)],
            page := none }
      ∧ getMember (readSessions
            (handleLogin "application/json".toList filenameFields 7 sampleRandom 1000 none).2)
            (getDeviceID 7) =
          some { token := "AAAAAAAAAAAAAAAAAAAAAAAAAAAAAAAA".toList, last := 1000 }
      ∧ handleLogin "application/json".toList [] 7 sampleRandom 1000 none =
          ({ statusCode := 200, headers := [("Content-Type".toList, "text/html".toList)],
             page := some Page.login }, none) := by
  decide

/-! ### Session store: one session per device -/

theorem getMember_none_iff (doc : SessionTable) (d : Str) :
    getMember doc d = none ↔ d ∉ doc.map Prod.fst := by
  induction doc with
  | nil => simp [getMember]
  | cons p rest ih =>
    obtain ⟨key, v⟩ := p
    by_cases hk : key = d
    · subst hk
      simp only [getMember, if_true, List.map_cons, List.mem_cons, true_or, not_true_eq_false]
      exact ⟨fun h => Option.noConfusion h, fun h => h.elim⟩
    · simp only [getMember, hk, if_false, ih, List.map_cons, List.mem_cons, not_or]
      exact ⟨fun h => ⟨fun hc => hk hc.symm, h⟩, fun h => h.2⟩

theorem setMember_keys_new (doc : SessionTable) (d : Str) (v : Session)
    (h : getMember doc d = none) :
    (setMember doc d v).map Prod.fst = doc.map Prod.fst ++ [d] := by
  induction doc with
  | nil => simp [setMember]
  | cons p rest ih =>
    obtain ⟨key, w⟩ := p
    by_cases hk : key = d
    · simp [getMember, hk] at h
    · simp only [getMember, hk, if_false] at h
      simp [setMember, hk, ih h]

theorem setMember_nodup (doc : SessionTable) (d : Str) (v : Session)
    (h : (doc.map Prod.fst).Nodup) : ((setMember doc d v).map Prod.fst).Nodup := by
  cases hm : getMember doc d with
  | none =>
    rw [setMember_keys_new doc d v hm]
    exact List.Nodup.append h (List.nodup_singleton d)
      (by
        intro x hx hx2
        rw [List.mem_singleton.mp hx2] at hx
        exact (getMember_none_iff doc d).mp hm hx)
  | some old =>
    rw [setMember_keys doc d v old hm]
    exact h

theorem setMember_mem_keys (doc : SessionTable) (d : Str) (v : Session) :
    d ∈ (setMember doc d v).map Prod.fst := by
  have h := getMember_setMember_self doc d v
  by_contra hc
  rw [(getMember_none_iff _ d).mpr hc] at h
  cases h

theorem occurs_once (keys : List Str) (d : Str) (hnodup : keys.Nodup) (hmem : d ∈ keys) :
    (keys.filter (fun key => decide (key = d))).length = 1 := by
  induction keys with
  | nil => cases hmem
  | cons a rest ih =>
    have hn := List.nodup_cons.mp hnodup
    by_cases ha : a = d
    · subst ha
      have hnone : rest.filter (fun key => decide (key = a)) = [] := by
        rw [List.filter_eq_nil_iff]
        intro x hx
        simp only [decide_eq_true_eq]
        intro hxa
        exact hn.1 (hxa ▸ hx)
      simp [List.filter_cons, hnone]
    · have hrest : d ∈ rest := by
        rcases List.mem_cons.mp hmem with h | h
        · exact absurd h.symm ha
        · exact h
      simp [List.filter_cons, ha, ih hn.2 hrest]

/-- Claim C17: for every session table (a mapping: no device id occurs twice), after
`saveSession(d, t1)` followed by `saveSession(d, t2)` with `t1 ≠ t2` the table holds
exactly one entry for `d`, whose token is `t2`; `checkSession(d, t1)` then returns false
and `checkSession(d, t2)` returns true within the timeout; the entries of every other
device id are as they were before both calls. -/
theorem one_session_per_device (file : SessionFile) (d t1 t2 : Str) (m1 m2 now : Nat)
    (hne : t1 ≠ t2) (hkeys : ((readSessions file).map Prod.fst).Nodup)
    (hfresh : subUnsignedLong now m2 ≤ SESSION_TIMEOUT) :
    (((readSessions (saveSession d t2 m2 (saveSession d t1 m1 file))).map Prod.fst).filter
        (fun key => decide (key = d))).length = 1
      ∧ getMember (readSessions (saveSession d t2 m2 (saveSession d t1 m1 file))) d =
          some { token := t2, last := m2 }
      ∧ (checkSession d t1 now (saveSession d t2 m2 (saveSession d t1 m1 file))).1 = false
      ∧ (checkSession d t2 now (saveSession d t2 m2 (saveSession d t1 m1 file))).1 = true
      ∧ (∀ other, other ≠ d →
          getMember (readSessions (saveSession d t2 m2 (saveSession d t1 m1 file))) other =
            getMember (readSessions file) other) := by
  have hread : readSessions (saveSession d t2 m2 (saveSession d t1 m1 file)) =
      setMember (setMember (readSessions file) d { token := t1, last := m1 }) d
        { token := t2, last := m2 } := rfl
  have hentry := getMember_setMember_self
    (setMember (readSessions file) d { token := t1, last := m1 }) d { token := t2, last := m2 }
  rw [hread]
  refine ⟨?_, hentry, ?_, ?_, ?_⟩
  · exact occurs_once _ d (setMember_nodup _ d _ (setMember_nodup _ d _ hkeys))
      (setMember_mem_keys _ d _)
  · rw [Bool.eq_false_iff, Ne, checkSession_cases, hread]
    rintro ⟨s, hs, htok, _⟩
    rw [hentry] at hs
    cases hs
    exact hne htok.symm
  · rw [checkSession_cases, hread]
    exact ⟨_, hentry, rfl, hfresh⟩
  · intro other hother
    rw [getMember_setMember_ne _ _ _ _ hother, getMember_setMember_ne _ _ _ _ hother]

/-- Witness of claim C17 on the sample session file, for device `AB12`. -/
theorem one_session_per_device_witness :
    (((readSessions (saveSession "AB12".toList "T3".toList 6000
        (saveSession "AB12".toList "T2".toList 5000 sampleSessions))).map Prod.fst).filter
          (fun key => decide (key = "AB12".toList))).length = 1
      ∧ (checkSession "AB12".toList "T2".toList 7000
          (saveSession "AB12".toList "T3".toList 6000
            (saveSession "AB12".toList "T2".toList 5000 sampleSessions))).1 = false :=
  have h := one_session_per_device sampleSessions "AB12".toList "T2".toList "T3".toList
    5000 6000 7000 (by decide) (by decide) (by decide)
  ⟨h.1, h.2.2.1⟩

/-! ### History log -/

theorem recordBytes_length (pad : Nat × Nat × Nat) (r : HistoryRecord) :
    (recordBytes pad r).length = sizeofHistoryRecord := rfl

theorem decode_recordBytes (pad : Nat × Nat × Nat) (r : HistoryRecord) (h : wellTyped r) :
    decodeRecord (recordBytes pad r) = r := by
  obtain ⟨h1, h2, h3⟩ := h
  obtain ⟨u, s, e⟩ := r
  simp only [decodeRecord, recordBytes, le32, List.cons_append, List.nil_append,
    List.getD_cons_zero, List.getD_cons_succ, HistoryRecord.mk.injEq]
  simp only at h1 h2 h3
  refine ⟨?_, ?_, ?_⟩ <;> omega

theorem scanHistory_step (start endT fuel : Nat) (pad : Nat × Nat × Nat) (r : HistoryRecord)
    (rest : List Nat) (h : wellTyped r) :
    scanHistory start endT (fuel + 1) (recordBytes pad r ++ rest) =
      (if inRange start endT r then [r] else []) ++ scanHistory start endT fuel rest := by
  have htake : (recordBytes pad r ++ rest).take sizeofHistoryRecord = recordBytes pad r := by
    rw [← recordBytes_length pad r, List.take_left]
  have hdrop : (recordBytes pad r ++ rest).drop sizeofHistoryRecord = rest := by
    rw [← recordBytes_length pad r, List.drop_left]
  rw [scanHistory, htake, hdrop, decode_recordBytes pad r h, recordBytes_length]
  by_cases hin : r.epochtime ≥ start ∧ r.epochtime ≤ endT
  · have : inRange start endT r = true := by simpa [inRange] using hin
    simp [hin, this]
  · have : inRange start endT r = false := by
      simp only [inRange, Bool.and_eq_false_iff, decide_eq_false_iff_not]
      by_contra hc
      exact hin ⟨by omega, by omega⟩
    simp [hin, this]

theorem scanHistory_log (start endT : Nat) :
    ∀ (entries : List (HistoryRecord × (Nat × Nat × Nat))) (fuel : Nat),
      (∀ e ∈ entries, wellTyped e.1) → entries.length ≤ fuel →
      scanHistory start endT fuel (logBytes entries) =
        (entries.map Prod.fst).filter (inRange start endT) := by
  intro entries
  induction entries with
  | nil =>
    intro fuel _ _
    cases fuel with
    | zero => rfl
    | succ fuel => simp [scanHistory, logBytes, sizeofHistoryRecord]
  | cons entry rest ih =>
    intro fuel htyped hfuel
    cases fuel with
    | zero => simp at hfuel
    | succ fuel =>
      rw [logBytes, scanHistory_step start endT fuel entry.2 entry.1 _
          (htyped entry (List.mem_cons_self _ _)),
        ih fuel (fun e he => htyped e (List.mem_cons_of_mem _ he)) (by simpa using hfuel)]
      by_cases hin : inRange start endT entry.1 = true
      · simp [List.filter_cons, hin]
      · simp [List.filter_cons, hin]

theorem logBytes_length (entries : List (HistoryRecord × (Nat × Nat × Nat))) :
    (logBytes entries).length = sizeofHistoryRecord * entries.length := by
  induction entries with
  | nil => rfl
  | cons entry rest ih =>
    simp only [logBytes, List.length_append, recordBytes_length, ih, List.length_cons]
    unfold sizeofHistoryRecord
    omega

theorem logBytes_append (a b : List (HistoryRecord × (Nat × Nat × Nat))) :
    logBytes (a ++ b) = logBytes a ++ logBytes b := by
  induction a with
  | nil => rfl
  | cons entry rest ih => simp [logBytes, ih]

theorem handleGetHistory_log (reqStr : Str)
    (entries : List (HistoryRecord × (Nat × Nat × Nat)))
    (htyped : ∀ e ∈ entries, wellTyped e.1) :
    handleGetHistory reqStr (some (logBytes entries)) =
      { freshResponse with
          headers := [("Content-Type".toList, "application/json".toList)],
          payload := Payload.historyArray ((entries.map Prod.fst).filter
            (inRange (historyBounds reqStr).1 (historyBounds reqStr).2)) } := by
  unfold handleGetHistory
  simp only
  rw [scanHistory_log _ _ entries _ htyped
    (by rw [logBytes_length]; unfold sizeofHistoryRecord; omega)]

/-- Claim C9: for every history log made of whole records and the bounds `start`, `end`
of the request, `handleGetHistory` answers 200 with exactly the records of the log that
have `start ≤ epochtime ≤ end` (both inclusive), in file order and with their `user`,
`state` and `epochtime` values as appended; the read loop does so for every pair of
bounds. -/
theorem history_query_returns_range (reqStr : Str) (start endT : Nat)
    (entries : List (HistoryRecord × (Nat × Nat × Nat)))
    (hbounds : historyBounds reqStr = (start, endT))
    (htyped : ∀ e ∈ entries, wellTyped e.1) :
    (handleGetHistory reqStr (some (logBytes entries))).payload =
        Payload.historyArray
          ((entries.map Prod.fst).filter
            (fun r => decide (start ≤ r.epochtime) && decide (r.epochtime ≤ endT)))
      ∧ (handleGetHistory reqStr (some (logBytes entries))).statusCode = 200
      ∧ (∀ r, r ∈ historyOf (handleGetHistory reqStr (some (logBytes entries))) ↔
          (r ∈ entries.map Prod.fst ∧ start ≤ r.epochtime ∧ r.epochtime ≤ endT))
      ∧ (∀ lo hi : Nat,
          scanHistory lo hi (logBytes entries).length (logBytes entries) =
            (entries.map Prod.fst).filter
              (fun r => decide (lo ≤ r.epochtime) && decide (r.epochtime ≤ hi))) := by
  have hrun := handleGetHistory_log reqStr entries htyped
  rw [hbounds] at hrun
  rw [hrun]
  refine ⟨rfl, rfl, ?_, ?_⟩
  · intro r
    simp [historyOf, inRange, List.mem_filter]
  · intro lo hi
    exact scanHistory_log lo hi entries _ htyped
      (by rw [logBytes_length]; unfold sizeofHistoryRecord; omega)

/-- Witness of claim C9 for the query `start=15&end=25` on a log with times 10 and 20. -/
theorem history_query_returns_range_witness :
    (handleGetHistory "/api/history?start=15&end=25".toList (some (logBytes sampleLog))).payload =
      Payload.historyArray
        ((sampleLog.map Prod.fst).filter
          (fun r => decide (15 ≤ r.epochtime) && decide (r.epochtime ≤ 25))) :=
  (history_query_returns_range "/api/history?start=15&end=25".toList 15 25 sampleLog
    (by decide) (by decide)).1

/-- Claim C10: after a successful `saveHistory(r)` the query result is the result before
the append followed by `r` when `start ≤ r.epochtime ≤ end`, and the result before the
append otherwise; the bytes already in the file are kept as a prefix; the same holds when
the log does not exist yet, where the query before the append returns `[]`. -/
theorem append_extends_query (reqStr : Str) (start endT : Nat)
    (entries : List (HistoryRecord × (Nat × Nat × Nat))) (pad : Nat × Nat × Nat)
    (userCode state epochtime : Nat)
    (hbounds : historyBounds reqStr = (start, endT))
    (htyped : ∀ e ∈ entries, wellTyped e.1)
    (hnew : userCode < 4294967296 ∧ state < 256 ∧ epochtime < 4294967296) :
    historyOf (handleGetHistory reqStr
          (saveHistory true pad userCode state epochtime (some (logBytes entries)))) =
        historyOf (handleGetHistory reqStr (some (logBytes entries))) ++
          (if start ≤ epochtime ∧ epochtime ≤ endT then
            [{ userCode := userCode, state := state, epochtime := epochtime }]
          else [])
      ∧ saveHistory true pad userCode state epochtime (some (logBytes entries)) =
          some (logBytes entries ++
            recordBytes pad { userCode := userCode, state := state, epochtime := epochtime })
      ∧ historyOf (handleGetHistory reqStr
            (saveHistory true pad userCode state epochtime none)) =
          (if start ≤ epochtime ∧ epochtime ≤ endT then
            [{ userCode := userCode, state := state, epochtime := epochtime }]
          else [])
      ∧ historyOf (handleGetHistory reqStr none) = [] := by
  have hsave : ∀ old : List (HistoryRecord × (Nat × Nat × Nat)),
      saveHistory true pad userCode state epochtime (some (logBytes old)) =
        some (logBytes (old ++
          [({ userCode := userCode, state := state, epochtime := epochtime }, pad)])) := by
    intro old
    simp [saveHistory, logBytes_append, logBytes]
  have hsaveNone : saveHistory true pad userCode state epochtime none =
      some (logBytes [({ userCode := userCode, state := state, epochtime := epochtime }, pad)]) := by
    simp [saveHistory, logBytes]
  have htyped2 : ∀ old : List (HistoryRecord × (Nat × Nat × Nat)),
      (∀ e ∈ old, wellTyped e.1) →
      ∀ e ∈ old ++ [({ userCode := userCode, state := state, epochtime := epochtime }, pad)],
        wellTyped e.1 := by
    intro old hold e he
    rcases List.mem_append.mp he with h | h
    · exact hold e h
    · rw [List.mem_singleton.mp h]
      exact hnew
  have hone : List.filter (inRange start endT)
      [({ userCode := userCode, state := state, epochtime := epochtime } : HistoryRecord)] =
      (if start ≤ epochtime ∧ epochtime ≤ endT then
        [{ userCode := userCode, state := state, epochtime := epochtime }] else []) := by
    by_cases h : start ≤ epochtime ∧ epochtime ≤ endT
    · simp [List.filter_cons, inRange, h]
    · have : ¬ (start ≤ epochtime ∧ epochtime ≤ endT) := h
      simp only [List.filter_cons, inRange, List.filter_nil, if_neg h]
      simp only [Bool.and_eq_true, decide_eq_true_eq, if_neg this]
  refine ⟨?_, ?_, ?_, rfl⟩
  · rw [hsave entries, handleGetHistory_log reqStr _ (htyped2 entries htyped),
      handleGetHistory_log reqStr entries htyped, hbounds]
    simp only [historyOf, List.map_append, List.filter_append, List.map_cons, List.map_nil]
    rw [hone]
  · simp [saveHistory]
  · have hsingle := htyped2 [] (by simp)
    rw [List.nil_append] at hsingle
    rw [hsaveNone, handleGetHistory_log reqStr _ hsingle, hbounds]
    simp only [historyOf, List.map_cons, List.map_nil]
    rw [hone]

/-- Witness of claim C10: appending time 30 to the log with times 10 and 20 leaves the
result of `start=15&end=25` as it was, and appending 10, 20, 30 to a missing log makes that
query return exactly the record with time 20. -/
theorem append_extends_query_witness :
    historyOf (handleGetHistory "/api/history?start=15&end=25".toList
          (saveHistory true (0, 0, 0) 7 1 30 (some (logBytes sampleLog)))) =
        historyOf (handleGetHistory "/api/history?start=15&end=25".toList
          (some (logBytes sampleLog))) ++
          (if 15 ≤ 30 ∧ 30 ≤ 25 then [{ userCode := 7, state := 1, epochtime := 30 }] else [])
      ∧ historyOf (handleGetHistory "/api/history?start=15&end=25".toList
          (saveHistory true (0, 0, 0) 7 1 30
            (saveHistory true (0, 0, 0) 6 2 20 (saveHistory true (1, 2, 3) 5 1 10 none)))) =
        [{ userCode := 6, state := 2, epochtime := 20 }] :=
  ⟨(append_extends_query "/api/history?start=15&end=25".toList 15 25 sampleLog (0, 0, 0) 7 1 30
      (by decide) (by decide) (by decide)).1, by decide⟩

/-! ### Multipart upload -/

/-- Claim C1, evaluated at its witness (boundary `XYZ`, filename `a.txt`, payload `hello`):
`handleUploadFile` answers the success acknowledgment naming `a.txt`, but the file
`/public/a.txt` holds the seven bytes `hello` CR LF, not the five bytes `hello`: the line
held back ends in LF, so the test for a trailing CR never strips anything. -/
theorem upload_keeps_line_break_before_boundary :
    (handleUploadFile "POST".toList "multipart/form-data; boundary=XYZ".toList helloBody true).file
        = some ("/public/a.txt".toList, "hello\r\n".toList)
      ∧ (handleUploadFile "POST".toList "multipart/form-data; boundary=XYZ".toList helloBody
          true).response.payload =
        Payload.text "\x7b\"success\":true,\"filename\":\"a.txt\"\x7d".toList
      ∧ "hello\r\n".toList ≠ "hello".toList := by
  decide

/-! ### Query parameters and upload filename -/

theorem matchesAt_iff (needle hay : Str) :
    matchesAt needle hay = true ↔ ∃ b, hay = needle ++ b := by
  induction needle generalizing hay with
  | nil => simp [matchesAt]
  | cons a needle ih =>
    cases hay with
    | nil => simp [matchesAt]
    | cons b hay =>
      simp only [matchesAt, Bool.and_eq_true, beq_iff_eq, ih, List.cons_append,
        List.cons.injEq]
      constructor
      · rintro ⟨rfl, c, rfl⟩
        exact ⟨c, rfl, rfl⟩
      · rintro ⟨c, rfl, rfl⟩
        exact ⟨rfl, c, rfl⟩

theorem findIn_none (needle : Str) :
    ∀ (s : Str) (i : Nat), findIn needle s i = none ↔ ¬ occursIn needle s := by
  intro s
  induction s with
  | nil =>
    intro i
    cases needle with
    | nil => simp [findIn, occursIn]
    | cons c needle =>
      simp only [findIn, List.isEmpty_cons, Bool.false_eq_true, if_false, true_iff]
      rintro ⟨a, b, h⟩
      have := congrArg List.length h
      simp at this
      omega
  | cons c s ih =>
    intro i
    unfold findIn
    by_cases hm : matchesAt needle (c :: s) = true
    · rw [if_pos hm]
      obtain ⟨b, hb⟩ := (matchesAt_iff _ _).mp hm
      exact ⟨fun h => Option.noConfusion h, fun h => absurd ⟨[], b, by simpa using hb⟩ h⟩
    · rw [if_neg hm, ih]
      constructor
      · intro hno ⟨a, b, h⟩
        cases a with
        | nil => exact hm ((matchesAt_iff _ _).mpr ⟨b, by simpa using h⟩)
        | cons a0 a =>
          simp only [List.cons_append, List.cons.injEq] at h
          exact hno ⟨a, b, h.2⟩
      · intro hno ⟨a, b, h⟩
        exact hno ⟨c :: a, b, by simp [h]⟩

theorem findIn_some (needle : Str) :
    ∀ (s : Str) (i p : Nat), findIn needle s i = some p →
      ∃ a, firstAt needle s a ∧ p = i + a.length := by
  intro s
  induction s with
  | nil =>
    intro i p h
    cases needle with
    | nil =>
      simp only [findIn, List.isEmpty_nil, if_true, Option.some.injEq] at h
      exact ⟨[], ⟨⟨[], rfl⟩, fun _ _ _ => Nat.zero_le _⟩, by simp [h]⟩
    | cons c needle => simp [findIn] at h
  | cons c s ih =>
    intro i p h
    unfold findIn at h
    by_cases hm : matchesAt needle (c :: s) = true
    · rw [if_pos hm] at h
      obtain ⟨b, hb⟩ := (matchesAt_iff _ _).mp hm
      exact ⟨[], ⟨⟨b, by simpa using hb⟩, fun _ _ _ => Nat.zero_le _⟩,
        by simpa using (Option.some.inj h).symm⟩
    · rw [if_neg hm] at h
      obtain ⟨a, ⟨⟨b, hb⟩, hfirst⟩, hp⟩ := ih (i + 1) p h
      refine ⟨c :: a, ⟨⟨b, by simp [hb]⟩, ?_⟩, by simp [hp]; omega⟩
      intro a2 b2 h2
      cases a2 with
      | nil => exact absurd ((matchesAt_iff _ _).mpr ⟨b2, by simpa using h2⟩) hm
      | cons x a2 =>
        simp only [List.cons_append, List.cons.injEq] at h2
        have := hfirst a2 b2 h2.2
        simp only [List.length_cons]
        omega

theorem find_zero (s needle : Str) : find s needle 0 = findIn needle s 0 := by
  simp [find]

theorem find_absent (s needle : Str) (h : ¬ occursIn needle s) : find s needle 0 = none := by
  rw [find_zero]
  exact (findIn_none needle s 0).mpr h

theorem firstAt_unique (needle s a a2 : Str) (h : firstAt needle s a)
    (h2 : firstAt needle s a2) : a = a2 := by
  obtain ⟨⟨b, hb⟩, hmin⟩ := h
  obtain ⟨⟨b2, hb2⟩, hmin2⟩ := h2
  have hlen : a.length = a2.length := Nat.le_antisymm (hmin a2 b2 hb2) (hmin2 a b hb)
  have h3 : a ++ (needle ++ b) = a2 ++ (needle ++ b2) := by
    rw [← List.append_assoc, ← List.append_assoc, ← hb, ← hb2]
  exact List.append_inj_left h3 hlen

theorem find_first (s needle a : Str) (h : firstAt needle s a) :
    find s needle 0 = some a.length := by
  rw [find_zero]
  cases hf : findIn needle s 0 with
  | none =>
    obtain ⟨⟨b, hb⟩, _⟩ := h
    exact absurd ⟨a, b, hb⟩ ((findIn_none needle s 0).mp hf)
  | some p =>
    obtain ⟨a2, h2, hp⟩ := findIn_some needle s 0 p hf
    rw [firstAt_unique needle s a a2 h h2, hp, Nat.zero_add]

theorem findIn_char (c : Char) :
    ∀ (s : Str) (i : Nat),
      findIn [c] s i =
        if c ∈ s then some (i + (s.takeWhile (fun x => x != c)).length) else none := by
  intro s
  induction s with
  | nil => intro i; simp [findIn]
  | cons x s ih =>
    intro i
    unfold findIn
    by_cases hx : x = c
    · subst hx
      simp [matchesAt]
    · have hm : matchesAt [c] (x :: s) = false := by
        simp [matchesAt, Ne.symm hx]
      have hne : (x != c) = true := by simpa using hx
      simp only [hm, Bool.false_eq_true, if_false, ih, List.mem_cons, List.takeWhile_cons, hne,
        if_true, List.length_cons]
      have : (c = x ∨ c ∈ s) ↔ c ∈ s := by
        constructor
        · rintro (h | h)
          · exact absurd h.symm hx
          · exact h
        · exact Or.inr
      simp only [this]
      split
      · congr 1; omega
      · rfl

theorem decimalValue_no_digit (s : Str)
    (h : match s with | [] => True | c :: _ => c.isDigit = false) : decimalValue s = 0 := by
  cases s with
  | nil => rfl
  | cons c rest =>
    simp only at h
    simp [decimalValue, List.takeWhile_cons, h]

theorem strtoul_unparsable (s : Str) (h : unparsable s = true) : strtoul s = 0 := by
  unfold unparsable numberPart at h
  unfold strtoul
  cases hd : s.dropWhile isSpaceC with
  | nil => rfl
  | cons c rest =>
    rw [hd] at h
    simp only at h ⊢
    by_cases hsign : c = '-' ∨ c = '+'
    · rw [if_pos hsign] at h
      have hv : decimalValue rest = 0 := by
        apply decimalValue_no_digit
        cases rest with
        | nil => trivial
        | cons x r => simpa using h
      rcases hsign with hc | hc
      · subst hc
        simp [hv, ULONG_RANGE, toUnsignedLong]
      · subst hc
        simp [hv, ULONG_RANGE]
    · rw [if_neg hsign] at h
      have hv : decimalValue (c :: rest) = 0 := by
        apply decimalValue_no_digit
        simpa using h
      have h1 : c ≠ '-' := fun hc => hsign (Or.inl hc)
      have h2 : c ≠ '+' := fun hc => hsign (Or.inr hc)
      simp [hsign, h1, h2, hv, ULONG_RANGE]

theorem take_takeWhile_length (p : Char → Bool) (l : Str) :
    l.take (l.takeWhile p).length = l.takeWhile p := by
  induction l with
  | nil => rfl
  | cons x l ih =>
    by_cases hx : p x = true
    · simp [List.takeWhile_cons, hx, ih]
    · simp [List.takeWhile_cons, hx]

theorem paramAt_eq (query : Str) (st : Nat) (h : st ≤ query.length) :
    paramAt query st = (query.drop st).takeWhile (fun x => x != '&') := by
  have hfind : find query "&".toList st =
      if '&' ∈ query.drop st then
        some (st + ((query.drop st).takeWhile (fun x => x != '&')).length)
      else none := by
    unfold find
    rw [if_neg (by omega)]
    exact findIn_char '&' (query.drop st) st
  unfold paramAt
  rw [hfind]
  by_cases hmem : '&' ∈ query.drop st
  · simp only [hmem, if_true, substr, Nat.add_sub_cancel_left]
    exact take_takeWhile_length _ _
  · simp only [hmem, if_false]
    symm
    rw [List.takeWhile_eq_self_iff]
    intro x hx
    simp only [bne_iff_ne, ne_eq]
    intro hxe
    exact hmem (hxe ▸ hx)

theorem drop_past (a needle b : Str) :
    (a ++ needle ++ b).drop (a.length + needle.length) = b := by
  rw [List.append_assoc, ← List.drop_drop, List.drop_left, List.drop_left]

theorem historyBounds_start (reqStr a b : Str)
    (hq : queryOf reqStr = a ++ "start=".toList ++ b)
    (hfirst : firstAt "start=".toList (queryOf reqStr) a) :
    (historyBounds reqStr).1 = strtoul (b.takeWhile (fun x => x != '&')) := by
  have hlen : a.length + 6 ≤ (queryOf reqStr).length := by
    rw [hq]
    simp
  have hdrop : (queryOf reqStr).drop (a.length + 6) = b := by
    rw [hq]
    exact drop_past a "start=".toList b
  unfold historyBounds
  simp only
  rw [find_first _ _ a hfirst]
  simp only
  rw [paramAt_eq _ _ hlen, hdrop]

theorem historyBounds_end (reqStr a b : Str)
    (hq : queryOf reqStr = a ++ "end=".toList ++ b)
    (hfirst : firstAt "end=".toList (queryOf reqStr) a) :
    (historyBounds reqStr).2 = strtoul (b.takeWhile (fun x => x != '&')) := by
  have hlen : a.length + 4 ≤ (queryOf reqStr).length := by
    rw [hq]
    simp
  have hdrop : (queryOf reqStr).drop (a.length + 4) = b := by
    rw [hq]
    exact drop_past a "end=".toList b
  unfold historyBounds
  simp only
  rw [find_first _ _ a hfirst]
  simp only
  rw [paramAt_eq _ _ hlen, hdrop]

/-- Claim C11, as amended: `handleGetHistory` uses `start = 0` when the text `start=` does
not occur in the query or the value after its first occurrence (up to the next `&`) is not
a decimal number, and `end = 0xFFFFFFFF` when the text `end=` does not occur in the query;
when `end=` occurs, `end` is the `strtoul` value of what follows its first occurrence,
which is 0, not `0xFFFFFFFF`, for a value that is not a decimal number. -/
theorem history_bounds_defaults (reqStr : Str) :
    (¬ occursIn "start=".toList (queryOf reqStr) → (historyBounds reqStr).1 = 0)
      ∧ (∀ a b, queryOf reqStr = a ++ "start=".toList ++ b →
          firstAt "start=".toList (queryOf reqStr) a →
          (historyBounds reqStr).1 = strtoul (b.takeWhile (fun x => x != '&'))
          ∧ (unparsable (b.takeWhile (fun x => x != '&')) = true →
              (historyBounds reqStr).1 = 0))
      ∧ (¬ occursIn "end=".toList (queryOf reqStr) → (historyBounds reqStr).2 = 4294967295)
      ∧ (∀ a b, queryOf reqStr = a ++ "end=".toList ++ b →
          firstAt "end=".toList (queryOf reqStr) a →
          (historyBounds reqStr).2 = strtoul (b.takeWhile (fun x => x != '&'))
          ∧ (unparsable (b.takeWhile (fun x => x != '&')) = true →
              (historyBounds reqStr).2 = 0)) := by
  refine ⟨?_, ?_, ?_, ?_⟩
  · intro h
    unfold historyBounds
    simp only [find_absent _ _ h]
  · intro a b hq hfirst
    have h := historyBounds_start reqStr a b hq hfirst
    exact ⟨h, fun hu => by rw [h, strtoul_unparsable _ hu]⟩
  · intro h
    unfold historyBounds
    simp only [find_absent _ _ h]
  · intro a b hq hfirst
    have h := historyBounds_end reqStr a b hq hfirst
    exact ⟨h, fun hu => by rw [h, strtoul_unparsable _ hu]⟩

/-- Witness of claim C11 (amended): the request `/api/history?end=abc` has `end = 0`. -/
theorem history_bounds_defaults_witness :
    (historyBounds "/api/history?end=abc".toList).2 = 0 :=
  ((history_bounds_defaults "/api/history?end=abc".toList).2.2.2 [] "abc".toList (by decide)
    ⟨⟨"abc".toList, by decide⟩, fun _ _ _ => Nat.zero_le _⟩).2 (by decide)

/-- Counterexample to claim C11 as stated: on a log holding one record of time 10 the
request `/api/history?end=abc` uses `end = 0` and returns no record, while the request
without an `end` parameter uses `end = 0xFFFFFFFF` and returns the record. -/
theorem history_unparsable_end_is_zero :
    (historyBounds "/api/history?end=abc".toList).2 ≠ 4294967295
      ∧ historyOf (handleGetHistory "/api/history?end=abc".toList
          (some (logBytes oneRecordLog))) ≠
        historyOf (handleGetHistory "/api/history".toList (some (logBytes oneRecordLog))) := by
  decide

theorem find_present (s needle : Str) (h : occursIn needle s) :
    ∃ p, find s needle 0 = some p := by
  rw [find_zero]
  cases hf : findIn needle s 0 with
  | none => exact absurd h ((findIn_none needle s 0).mp hf)
  | some p => exact ⟨p, rfl⟩

theorem find_isSome_iff (s needle : Str) :
    (find s needle 0).isSome = true ↔ occursIn needle s := by
  rw [find_zero]
  cases hf : findIn needle s 0 with
  | none => simpa using (findIn_none needle s 0).mp hf
  | some p =>
    simp only [Option.isSome_some, true_iff]
    by_contra hc
    rw [(findIn_none needle s 0).mpr hc] at hf
    cases hf

theorem readLineLoop_whole (rest : Str) :
    ∀ (t : Str) (n : Nat), '\n' ∉ t → t.length < n →
      readLineLoop n (t ++ '\n' :: rest) = (t ++ ['\n'], rest) := by
  intro t
  induction t with
  | nil =>
    intro n _ hn
    cases n with
    | zero => cases hn
    | succ n => simp [readLineLoop]
  | cons c t ih =>
    intro n hc hn
    cases n with
    | zero => cases hn
    | succ n =>
      have hc1 : c ≠ '\n' := fun h => hc (by simp [h])
      have hc2 : '\n' ∉ t := fun h => hc (List.mem_cons_of_mem _ h)
      rw [List.cons_append, readLineLoop, if_neg hc1, ih n hc2 (by simpa using hn)]
      rfl

theorem readLine_whole (l rest : Str) (h : wholeLine l) :
    readLineFromRequest (l ++ rest) 256 = (l, rest) := by
  obtain ⟨⟨t, rfl, ht⟩, hlen, _⟩ := h
  unfold readLineFromRequest
  rw [List.append_assoc, List.singleton_append]
  exact readLineLoop_whole rest t 255 ht (by simp at hlen; omega)

theorem cstr_whole (l : Str) (h : wholeLine l) : cstr l = l := by
  unfold cstr
  rw [List.takeWhile_eq_self_iff]
  intro x hx
  simp only [bne_iff_ne, ne_eq]
  intro hxe
  exact h.2.2 (hxe ▸ hx)

theorem wholeLine_length (l : Str) (h : wholeLine l) : l.length ≠ 0 := by
  obtain ⟨⟨t, rfl, _⟩, _, _⟩ := h
  simp

theorem seekFilename_skips (target rest : Str) (htarget : wholeLine target)
    (hocc : occursIn "filename=".toList target) :
    ∀ (pre : List Str) (fuel : Nat),
      (∀ l ∈ pre, wholeLine l ∧ ¬ occursIn "filename=".toList l) → pre.length < fuel →
      seekFilename fuel (pre.flatten ++ target ++ rest) = (filenameOf target, rest) := by
  intro pre
  induction pre with
  | nil =>
    intro fuel _ hfuel
    cases fuel with
    | zero => cases hfuel
    | succ fuel =>
      simp only [List.flatten_nil, List.nil_append]
      unfold seekFilename
      rw [readLine_whole target rest htarget, cstr_whole target htarget]
      simp only [wholeLine_length target htarget, if_false,
        (find_isSome_iff target _).mpr hocc, if_true]
  | cons l pre ih =>
    intro fuel hpre hfuel
    cases fuel with
    | zero => cases hfuel
    | succ fuel =>
      have hl := hpre l (List.mem_cons_self _ _)
      have hno : ¬ (find l "filename=".toList 0).isSome = true :=
        fun h => hl.2 ((find_isSome_iff l _).mp h)
      simp only [List.flatten_cons, List.append_assoc]
      unfold seekFilename
      rw [readLine_whole l _ hl.1, cstr_whole l hl.1]
      simp only [wholeLine_length l hl.1, if_false, hno]
      have h := ih fuel (fun x hx => hpre x (List.mem_cons_of_mem _ hx))
        (by simpa using hfuel)
      rw [List.append_assoc] at h
      exact h

theorem takeWhile_stop (c : Char) (f b : Str) (h : c ∉ f) :
    (f ++ c :: b).takeWhile (fun x => x != c) = f := by
  induction f with
  | nil => simp [List.takeWhile_cons]
  | cons x f ih =>
    have hx : x ≠ c := fun hxe => h (by simp [hxe])
    have hf : c ∉ f := fun hm => h (List.mem_cons_of_mem _ hm)
    simp [List.takeWhile_cons, hx, ih hf]

theorem filenameOf_quoted (line a f b : Str)
    (hline : line = a ++ "filename=\"".toList ++ (f ++ '"' :: b))
    (hfirst : firstAt "filename=\"".toList line a) (hf : '"' ∉ f) :
    filenameOf line = f := by
  have hdrop : line.drop (a.length + 10) = f ++ '"' :: b := by
    rw [hline]
    exact drop_past a "filename=\"".toList (f ++ '"' :: b)
  have hlen : ¬ a.length + 10 > line.length := by
    rw [hline]
    simp
  have hquote : find line "\"".toList (a.length + 10) = some (a.length + 10 + f.length) := by
    unfold find
    rw [if_neg hlen, hdrop]
    have h := findIn_char '"' (f ++ '"' :: b) (a.length + 10)
    rw [takeWhile_stop '"' f b hf] at h
    rw [show "\"".toList = ['"'] from rfl, h]
    simp
  unfold filenameOf
  rw [find_first line _ a hfirst]
  simp only
  rw [hquote]
  simp only [substr, Nat.add_sub_cancel_left, hdrop]
  simp

theorem filenameOf_unquoted (line : Str) (h : ¬ occursIn "filename=\"".toList line) :
    filenameOf line = [] := by
  unfold filenameOf
  rw [find_absent line _ h]

theorem join_length_ge (pre : List Str) (h : ∀ l ∈ pre, l.length ≠ 0) :
    pre.length ≤ pre.flatten.length := by
  induction pre with
  | nil => simp
  | cons l pre ih =>
    have h1 := h l (List.mem_cons_self _ _)
    have h2 := ih (fun x hx => h x (List.mem_cons_of_mem _ hx))
    simp only [List.flatten_cons, List.length_append, List.length_cons]
    omega

theorem filenameOf_unclosed (line a b : Str)
    (hline : line = a ++ "filename=\"".toList ++ b)
    (hfirst : firstAt "filename=\"".toList line a) (hb : '"' ∉ b) :
    filenameOf line = [] := by
  have hdrop : line.drop (a.length + 10) = b := by
    rw [hline]
    exact drop_past a "filename=\"".toList b
  have hlen : ¬ a.length + 10 > line.length := by
    rw [hline]
    simp
  have hquote : find line "\"".toList (a.length + 10) = none := by
    unfold find
    rw [if_neg hlen, hdrop, show "\"".toList = ['"'] from rfl, findIn_char '"' b, if_neg hb]
  unfold filenameOf
  rw [find_first line _ a hfirst]
  simp only
  rw [hquote]

theorem seekFilename_empty :
    ∀ (fuel : Nat) (stream : Str),
      (∀ l ∈ requestLines fuel stream, ¬ occursIn "filename=\"".toList (cstr l)) →
      (seekFilename fuel stream).1 = [] := by
  intro fuel
  induction fuel with
  | zero => intro stream _; rfl
  | succ fuel ih =>
    intro stream h
    unfold seekFilename
    by_cases h0 : (readLineFromRequest stream 256).1.length = 0
    · rw [if_pos h0]
    · rw [if_neg h0]
      have hlines : requestLines (fuel + 1) stream =
          (readLineFromRequest stream 256).1 ::
            requestLines fuel (readLineFromRequest stream 256).2 := by
        rw [requestLines, if_neg h0]
      rw [hlines] at h
      by_cases hfound : (find (cstr (readLineFromRequest stream 256).1)
          "filename=".toList 0).isSome = true
      · rw [if_pos hfound]
        exact filenameOf_unquoted _ (h _ (List.mem_cons_self _ _))
      · rw [if_neg hfound]
        exact ih _ (fun l hl => h l (List.mem_cons_of_mem _ hl))

theorem handleUploadFile_no_filename (contentType body : Str) (canOpen : Bool)
    (hb : occursIn "boundary=".toList contentType)
    (hempty : (seekFilename (body.length + 1) body).1 = []) :
    handleUploadFile "POST".toList contentType body canOpen = noFilenameResult := by
  obtain ⟨pos, hpos⟩ := find_present contentType _ hb
  unfold handleUploadFile
  rw [if_neg (by simp), hpos]
  simp only [hempty, List.isEmpty_nil, if_true]
  rfl

theorem handleUploadFile_accepts (contentType body : Str) (pos : Nat)
    (hpos : find contentType "boundary=".toList 0 = some pos)
    (hname : (seekFilename (body.length + 1) body).1 ≠ []) :
    (handleUploadFile "POST".toList contentType body true).file.map Prod.fst =
        some (DIR_PUBLIC ++ "/".toList ++ (seekFilename (body.length + 1) body).1)
      ∧ (handleUploadFile "POST".toList contentType body true).response.payload =
        Payload.text ("\x7b\"success\":true,\"filename\":\"".toList
          ++ (seekFilename (body.length + 1) body).1 ++ "\"\x7d".toList) := by
  have hne : (seekFilename (body.length + 1) body).1.isEmpty = false := by
    cases h : (seekFilename (body.length + 1) body).1 with
    | nil => exact absurd h hname
    | cons _ _ => rfl
  unfold handleUploadFile
  rw [if_neg (by simp), hpos]
  simp only [hne, Bool.false_eq_true, if_false, Bool.not_true]
  constructor <;> first | rfl | trivial

/-- Claim C18, as amended: for an upload body that starts with whole lines (ending in LF,
at most 255 bytes, no NUL) none of which contains `filename=`, followed by a whole line that
contains `filename=`, `handleUploadFile` skips the earlier lines and stops at that line. Its
filename is the text between the first `filename="` of that line and the next `"` after
it, and it is empty when the line has no `filename="` or no `"` after it. A non-empty
filename names the file opened under `/public/` and is echoed in the response. -/
theorem filename_from_first_filename_line (pre : List Str) (target rest : Str)
    (hpre : ∀ l ∈ pre, wholeLine l ∧ ¬ occursIn "filename=".toList l)
    (htarget : wholeLine target) (hocc : occursIn "filename=".toList target) :
    seekFilename ((pre.flatten ++ target ++ rest).length + 1) (pre.flatten ++ target ++ rest) =
        (filenameOf target, rest)
      ∧ (∀ a f b, target = a ++ "filename=\"".toList ++ (f ++ '"' :: b) →
          firstAt "filename=\"".toList target a → '"' ∉ f → filenameOf target = f)
      ∧ (¬ occursIn "filename=\"".toList target → filenameOf target = [])
      ∧ (∀ a b, target = a ++ "filename=\"".toList ++ b →
          firstAt "filename=\"".toList target a → '"' ∉ b → filenameOf target = [])
      ∧ (∀ contentType, occursIn "boundary=".toList contentType → filenameOf target ≠ [] →
          (handleUploadFile "POST".toList contentType (pre.flatten ++ target ++ rest)
              true).file.map Prod.fst =
            some ("/public/".toList ++ filenameOf target)
          ∧ (handleUploadFile "POST".toList contentType (pre.flatten ++ target ++ rest)
              true).response.payload =
            Payload.text ("\x7b\"success\":true,\"filename\":\"".toList
              ++ filenameOf target ++ "\"\x7d".toList)) := by
  have hseek := seekFilename_skips target rest htarget hocc pre
    ((pre.flatten ++ target ++ rest).length + 1) hpre
    (by
      have := join_length_ge pre (fun l hl => wholeLine_length l (hpre l hl).1)
      simp only [List.length_append]
      omega)
  refine ⟨hseek, ?_, filenameOf_unquoted target, ?_, ?_⟩
  · intro a f b hline hfirst hf
    exact filenameOf_quoted target a f b hline hfirst hf
  · intro a b hline hfirst hb
    exact filenameOf_unclosed target a b hline hfirst hb
  · intro contentType hb hname
    obtain ⟨pos, hpos⟩ := find_present contentType _ hb
    have h := handleUploadFile_accepts contentType (pre.flatten ++ target ++ rest) pos hpos
      (by rw [hseek]; exact hname)
    rw [hseek] at h
    exact h

/-- Witness of claim C18 (amended): the boundary line is skipped and the
`Content-Disposition` line yields the filename. -/
theorem filename_from_first_filename_line_witness :
    seekFilename
        ((["--XYZ\r\n".toList].flatten
          ++ "Content-Disposition: form-data; name=\"file\"; filename=\"a.txt\"\r\n".toList
          ++ "\r\nhello\r\n--XYZ--".toList).length + 1)
        (["--XYZ\r\n".toList].flatten
          ++ "Content-Disposition: form-data; name=\"file\"; filename=\"a.txt\"\r\n".toList
          ++ "\r\nhello\r\n--XYZ--".toList) =
      (filenameOf
          "Content-Disposition: form-data; name=\"file\"; filename=\"a.txt\"\r\n".toList,
        "\r\nhello\r\n--XYZ--".toList) :=
  (filename_from_first_filename_line ["--XYZ\r\n".toList]
    "Content-Disposition: form-data; name=\"file\"; filename=\"a.txt\"\r\n".toList
    "\r\nhello\r\n--XYZ--".toList
    (fun l hl => by
      rw [List.mem_singleton.mp hl]
      exact ⟨⟨⟨"--XYZ\r".toList, by decide, by decide⟩, by decide, by decide⟩,
        fun h => absurd ((find_isSome_iff _ _).mpr h) (by decide)⟩)
    ⟨⟨"Content-Disposition: form-data; name=\"file\"; filename=\"a.txt\"\r".toList,
      by decide, by decide⟩, by decide, by decide⟩
    ((find_isSome_iff _ _).mp (by decide))).1

/-- Counterexample to claim C18 as stated: the second line holds `filename=` without a
quote, the third holds `filename="a.txt"`; the handler stops at the second line with an
empty filename and answers 400 instead of skipping it and taking `a.txt`. -/
theorem filename_search_stops_at_unquoted_line :
    (find "X-Note: filename=none\r\n".toList "filename=\"".toList 0) = none
      ∧ (seekFilename (unquotedFirstBody.length + 1) unquotedFirstBody).1 = []
      ∧ (seekFilename (unquotedFirstBody.length + 1) unquotedFirstBody).1 ≠ "a.txt".toList
      ∧ handleUploadFile "POST".toList "multipart/form-data; boundary=XYZ".toList
          unquotedFirstBody true = noFilenameResult := by
  decide

/-- Claim C19: for every upload (a POST whose Content-Type names a boundary) whose body
ends without any line containing `filename="`, or whose extracted filename is empty,
`handleUploadFile` answers `400 Bad Request: No filename` and opens no file. -/
theorem upload_without_filename_rejected (contentType body : Str) (canOpen : Bool)
    (hb : occursIn "boundary=".toList contentType) :
    ((∀ l ∈ requestLines (body.length + 1) body, ¬ occursIn "filename=\"".toList (cstr l)) →
        handleUploadFile "POST".toList contentType body canOpen = noFilenameResult)
      ∧ ((seekFilename (body.length + 1) body).1 = [] →
        handleUploadFile "POST".toList contentType body canOpen = noFilenameResult)
      ∧ noFilenameResult.response.statusCode = 400
      ∧ noFilenameResult.response.payload =
          Payload.text "400 Bad Request: No filename\r\n".toList
      ∧ noFilenameResult.file = none := by
  refine ⟨?_, ?_, rfl, rfl, rfl⟩
  · intro h
    exact handleUploadFile_no_filename contentType body canOpen hb
      (seekFilename_empty _ body h)
  · intro h
    exact handleUploadFile_no_filename contentType body canOpen hb h

/-- Witness of claim C19: a body without any filename. -/
theorem upload_without_filename_rejected_witness :
    handleUploadFile "POST".toList "multipart/form-data; boundary=XYZ".toList noFilenameBody
      true = noFilenameResult :=
  (upload_without_filename_rejected "multipart/form-data; boundary=XYZ".toList noFilenameBody
    true ((find_isSome_iff _ _).mp (by decide))).2.1 (by decide)

/-- Claim C20, evaluated at the filename `../key.der`: `handleUploadFile` accepts the
upload and opens `/public/../key.der` for writing, a path that denotes `/key.der`, outside
`/public`; the filename holds `..`, which the handler of `DELETE /api/fs/file/*` looks for
and rejects. -/
theorem upload_path_leaves_public_directory :
    (handleUploadFile "POST".toList "multipart/form-data; boundary=XYZ".toList traversalBody
        true).file = some ("/public/../key.der".toList, "hello\r\n".toList)
      ∧ (handleUploadFile "POST".toList "multipart/form-data; boundary=XYZ".toList
          traversalBody true).response.statusCode = 200
      ∧ resolvePath "/public/../key.der".toList = ["key.der".toList]
      ∧ resolvePath "/public/a.txt".toList = ["public".toList, "a.txt".toList]
      ∧ (find "../key.der".toList "..".toList 0).isSome = true := by
  decide

/-! ### History record layout and query results -/

theorem scanHistory_log_tail (start endT : Nat) (tail : List Nat)
    (htail : tail.length < sizeofHistoryRecord) :
    ∀ (entries : List (HistoryRecord × (Nat × Nat × Nat))) (fuel : Nat),
      (∀ e ∈ entries, wellTyped e.1) → entries.length ≤ fuel →
      scanHistory start endT fuel (logBytes entries ++ tail) =
        (entries.map Prod.fst).filter (inRange start endT) := by
  intro entries
  induction entries with
  | nil =>
    intro fuel _ _
    cases fuel with
    | zero => rfl
    | succ fuel =>
      have hshort : (List.take sizeofHistoryRecord tail).length ≠ sizeofHistoryRecord := by
        rw [List.length_take]
        omega
      simp only [logBytes, List.nil_append, List.map_nil, List.filter_nil]
      rw [scanHistory, if_neg hshort]
  | cons entry rest ih =>
    intro fuel htyped hfuel
    cases fuel with
    | zero => simp at hfuel
    | succ fuel =>
      rw [logBytes, List.append_assoc,
        scanHistory_step start endT fuel entry.2 entry.1 _
          (htyped entry (List.mem_cons_self _ _)),
        ih fuel (fun e he => htyped e (List.mem_cons_of_mem _ he)) (by simpa using hfuel)]
      by_cases hin : inRange start endT entry.1 = true
      · simp [List.filter_cons, hin]
      · simp [List.filter_cons, hin]

theorem appendAll_some (entries : List (HistoryRecord × (Nat × Nat × Nat))) :
    ∀ bytes : List Nat, appendAll entries (some bytes) = some (bytes ++ logBytes entries) := by
  induction entries with
  | nil => intro bytes; simp [appendAll, logBytes]
  | cons entry rest ih =>
    intro bytes
    rw [appendAll]
    have hsave : saveHistory true entry.2 entry.1.userCode entry.1.state entry.1.epochtime
        (some bytes) = some (bytes ++ recordBytes entry.2 entry.1) := by
      simp [saveHistory]
    rw [hsave, ih, logBytes, List.append_assoc]

theorem appendAll_none (entries : List (HistoryRecord × (Nat × Nat × Nat))) :
    (appendAll entries none).getD [] = logBytes entries := by
  cases entries with
  | nil => rfl
  | cons entry rest =>
    rw [appendAll]
    have hsave : saveHistory true entry.2 entry.1.userCode entry.1.state entry.1.epochtime
        none = some (recordBytes entry.2 entry.1) := by
      simp [saveHistory]
    rw [hsave, appendAll_some, logBytes]
    rfl

/-- Claim C21, as amended: every successful `saveHistory` grows the log file by exactly
`sizeof(HistoryRecord)` = 12 bytes, laid out as 4 bytes `userCode`, 1 byte `state`,
3 alignment bytes and 4 bytes `epochtime`, with no header or footer; a log produced by `n`
successful appends is exactly `12 * n` bytes long, and the read loop of `handleGetHistory`
reads it back in 12-byte records, returning the records appended. -/
theorem record_is_twelve_bytes (entries : List (HistoryRecord × (Nat × Nat × Nat)))
    (htyped : ∀ e ∈ entries, wellTyped e.1) :
    (∀ (bytes : List Nat) (pad : Nat × Nat × Nat) (userCode state epochtime : Nat),
        userCode < 4294967296 → state < 256 → epochtime < 4294967296 →
        saveHistory true pad userCode state epochtime (some bytes) =
          some (bytes
            ++ [userCode % 256, userCode / 256 % 256, userCode / 65536 % 256,
                userCode / 16777216]
            ++ [state]
            ++ [pad.1 % 256, pad.2.1 % 256, pad.2.2 % 256]
            ++ [epochtime % 256, epochtime / 256 % 256, epochtime / 65536 % 256,
                epochtime / 16777216])
        ∧ ((saveHistory true pad userCode state epochtime (some bytes)).getD []).length =
            bytes.length + 12)
      ∧ (appendAll entries none).getD [] = logBytes entries
      ∧ ((appendAll entries none).getD []).length = 12 * entries.length
      ∧ scanHistory 0 4294967295 ((appendAll entries none).getD []).length
          ((appendAll entries none).getD []) = entries.map Prod.fst := by
  refine ⟨?_, appendAll_none entries, ?_, ?_⟩
  · intro bytes pad userCode state epochtime hu hs he
    have h1 : userCode / 16777216 % 256 = userCode / 16777216 := by omega
    have h2 : state % 256 = state := by omega
    have h3 : epochtime / 16777216 % 256 = epochtime / 16777216 := by omega
    constructor
    · simp [saveHistory, recordBytes, le32, h1, h2, h3]
    · simp [saveHistory, recordBytes, le32]
  · rw [appendAll_none, logBytes_length]
    rfl
  · rw [appendAll_none,
      scanHistory_log 0 4294967295 entries _ htyped
        (by rw [logBytes_length]; unfold sizeofHistoryRecord; omega)]
    rw [List.filter_eq_self]
    intro r hr
    obtain ⟨e, he, rfl⟩ := List.mem_map.mp hr
    have := (htyped e he).2.2
    simp only [inRange, Nat.zero_le, decide_True, Bool.true_and, decide_eq_true_eq]
    omega

/-- Witness of claim C21 (amended): the log of the two sample records is 24 bytes long. -/
theorem record_is_twelve_bytes_witness :
    ((appendAll sampleLog none).getD []).length = 12 * sampleLog.length :=
  (record_is_twelve_bytes sampleLog (by decide)).2.2.1

/-- Counterexample to claim C21 as stated: one successful append to an empty log leaves a
file of 12 bytes, not 9; bytes 5 to 7 are the alignment bytes. -/
theorem append_grows_log_by_twelve :
    saveHistory true (170, 187, 204) 1 2 10 (some []) =
        some [1, 0, 0, 0, 2, 170, 187, 204, 10, 0, 0, 0]
      ∧ ((saveHistory true (170, 187, 204) 1 2 10 (some [])).getD []).length ≠ 0 + 9 := by
  decide

/-- Claim C22: `handleGetHistory` reports no error for a missing or damaged log: when the
file does not exist it answers 200 with the empty JSON array, and for a log of `k` whole
records followed by fewer bytes than one record its answer is the answer for the log of
just those `k` records. -/
theorem history_tolerates_missing_and_truncated (reqStr : Str)
    (entries : List (HistoryRecord × (Nat × Nat × Nat))) (tail : List Nat)
    (htyped : ∀ e ∈ entries, wellTyped e.1) (htail : tail.length < sizeofHistoryRecord) :
    (handleGetHistory reqStr none).statusCode = 200
      ∧ (handleGetHistory reqStr none).payload = Payload.historyArray []
      ∧ handleGetHistory reqStr (some (logBytes entries ++ tail)) =
          handleGetHistory reqStr (some (logBytes entries))
      ∧ (handleGetHistory reqStr (some (logBytes entries ++ tail))).statusCode = 200 := by
  have hrun : handleGetHistory reqStr (some (logBytes entries ++ tail)) =
      handleGetHistory reqStr (some (logBytes entries)) := by
    rw [handleGetHistory_log reqStr entries htyped]
    unfold handleGetHistory
    simp only
    rw [scanHistory_log_tail _ _ tail htail entries _ htyped
      (by rw [List.length_append, logBytes_length]; unfold sizeofHistoryRecord; omega)]
  refine ⟨rfl, rfl, hrun, ?_⟩
  rw [hrun, handleGetHistory_log reqStr entries htyped]
  rfl

/-- Witness of claim C22: the sample log followed by five stray bytes. -/
theorem history_tolerates_missing_and_truncated_witness :
    handleGetHistory "/api/history".toList (some (logBytes sampleLog ++ [9, 9, 9, 9, 9])) =
      handleGetHistory "/api/history".toList (some (logBytes sampleLog)) :=
  (history_tolerates_missing_and_truncated "/api/history".toList sampleLog [9, 9, 9, 9, 9]
    (by decide) (by decide)).2.2.1

/-- Claim C23, evaluated on a log of 51 records: `GET /api/history` returns all 51
records, the oldest one included, where the registration comment and the history page
promise at most the 50 most recent ones. -/
theorem history_returns_more_than_fifty :
    (historyOf (handleGetHistory "/api/history".toList
        (some (logBytes fiftyOneRecords)))).length = 51
      ∧ (historyOf (handleGetHistory "/api/history".toList
          (some (logBytes fiftyOneRecords)))).head? =
        some { userCode := 7, state := 1, epochtime := 1 } := by
  have h := handleGetHistory_log "/api/history".toList fiftyOneRecords (by decide)
  rw [h]
  decide

/-! ### Tokens, cookies, session clock and event deletion -/

theorem cstr_of_no_nul (s : Str) (h : Char.ofNat 0 ∉ s) : cstr s = s := by
  unfold cstr
  rw [List.takeWhile_eq_self_iff]
  intro x hx
  simp only [bne_iff_ne, ne_eq]
  intro hxe
  exact h (hxe ▸ hx)

theorem hexAlphabet_digit :
    ∀ d, d < 16 → hexAlphabet.getD d (Char.ofNat 0) ≠ Char.ofNat 0
      ∧ hexAlphabet.getD d (Char.ofNat 0) ∈ hexAlphabet := by
  decide

/-- Claim C24: for every sequence of values the random source delivers, each in 0..15,
`generateToken` returns a string of exactly 32 characters, each from the alphabet
`0123456789ABCDEF`, the `i`-th character being the alphabet symbol the `i`-th random value
selects. -/
theorem token_is_32_hex_characters (random : Nat → Nat)
    (hrandom : ∀ i, i < 32 → random i < 16) :
    generateToken random =
        (List.range 32).map (fun i => hexAlphabet.getD (random i) (Char.ofNat 0))
      ∧ (generateToken random).length = 32
      ∧ (∀ c ∈ generateToken random, c ∈ "0123456789ABCDEF".toList)
      ∧ (∀ i, i < 32 →
          (generateToken random).getD i (Char.ofNat 0) =
            "0123456789ABCDEF".toList.getD (random i) (Char.ofNat 0)) := by
  have heq : generateToken random =
      (List.range 32).map (fun i => hexAlphabet.getD (random i) (Char.ofNat 0)) := by
    unfold generateToken
    apply cstr_of_no_nul
    intro hmem
    obtain ⟨i, hi, hc⟩ := List.mem_map.mp hmem
    exact (hexAlphabet_digit (random i) (hrandom i (List.mem_range.mp hi))).1 hc
  refine ⟨heq, by rw [heq]; simp, ?_, ?_⟩
  · intro c hc
    rw [heq] at hc
    obtain ⟨i, hi, rfl⟩ := List.mem_map.mp hc
    exact (hexAlphabet_digit (random i) (hrandom i (List.mem_range.mp hi))).2
  · intro i hi
    rw [heq, List.getD_eq_getElem _ _ (by simpa using hi)]
    simp [hexAlphabet]

/-- Witness of claim C24 for a random source that always delivers 10. -/
theorem token_is_32_hex_characters_witness :
    generateToken sampleRandom =
        (List.range 32).map (fun i => hexAlphabet.getD (sampleRandom i) (Char.ofNat 0))
      ∧ (generateToken sampleRandom).length = 32 :=
  have h := token_is_32_hex_characters sampleRandom (by decide)
  ⟨h.1, h.2.1⟩

theorem arduinoSubstring_after (a b : Str) (n : Nat) :
    arduinoSubstring (a ++ b) a.length (a.length + n) = b.take n := by
  unfold arduinoSubstring
  have hmin : min a.length (a.length + n) = a.length := by omega
  have hmax : max a.length (a.length + n) = a.length + n := by omega
  rw [hmin, hmax, List.length_append]
  by_cases hb : b = []
  · subst hb
    simp
  · have hpos : 0 < b.length := List.length_pos.mpr hb
    rw [if_neg (by omega), List.drop_left]
    by_cases hn : n ≤ b.length
    · rw [show min (a.length + n) (a.length + b.length) - a.length = n by omega]
    · rw [show min (a.length + n) (a.length + b.length) - a.length = b.length by omega,
        List.take_length, List.take_of_length_le (by omega)]

theorem cookieToken_found (header a b : Str)
    (hsplit : cstr header = a ++ "token=".toList ++ b)
    (hfirst : firstAt "token=".toList (cstr header) a) :
    cookieToken header = b.take 32 := by
  have hpos : header.length > 0 := by
    cases header with
    | nil => simp [cstr] at hsplit
    | cons c rest => simp
  unfold cookieToken
  rw [if_pos hpos, find_first _ _ a hfirst]
  simp only
  rw [hsplit]
  have h := arduinoSubstring_after (a ++ "token=".toList) b 32
  simp only [List.length_append] at h
  exact h

theorem cookieToken_absent (header : Str) (h : ¬ occursIn "token=".toList (cstr header)) :
    cookieToken header = [] := by
  unfold cookieToken
  split
  · rw [find_absent _ _ h]
  · rfl

/-- Claim C27: for every 32-character token `T` (a C string, so without NUL), the token
`handleRoot` extracts from a `Cookie` header equal to the cookie value `handleLogin` emits
for `T` is exactly `T`. In general `handleRoot` takes the up to 32 characters that follow
the first occurrence of `token=` in the header, and the empty string when `token=` does
not occur; that token is what it passes to `checkSession`. -/
theorem cookie_round_trip (token : Str) (hlen : token.length = 32)
    (hnul : Char.ofNat 0 ∉ token) :
    cookieToken ("token=".toList ++ token ++ "; Path=/; HttpOnly".toList) = token
      ∧ (∀ header a b, cstr header = a ++ "token=".toList ++ b →
          firstAt "token=".toList (cstr header) a → cookieToken header = b.take 32)
      ∧ (∀ header, ¬ occursIn "token=".toList (cstr header) → cookieToken header = [])
      ∧ (∀ header chipid millis file,
          (handleRoot header chipid millis file).1.page =
            if (checkSession (getDeviceID chipid) (cookieToken header) millis file).1 = true
            then some (Page.main (getDeviceID chipid)) else some Page.login) := by
  refine ⟨?_, cookieToken_found, cookieToken_absent, ?_⟩
  · have hclean : cstr ("token=".toList ++ token ++ "; Path=/; HttpOnly".toList) =
        [] ++ "token=".toList ++ (token ++ "; Path=/; HttpOnly".toList) := by
      rw [cstr_of_no_nul]
      · simp
      · intro hmem
        rcases List.mem_append.mp hmem with h | h
        · rcases List.mem_append.mp h with h2 | h2
          · revert h2; decide
          · exact hnul h2
        · revert h; decide
    have h := cookieToken_found _ [] _ hclean
      ⟨⟨_, hclean⟩, fun _ _ _ => Nat.zero_le _⟩
    rw [h, ← hlen, List.take_left]
  · intro header chipid millis file
    unfold handleRoot
    split <;> rfl

/-- Witness of claim C27 for the token made of 32 letters `A`. -/
theorem cookie_round_trip_witness :
    cookieToken ("token=".toList ++ generateToken sampleRandom
        ++ "; Path=/; HttpOnly".toList) = generateToken sampleRandom :=
  (cookie_round_trip (generateToken sampleRandom) (by decide) (by decide)).1

/-- Claim C28: `checkSession` computes `now - last` in unsigned 32-bit arithmetic: for
every stored `last` and clock value `now` with `now < last` and `last - now < 2^32 - 300000`
it returns false even when the token matches, and leaves the session file unchanged. -/
theorem checkSession_clock_behind_last (d tok : Str) (now : Nat) (file : SessionFile)
    (s : Session) (hentry : getMember (readSessions file) d = some s)
    (htoken : s.token = tok) (hlast : s.last < 4294967296) (hnow : now < s.last)
    (hgap : s.last - now < 4294967296 - 300000) :
    checkSession d tok now file = (false, file)
      ∧ subUnsignedLong now s.last = 4294967296 - (s.last - now)
      ∧ subUnsignedLong now s.last > 300000 := by
  have hsub : subUnsignedLong now s.last = 4294967296 - (s.last - now) := by
    unfold subUnsignedLong toUnsignedLong ULONG_RANGE
    omega
  have hgt : subUnsignedLong now s.last > SESSION_TIMEOUT := by
    rw [hsub]
    unfold SESSION_TIMEOUT
    omega
  refine ⟨?_, hsub, ?_⟩
  · unfold checkSession
    simp only [hentry, htoken, ne_eq, not_true_eq_false, if_false, hgt, if_true]
  · unfold SESSION_TIMEOUT at hgt
    omega

/-- Witness of claim C28: a session last seen at 1000 checked at clock value 0. -/
theorem checkSession_clock_behind_last_witness :
    checkSession "AB12".toList "T1".toList 0 sampleSessions = (false, sampleSessions) :=
  (checkSession_clock_behind_last "AB12".toList "T1".toList 0 sampleSessions
    { token := "T1".toList, last := 1000 } rfl rfl (by decide) (by decide) (by decide)).1

theorem atoi_unparsable (s : Str) (h : unparsable s = true) : atoi s = 0 := by
  unfold unparsable numberPart at h
  unfold atoi
  cases hd : s.dropWhile isSpaceC with
  | nil => rfl
  | cons c rest =>
    rw [hd] at h
    simp only at h ⊢
    by_cases hsign : c = '-' ∨ c = '+'
    · rw [if_pos hsign] at h
      have hv : decimalValue rest = 0 := by
        apply decimalValue_no_digit
        cases rest with
        | nil => trivial
        | cons x r => simpa using h
      rcases hsign with hc | hc
      · subst hc
        simp [hv]
      · subst hc
        simp [hv]
    · rw [if_neg hsign] at h
      have hv : decimalValue (c :: rest) = 0 := by
        apply decimalValue_no_digit
        simpa using h
      have h1 : c ≠ '-' := fun hc => hsign (Or.inl hc)
      have h2 : c ≠ '+' := fun hc => hsign (Or.inr hc)
      simp [h1, h2, hv]

/-- Claim C29: `handleDeleteEvent` parses the path parameter as `atoi` does: for every
parameter that does not begin, after optional white space and sign, with a decimal digit
(such as `abc` or the empty string) the parsed id is 0, so the handler answers 204 and
clears slot 0 exactly as it does for the parameter `0`. -/
theorem delete_unparsable_clears_slot_zero (param : Str) (events : List Event)
    (hparam : unparsable param = true) :
    atoi param = 0
      ∧ handleDeleteEvent param events = handleDeleteEvent "0".toList events
      ∧ (handleDeleteEvent param events).1.statusCode = 204
      ∧ (handleDeleteEvent param events).2 =
          events.set 0 { slot events 0 with active := false } := by
  have hzero := atoi_unparsable param hparam
  have h1 := handleDeleteEvent_in_range param events 0 (by decide) (by simpa using hzero)
  have h2 := handleDeleteEvent_in_range "0".toList events 0 (by decide) (by decide)
  refine ⟨hzero, by rw [h1, h2], by rw [h1], by rw [h1]⟩

/-- Witness of claim C29 for the parameter `abc`. -/
theorem delete_unparsable_clears_slot_zero_witness :
    atoi "abc".toList = 0
      ∧ handleDeleteEvent "abc".toList sampleEvents =
          handleDeleteEvent "0".toList sampleEvents :=
  have h := delete_unparsable_clears_slot_zero "abc".toList sampleEvents (by decide)
  ⟨h.1, h.2.1⟩

/-! ### Line reading, uploads without closing boundary and content types -/

theorem readLineLoop_append : ∀ (n : Nat) (s : Str),
    (readLineLoop n s).1 ++ (readLineLoop n s).2 = s := by
  intro n
  induction n with
  | zero => intro s; rfl
  | succ n ih =>
    intro s
    cases s with
    | nil => rfl
    | cons c s =>
      rw [readLineLoop]
      by_cases hc : c = '\n'
      · simp [hc]
      · simp only [hc, if_false, List.cons_append, ih]

theorem readLineLoop_length : ∀ (n : Nat) (s : Str), (readLineLoop n s).1.length ≤ n := by
  intro n
  induction n with
  | zero => intro s; simp [readLineLoop]
  | succ n ih =>
    intro s
    cases s with
    | nil => simp [readLineLoop]
    | cons c s =>
      rw [readLineLoop]
      by_cases hc : c = '\n'
      · simp [hc]
      · simp only [hc, if_false, List.length_cons]
        have := ih s
        omega

theorem readLineLoop_nonempty (n : Nat) (c : Char) (s : Str) :
    (readLineLoop (n + 1) (c :: s)).1 ≠ [] := by
  rw [readLineLoop]
  by_cases hc : c = '\n'
  · simp [hc]
  · simp [hc]

theorem readLineLoop_newline : ∀ (n : Nat) (s : Str),
    '\n' ∉ (readLineLoop n s).1.dropLast := by
  intro n
  induction n with
  | zero => intro s; simp [readLineLoop]
  | succ n ih =>
    intro s
    cases s with
    | nil => simp [readLineLoop]
    | cons c s =>
      rw [readLineLoop]
      by_cases hc : c = '\n'
      · simp [hc]
      · simp only [hc, if_false]
        cases hl : (readLineLoop n s).1 with
        | nil => simp
        | cons x l =>
          have h := ih s
          rw [hl] at h
          rw [List.dropLast_cons₂]
          intro hmem
          rcases List.mem_cons.mp hmem with h1 | h1
          · exact hc h1.symm
          · exact h h1

theorem readLineLoop_nil (n : Nat) : readLineLoop n [] = ([], []) := by
  cases n <;> rfl

theorem readLine_rest_shorter (stream : Str) (maxLen : Nat)
    (h : (readLineFromRequest stream maxLen).1.length ≠ 0) :
    (readLineFromRequest stream maxLen).2.length < stream.length := by
  have happ : (readLineFromRequest stream maxLen).1 ++ (readLineFromRequest stream maxLen).2 =
      stream := readLineLoop_append _ _
  have := congrArg List.length happ
  rw [List.length_append] at this
  omega

theorem linesWith_succ (maxLen : Nat) :
    ∀ (fuel : Nat) (stream : Str), stream.length < fuel →
      linesWith maxLen (fuel + 1) stream = linesWith maxLen fuel stream := by
  intro fuel
  induction fuel with
  | zero => intro stream h; cases h
  | succ fuel ih =>
    intro stream hfuel
    rw [linesWith]
    conv_rhs => rw [linesWith]
    by_cases h0 : (readLineFromRequest stream maxLen).1.length = 0
    · rw [if_pos h0, if_pos h0]
    · rw [if_neg h0, if_neg h0, ih _ (by have := readLine_rest_shorter stream maxLen h0; omega)]

theorem linesWith_fuel (maxLen : Nat) (stream : Str) :
    ∀ fuel, stream.length < fuel →
      linesWith maxLen fuel stream = linesWith maxLen (stream.length + 1) stream := by
  intro fuel
  induction fuel with
  | zero => intro h; cases h
  | succ fuel ih =>
    intro hfuel
    by_cases heq : fuel = stream.length
    · rw [heq]
    · rw [linesWith_succ maxLen fuel stream (by omega), ih (by omega)]

theorem linesWith_partition (maxLen : Nat) (hmax : 2 ≤ maxLen) :
    ∀ (fuel : Nat) (stream : Str), stream.length < fuel →
      (linesWith maxLen fuel stream).flatten = stream
        ∧ (linesWith maxLen fuel stream).length ≤ stream.length := by
  intro fuel
  induction fuel with
  | zero => intro stream h; cases h
  | succ fuel ih =>
    intro stream hfuel
    cases stream with
    | nil => simp [linesWith, readLineFromRequest, readLineLoop_nil]
    | cons c s =>
      obtain ⟨m, hm⟩ : ∃ m, maxLen - 1 = m + 1 := ⟨maxLen - 2, by omega⟩
      have hne : (readLineFromRequest (c :: s) maxLen).1.length ≠ 0 := by
        unfold readLineFromRequest
        rw [hm]
        exact fun h => readLineLoop_nonempty m c s (List.length_eq_zero.mp h)
      have happ : (readLineFromRequest (c :: s) maxLen).1
          ++ (readLineFromRequest (c :: s) maxLen).2 = c :: s :=
        readLineLoop_append _ _
      have hlen := readLine_rest_shorter (c :: s) maxLen hne
      have hrest := ih (readLineFromRequest (c :: s) maxLen).2 (by omega)
      refine ⟨?_, ?_⟩
      · rw [linesWith, if_neg hne, List.flatten_cons, hrest.1, happ]
      · rw [linesWith, if_neg hne, List.length_cons]
        have := hrest.2
        omega

/-- Claim C30: for every byte stream and every `maxLen ≥ 2`, a call of
`readLineFromRequest` returns at most `maxLen - 1` bytes, returns length 0 only when the
stream is exhausted, returns a line in which LF can only be the last byte, and consumes
exactly the bytes it returns; so the lines returned by repeated calls up to the first
0-length result concatenate to the whole stream, and the repeated reading ends after at
most as many lines as the stream has bytes, whatever larger bound on the number of calls
is allowed. -/
theorem read_line_partitions_stream (stream : Str) (maxLen : Nat) (hmax : 2 ≤ maxLen) :
    (readLineFromRequest stream maxLen).1.length ≤ maxLen - 1
      ∧ ((readLineFromRequest stream maxLen).1.length = 0 ↔ stream = [])
      ∧ '\n' ∉ (readLineFromRequest stream maxLen).1.dropLast
      ∧ (readLineFromRequest stream maxLen).1 ++ (readLineFromRequest stream maxLen).2 = stream
      ∧ (∀ fuel, stream.length < fuel →
          (linesWith maxLen fuel stream).flatten = stream
          ∧ (linesWith maxLen fuel stream).length ≤ stream.length
          ∧ linesWith maxLen fuel stream = linesWith maxLen (stream.length + 1) stream) := by
  refine ⟨readLineLoop_length _ _, ?_, readLineLoop_newline _ _, readLineLoop_append _ _, ?_⟩
  · constructor
    · intro h0
      cases stream with
      | nil => rfl
      | cons c s =>
        obtain ⟨m, hm⟩ : ∃ m, maxLen - 1 = m + 1 := ⟨maxLen - 2, by omega⟩
        unfold readLineFromRequest at h0
        rw [hm] at h0
        exact absurd (List.length_eq_zero.mp h0) (readLineLoop_nonempty m c s)
    · intro h
      subst h
      obtain ⟨m, hm⟩ : ∃ m, maxLen - 1 = m + 1 := ⟨maxLen - 2, by omega⟩
      unfold readLineFromRequest
      rw [readLineLoop_nil]
      rfl
  · intro fuel hfuel
    have h := linesWith_partition maxLen hmax fuel stream hfuel
    exact ⟨h.1, h.2, linesWith_fuel maxLen stream fuel hfuel⟩

/-- Witness of claim C30: a stream of two lines read with the 256-byte buffer. -/
theorem read_line_partitions_stream_witness :
    (readLineFromRequest "ab\ncd".toList 256).1 ++ (readLineFromRequest "ab\ncd".toList 256).2 =
        "ab\ncd".toList
      ∧ linesWith 256 6 "ab\ncd".toList = ["ab\n".toList, "cd".toList] :=
  ⟨(read_line_partitions_stream "ab\ncd".toList 256 (by decide)).2.2.2.1, by decide⟩

theorem requestLines_eq : ∀ (fuel : Nat) (stream : Str),
    requestLines fuel stream = linesWith 256 fuel stream := by
  intro fuel
  induction fuel with
  | zero => intro stream; rfl
  | succ fuel ih =>
    intro stream
    rw [requestLines, linesWith, ih]

theorem readLine_append (stream : Str) (maxLen : Nat) :
    (readLineFromRequest stream maxLen).1 ++ (readLineFromRequest stream maxLen).2 = stream :=
  readLineLoop_append _ _

theorem requestLines_mem : ∀ (fuel : Nat) (stream : Str),
    ∀ l ∈ requestLines fuel stream, ∀ c ∈ l, c ∈ stream := by
  intro fuel
  induction fuel with
  | zero => intro stream l hl; cases hl
  | succ fuel ih =>
    intro stream l hl c hc
    rw [requestLines] at hl
    split at hl
    · cases hl
    · rw [← readLine_append stream 256]
      rcases List.mem_cons.mp hl with h | h
      · exact List.mem_append_left _ (h ▸ hc)
      · exact List.mem_append_right _ (ih _ l h c hc)

theorem seekFilename_rest : ∀ (fuel : Nat) (stream : Str),
    ∃ p, stream = p ++ (seekFilename fuel stream).2 := by
  intro fuel
  induction fuel with
  | zero => intro stream; exact ⟨[], rfl⟩
  | succ fuel ih =>
    intro stream
    rw [seekFilename]
    split
    · exact ⟨_, (readLine_append stream 256).symm⟩
    · split
      · exact ⟨_, (readLine_append stream 256).symm⟩
      · obtain ⟨p, hp⟩ := ih (readLineFromRequest stream 256).2
        refine ⟨(readLineFromRequest stream 256).1 ++ p, ?_⟩
        rw [List.append_assoc, ← hp, readLine_append]

theorem skipHeaders_rest : ∀ (fuel : Nat) (stream : Str),
    ∃ p, stream = p ++ skipHeaders fuel stream := by
  intro fuel
  induction fuel with
  | zero => intro stream; exact ⟨[], rfl⟩
  | succ fuel ih =>
    intro stream
    rw [skipHeaders]
    split
    · exact ⟨_, (readLine_append stream 256).symm⟩
    · split
      · exact ⟨_, (readLine_append stream 256).symm⟩
      · obtain ⟨p, hp⟩ := ih (readLineFromRequest stream 256).2
        refine ⟨(readLineFromRequest stream 256).1 ++ p, ?_⟩
        rw [List.append_assoc, ← hp, readLine_append]

theorem payloadOf_rest (body : Str) : ∃ p, body = p ++ payloadOf body := by
  obtain ⟨p1, h1⟩ := seekFilename_rest (body.length + 1) body
  obtain ⟨p2, h2⟩ := skipHeaders_rest (body.length + 1) (seekFilename (body.length + 1) body).2
  refine ⟨p1 ++ p2, ?_⟩
  unfold payloadOf
  rw [List.append_assoc, ← h2, ← h1]

theorem streamBody_open_ended (boundary : Str) :
    ∀ (fuel : Nat) (stream lastLine written : Str),
      (∀ l ∈ requestLines fuel stream, ¬ occursIn boundary (cstr l)) →
      streamBody boundary fuel stream lastLine written =
        written ++ ((lastLine :: (requestLines fuel stream).map cstr).dropLast).flatten := by
  intro fuel
  induction fuel with
  | zero => intro stream lastLine written _; simp [streamBody, requestLines]
  | succ fuel ih =>
    intro stream lastLine written hno
    rw [streamBody, requestLines]
    by_cases h0 : (readLineFromRequest stream 256).1.length = 0
    · simp [h0]
    · have hlines : requestLines (fuel + 1) stream =
          (readLineFromRequest stream 256).1 ::
            requestLines fuel (readLineFromRequest stream 256).2 := by
        rw [requestLines, if_neg h0]
      rw [hlines] at hno
      have hnb : ¬ (find (cstr (readLineFromRequest stream 256).1) boundary 0).isSome = true :=
        fun h => hno _ (List.mem_cons_self _ _) ((find_isSome_iff _ _).mp h)
      have hwritten : (if (!lastLine.isEmpty) = true then written ++ lastLine else written) =
          written ++ lastLine := by
        cases lastLine with
        | nil => simp
        | cons c l => simp
      rw [if_neg h0, if_neg hnb, if_neg h0, hwritten,
        ih _ _ _ (fun l hl => hno l (List.mem_cons_of_mem _ hl))]
      simp only [List.map_cons, List.dropLast_cons₂, List.flatten_cons, List.append_assoc]

/-- Claim C25: for every accepted upload whose body holds no NUL byte and ends before any
line containing the boundary marker, `handleUploadFile` answers 200 with the success
acknowledgment and the file holds the payload lines read before the last one: the line
still held back at the end of the stream is not written. -/
theorem upload_without_closing_boundary (contentType body : Str) (pos : Nat)
    (hpos : find contentType "boundary=".toList 0 = some pos)
    (hname : (seekFilename (body.length + 1) body).1 ≠ [])
    (hnul : Char.ofNat 0 ∉ body)
    (hopen : ∀ l ∈ requestLines (body.length + 1) (payloadOf body),
      ¬ occursIn ("--".toList ++ contentType.drop (pos + 9)) l) :
    handleUploadFile "POST".toList contentType body true =
        { response :=
            { freshResponse with
                headers := [("Content-Type".toList, "application/json".toList)],
                payload := Payload.text
                  ("\x7b\"success\":true,\"filename\":\"".toList
                    ++ (seekFilename (body.length + 1) body).1 ++ "\"\x7d".toList) },
          file := some
            ("/public/".toList ++ (seekFilename (body.length + 1) body).1,
              ((requestLines (body.length + 1) (payloadOf body)).dropLast).flatten) }
      ∧ (handleUploadFile "POST".toList contentType body true).response.statusCode = 200
      ∧ (requestLines (body.length + 1) (payloadOf body)).flatten = payloadOf body := by
  have hne : (seekFilename (body.length + 1) body).1.isEmpty = false := by
    cases h : (seekFilename (body.length + 1) body).1 with
    | nil => exact absurd h hname
    | cons _ _ => rfl
  have hclean : ∀ l ∈ requestLines (body.length + 1) (payloadOf body), cstr l = l := by
    intro l hl
    apply cstr_of_no_nul
    intro hmem
    obtain ⟨p, hp⟩ := payloadOf_rest body
    have := requestLines_mem _ _ l hl _ hmem
    exact hnul (by rw [hp]; exact List.mem_append_right _ this)
  have hmap : (requestLines (body.length + 1) (payloadOf body)).map cstr =
      requestLines (body.length + 1) (payloadOf body) := by
    conv_rhs => rw [← List.map_id (requestLines (body.length + 1) (payloadOf body))]
    exact List.map_congr_left (fun l hl => by rw [hclean l hl]; rfl)
  have hbody := streamBody_open_ended ("--".toList ++ contentType.drop (pos + 9))
    (body.length + 1) (payloadOf body) [] []
    (fun l hl => by rw [hclean l hl]; exact hopen l hl)
  rw [hmap] at hbody
  have hcontent : streamBody ("--".toList ++ contentType.drop (pos + 9)) (body.length + 1)
      (payloadOf body) [] [] =
      ((requestLines (body.length + 1) (payloadOf body)).dropLast).flatten := by
    rw [hbody]
    cases hl : requestLines (body.length + 1) (payloadOf body) with
    | nil => rfl
    | cons l rest => simp [List.dropLast_cons₂]
  have hrun : handleUploadFile "POST".toList contentType body true =
      { response :=
          { freshResponse with
              headers := [("Content-Type".toList, "application/json".toList)],
              payload := Payload.text
                ("\x7b\"success\":true,\"filename\":\"".toList
                  ++ (seekFilename (body.length + 1) body).1 ++ "\"\x7d".toList) },
        file := some
          ("/public/".toList ++ (seekFilename (body.length + 1) body).1,
            ((requestLines (body.length + 1) (payloadOf body)).dropLast).flatten) } := by
    rw [← hcontent]
    unfold handleUploadFile
    rw [if_neg (by simp), hpos]
    simp only [hne, Bool.false_eq_true, if_false, Bool.not_true]
    rfl
  refine ⟨hrun, by rw [hrun]; rfl, ?_⟩
  obtain ⟨p, hp⟩ := payloadOf_rest body
  rw [requestLines_eq]
  exact (linesWith_partition 256 (by decide) _ _ (by
    have := congrArg List.length hp
    rw [List.length_append] at this
    omega)).1

/-- Witness of claim C25: of the payload lines `line1`, `line2`, `line3` the first two are
stored and `line3`, held back at the end of the stream, is not. -/
theorem upload_without_closing_boundary_witness :
    (handleUploadFile "POST".toList "multipart/form-data; boundary=XYZ".toList openEndedBody
        true).file = some ("/public/a.txt".toList, "line1\r\nline2\r\n".toList) :=
  ((congrArg UploadResult.file
    (upload_without_closing_boundary "multipart/form-data; boundary=XYZ".toList openEndedBody
      21 (by decide) (by decide) (by decide)
      (fun l hl h => absurd ((find_isSome_iff _ _).mpr h)
        (Bool.eq_false_iff.mp
          ((by decide : ∀ l ∈ requestLines (openEndedBody.length + 1) (payloadOf openEndedBody),
              (find l ("--".toList ++
                "multipart/form-data; boundary=XYZ".toList.drop (21 + 9)) 0).isSome = false)
            l hl)))).1).trans (by decide))

/-- Claim C26, evaluated at the path `/data.json`: `handleLittleFS` delivers the file with
`Content-Type: application/javascript`, the type the table pairs with `.js`, because the
lookup takes the first entry whose extension occurs anywhere in the path and `.js` occurs
in `.json`; the entry `.json` (`application/json`) is never reached. -/
theorem json_served_as_javascript :
    (handleLittleFS "GET".toList "/data.json".toList jsonOnlyFiles).headers =
        [("Content-Length".toList, "3".toList),
         ("Content-Type".toList, "application/javascript".toList)]
      ∧ (handleLittleFS "GET".toList "/data.json".toList jsonOnlyFiles).statusCode = 200
      ∧ contentTypeLoop "/data.json".toList contentTypes.length 0 ≠
          some "application/json".toList
      ∧ contentTypes.lookup ".json".toList = some "application/json".toList := by
  decide

end WebServer
